import Mathlib

/-!
# Market-data relay: upstream session, codec and fan-out broadcaster

A shallow embedding of `go_api/binancee.go` (package `main`): the
`Broadcaster` with its client set and broadcast queue, `BroadcastLoop`,
`HandleWebSocket`, `streamPrices` with its keepalive handler, and the part of
Go's `encoding/json` and of `gorilla/websocket` that these functions call;
and of `go_api/internal`: the token functions and the middleware of package
`auth` and the handler `Register` of package `handler`, with the part of
`golang-jwt/jwt/v5` and of `gin` that they call.

Conventions of the embedding.

* A Go `string` and a text frame are a `String` (a sequence of Unicode
  scalar values); a `[]byte` payload produced by `json.Marshal` is a `String`
  as well.  `int64` is an `Int` together with an explicit range check where
  the decoder performs one.
* A `*websocket.Conn` is a `Conn`, a natural number standing for the pointer
  identity.
* Logging (`log.Println`, `log.Printf`) has no effect on the state that the
  properties speak about and is left out.
* An instant (`time.Time`) and a `time.Duration` are a number of nanoseconds,
  `Nanos`; each value of `time.Now()` is an argument of the function that
  reads it.
-/

namespace Binance

/-! ## `encoding/json`: reading a document -/

/-- JSON documents as the decoder of `encoding/json` distinguishes them.  A
number keeps its literal, since its conversion depends on the target type. -/
inductive JSON where
  | null
  | bool (b : Bool)
  | number (lit : List Char)
  | string (s : String)
  | array (elems : List JSON)
  | object (members : List (String × JSON))

/-- Insignificant white space of a JSON text. -/
def isSpace (c : Char) : Bool :=
  c == ' ' || c == '\t' || c == '\r' || c == '\n'

/-- Drop leading white space. -/
def skipSpace : List Char → List Char
  | [] => []
  | c :: cs => if isSpace c then skipSpace cs else c :: cs

/-- Decimal digit test. -/
def isDigit (c : Char) : Bool := decide ('0' ≤ c) && decide (c ≤ '9')

/-- Value of a hexadecimal digit. -/
def hexVal (c : Char) : Option Nat :=
  if isDigit c then some (c.toNat - 48)
  else if decide ('a' ≤ c) && decide (c ≤ 'f') then some (c.toNat - 87)
  else if decide ('A' ≤ c) && decide (c ≤ 'F') then some (c.toNat - 55)
  else none

/-- The decoder's `getu4`: the code unit of a leading `\uXXXX`, if the input
starts with one. -/
def getu4 : List Char → Option Nat
  | b :: u :: h1 :: h2 :: h3 :: h4 :: _ =>
    if b == '\\' && u == 'u' then
      match hexVal h1, hexVal h2, hexVal h3, hexVal h4 with
      | some a, some b, some c, some d => some (((a * 16 + b) * 16 + c) * 16 + d)
      | _, _, _, _ => none
    else none
  | _ => none

/-- The replacement character U+FFFD. -/
def replacementChar : Char := Char.ofNat 0xFFFD

/-- A UTF-16 code unit in the surrogate range. -/
def isSurrogate (r : Nat) : Bool := decide (0xD800 ≤ r) && decide (r < 0xE000)

/-- The decoder's `utf16.DecodeRune`: the scalar value of a surrogate pair,
or the replacement character when the pair is not a valid one. -/
def decodeSurrogates (r1 r2 : Nat) : Char :=
  if decide (0xD800 ≤ r1) && decide (r1 < 0xDC00) && decide (0xDC00 ≤ r2) && decide (r2 < 0xE000) then
    Char.ofNat ((r1 - 0xD800) * 1024 + (r2 - 0xDC00) + 0x10000)
  else replacementChar

/-- Single-character escapes of a JSON string. -/
def unescape (c : Char) : Option Char :=
  if c == '"' then some '"'
  else if c == '\\' then some '\\'
  else if c == '/' then some '/'
  else if c == 'b' then some (Char.ofNat 8)
  else if c == 'f' then some (Char.ofNat 12)
  else if c == 'n' then some '\n'
  else if c == 'r' then some '\r'
  else if c == 't' then some '\t'
  else none

/-- Read the body of a string literal, the opening quote already consumed:
the decoded characters and the input after the closing quote.  Control
characters and malformed escapes are rejected; a `\u` escape that is a lone
surrogate decodes to U+FFFD, as in the decoder's `unquote`. -/
def scanString : Nat → List Char → Option (List Char × List Char)
  | 0, _ => none
  | _ + 1, [] => none
  | fuel + 1, c :: cs =>
    if c == '"' then some ([], cs)
    else if c == '\\' then
      match cs with
      | [] => none
      | e :: cs1 =>
        if e == 'u' then
          match getu4 (c :: cs) with
          | none => none
          | some rr =>
            let rest := cs1.drop 4
            if isSurrogate rr then
              match getu4 rest with
              | some rr1 =>
                if decodeSurrogates rr rr1 != replacementChar then
                  (scanString fuel (rest.drop 6)).map
                    (fun p => (decodeSurrogates rr rr1 :: p.1, p.2))
                else (scanString fuel rest).map (fun p => (replacementChar :: p.1, p.2))
              | none => (scanString fuel rest).map (fun p => (replacementChar :: p.1, p.2))
            else (scanString fuel rest).map (fun p => (Char.ofNat rr :: p.1, p.2))
        else
          match unescape e with
          | some ch => (scanString fuel cs1).map (fun p => (ch :: p.1, p.2))
          | none => none
    else if c.toNat < 0x20 then none
    else (scanString fuel cs).map (fun p => (c :: p.1, p.2))

/-- The longest run of leading digits and what follows it. -/
def spanDigits : List Char → List Char × List Char
  | [] => ([], [])
  | c :: cs =>
    if isDigit c then ((c :: (spanDigits cs).1), (spanDigits cs).2) else ([], c :: cs)

/-- Integer part of a number literal: `0`, or a non-zero digit followed by
digits. -/
def scanIntPart : List Char → Option (List Char × List Char)
  | [] => none
  | c :: cs =>
    if c == '0' then some ([c], cs)
    else if isDigit c then some (c :: (spanDigits cs).1, (spanDigits cs).2)
    else none

/-- Optional fraction of a number literal. -/
def scanFrac : List Char → Option (List Char × List Char)
  | [] => some ([], [])
  | c :: cs =>
    if c == '.' then
      match spanDigits cs with
      | ([], _) => none
      | (ds, rest) => some (c :: ds, rest)
    else some ([], c :: cs)

/-- Digits of an exponent, after the optional sign. -/
def scanExpDigits (cs : List Char) : Option (List Char × List Char) :=
  match spanDigits cs with
  | ([], _) => none
  | (ds, rest) => some (ds, rest)

/-- Optional exponent of a number literal. -/
def scanExp : List Char → Option (List Char × List Char)
  | [] => some ([], [])
  | c :: cs =>
    if c == 'e' || c == 'E' then
      match cs with
      | [] => none
      | s :: cs1 =>
        if s == '+' || s == '-' then
          (scanExpDigits cs1).map (fun p => (c :: s :: p.1, p.2))
        else (scanExpDigits cs).map (fun p => (c :: p.1, p.2))
    else some ([], c :: cs)

/-- A number literal: its text and the input after it. -/
def scanNumber (cs : List Char) : Option (List Char × List Char) :=
  let signed : List Char × List Char :=
    match cs with
    | c :: cs1 => if c == '-' then ([c], cs1) else ([], cs)
    | [] => ([], [])
  match scanIntPart signed.2 with
  | none => none
  | some (ip, r1) =>
    match scanFrac r1 with
    | none => none
    | some (fp, r2) =>
      match scanExp r2 with
      | none => none
      | some (ep, r3) => some (signed.1 ++ ip ++ fp ++ ep, r3)

/-- Strip a fixed word from the front of the input. -/
def stripWord : List Char → List Char → Option (List Char)
  | [], cs => some cs
  | _ :: _, [] => none
  | w :: ws, c :: cs => if w == c then stripWord ws cs else none

/-- Nesting limit of the scanner (`maxNestingDepth`). -/
def maxNestingDepth : Nat := 10000

mutual
/-- One JSON value, leading white space allowed; `depth` is the number of
arrays and objects currently open. -/
def parseValue : Nat → Nat → List Char → Option (JSON × List Char)
  | 0, _, _ => none
  | fuel + 1, depth, cs =>
    match skipSpace cs with
    | [] => none
    | c :: rest =>
      if c == '\x7b' then
        if depth + 1 > maxNestingDepth then none
        else
          match skipSpace rest with
          | [] => none
          | d :: rest1 =>
            if d == '\x7d' then some (JSON.object [], rest1)
            else (parseMembers fuel (depth + 1) (d :: rest1)).map
              (fun p => (JSON.object p.1, p.2))
      else if c == '[' then
        if depth + 1 > maxNestingDepth then none
        else
          match skipSpace rest with
          | [] => none
          | d :: rest1 =>
            if d == ']' then some (JSON.array [], rest1)
            else (parseElems fuel (depth + 1) (d :: rest1)).map
              (fun p => (JSON.array p.1, p.2))
      else if c == '"' then
        (scanString (rest.length + 1) rest).map (fun p => (JSON.string (String.mk p.1), p.2))
      else if c == 't' then (stripWord "rue".data rest).map (fun r => (JSON.bool true, r))
      else if c == 'f' then (stripWord "alse".data rest).map (fun r => (JSON.bool false, r))
      else if c == 'n' then (stripWord "ull".data rest).map (fun r => (JSON.null, r))
      else if c == '-' || isDigit c then
        (scanNumber (c :: rest)).map (fun p => (JSON.number p.1, p.2))
      else none
/-- The members of an object from its first key on, up to and including the
closing brace. -/
def parseMembers : Nat → Nat → List Char → Option (List (String × JSON) × List Char)
  | 0, _, _ => none
  | fuel + 1, depth, cs =>
    match skipSpace cs with
    | [] => none
    | q :: rest =>
      if q == '"' then
        match scanString (rest.length + 1) rest with
        | none => none
        | some (key, r1) =>
          match skipSpace r1 with
          | [] => none
          | colon :: r2 =>
            if colon == ':' then
              match parseValue fuel depth r2 with
              | none => none
              | some (v, r3) =>
                match skipSpace r3 with
                | [] => none
                | sep :: r4 =>
                  if sep == ',' then
                    (parseMembers fuel depth r4).map
                      (fun p => ((String.mk key, v) :: p.1, p.2))
                  else if sep == '\x7d' then some ([(String.mk key, v)], r4)
                  else none
            else none
      else none
/-- The elements of an array from its first element on, up to and including
the closing bracket. -/
def parseElems : Nat → Nat → List Char → Option (List JSON × List Char)
  | 0, _, _ => none
  | fuel + 1, depth, cs =>
    match parseValue fuel depth cs with
    | none => none
    | some (v, r1) =>
      match skipSpace r1 with
      | [] => none
      | sep :: r2 =>
        if sep == ',' then (parseElems fuel depth r2).map (fun p => (v :: p.1, p.2))
        else if sep == ']' then some ([v], r2)
        else none
end

/-- A whole JSON text: one value surrounded by optional white space.  `none`
is the decoder's syntax error. -/
def parseJSON (frame : String) : Option JSON :=
  match parseValue (frame.data.length + 1) 0 frame.data with
  | none => none
  | some (v, rest) =>
    match skipSpace rest with
    | [] => some v
    | _ :: _ => none

/-! ## `encoding/json`: decoding into `TickerData` -/

/-- The record `TickerData`: one 24-hour ticker update; every field starts at
its zero value. -/
structure TickerData where
  EventType : String := ""
  EventTime : Int := 0
  Symbol : String := ""
  PriceChange : String := ""
  PriceChangePercent : String := ""
  WeightedAvgPrice : String := ""
  LastPrice : String := ""
  LastQuantity : String := ""
  OpenPrice : String := ""
  HighPrice : String := ""
  LowPrice : String := ""
  Volume : String := ""
  QuoteVolume : String := ""
  OpenTime : Int := 0
  CloseTime : Int := 0
  FirstTradeID : Int := 0
  LastTradeID : Int := 0
  TotalTrades : Int := 0
  deriving DecidableEq, Repr

/-- The fields of `TickerData`, named as in the source. -/
inductive TickerField where
  | EventType | EventTime | Symbol | PriceChange | PriceChangePercent
  | WeightedAvgPrice | LastPrice | LastQuantity | OpenPrice | HighPrice
  | LowPrice | Volume | QuoteVolume | OpenTime | CloseTime | FirstTradeID
  | LastTradeID | TotalTrades
  deriving DecidableEq, Repr

/-- The `json:"..."` tag of each field. -/
def TickerField.tag : TickerField → String
  | .EventType => "e"
  | .EventTime => "E"
  | .Symbol => "s"
  | .PriceChange => "p"
  | .PriceChangePercent => "P"
  | .WeightedAvgPrice => "w"
  | .LastPrice => "c"
  | .LastQuantity => "Q"
  | .OpenPrice => "o"
  | .HighPrice => "h"
  | .LowPrice => "l"
  | .Volume => "v"
  | .QuoteVolume => "q"
  | .OpenTime => "O"
  | .CloseTime => "C"
  | .FirstTradeID => "F"
  | .LastTradeID => "L"
  | .TotalTrades => "n"

/-- The fields in declaration order. -/
def tickerFields : List TickerField :=
  [.EventType, .EventTime, .Symbol, .PriceChange, .PriceChangePercent,
   .WeightedAvgPrice, .LastPrice, .LastQuantity, .OpenPrice, .HighPrice,
   .LowPrice, .Volume, .QuoteVolume, .OpenTime, .CloseTime, .FirstTradeID,
   .LastTradeID, .TotalTrades]

/-- Fields of an integer type (`int64`, `int`); the others are strings. -/
def TickerField.isInt : TickerField → Bool
  | .EventTime | .OpenTime | .CloseTime | .FirstTradeID | .LastTradeID | .TotalTrades => true
  | _ => false

/-- The decoder's `foldRune` on the characters that can fold onto a tag of
`TickerData`: the smallest member of the simple case-folding orbit.  Only the
ASCII letters, U+017F (long s) and U+212A (Kelvin sign) fold onto an ASCII
character. -/
def foldRune (c : Char) : Char :=
  if decide ('a' ≤ c) && decide (c ≤ 'z') then Char.ofNat (c.toNat - 32)
  else if c == Char.ofNat 0x17F then 'S'
  else if c == Char.ofNat 0x212A then 'K'
  else c

/-- The decoder's `foldName`. -/
def foldName (s : String) : String := String.mk (s.data.map foldRune)

/-- Field lookup for an object key: an exact match of the tag first, else the
first field whose tag matches under case folding. -/
def findField (key : String) : Option TickerField :=
  match tickerFields.find? (fun f => f.tag == key) with
  | some f => some f
  | none => tickerFields.find? (fun f => foldName f.tag == foldName key)

/-- Store a string into a string field. -/
def TickerData.setString (t : TickerData) (f : TickerField) (s : String) : TickerData :=
  match f with
  | .EventType => { t with EventType := s }
  | .Symbol => { t with Symbol := s }
  | .PriceChange => { t with PriceChange := s }
  | .PriceChangePercent => { t with PriceChangePercent := s }
  | .WeightedAvgPrice => { t with WeightedAvgPrice := s }
  | .LastPrice => { t with LastPrice := s }
  | .LastQuantity => { t with LastQuantity := s }
  | .OpenPrice => { t with OpenPrice := s }
  | .HighPrice => { t with HighPrice := s }
  | .LowPrice => { t with LowPrice := s }
  | .Volume => { t with Volume := s }
  | .QuoteVolume => { t with QuoteVolume := s }
  | _ => t

/-- Store an integer into an integer field. -/
def TickerData.setInt (t : TickerData) (f : TickerField) (n : Int) : TickerData :=
  match f with
  | .EventTime => { t with EventTime := n }
  | .OpenTime => { t with OpenTime := n }
  | .CloseTime => { t with CloseTime := n }
  | .FirstTradeID => { t with FirstTradeID := n }
  | .LastTradeID => { t with LastTradeID := n }
  | .TotalTrades => { t with TotalTrades := n }
  | _ => t

/-- Value of a run of decimal digits. -/
def digitsValue (ds : List Char) : Nat :=
  ds.foldl (fun acc c => acc * 10 + (c.toNat - 48)) 0

/-- The range check of `strconv.ParseInt(_, 10, 64)`. -/
def checkInt64 (v : Int) : Option Int :=
  if decide (-(2 : Int) ^ 63 ≤ v) && decide (v ≤ (2 : Int) ^ 63 - 1) then some v else none

/-- The conversion `strconv.ParseInt(lit, 10, 64)` of a JSON number literal:
a literal with a fraction or an exponent, or outside the `int64` range, is
refused. -/
def parseInt64 (lit : List Char) : Option Int :=
  if lit.head? == some '-' then
    if (lit.drop 1).isEmpty || !(lit.drop 1).all isDigit then none
    else checkInt64 (-(digitsValue (lit.drop 1) : Int))
  else
    if lit.isEmpty || !lit.all isDigit then none
    else checkInt64 (digitsValue lit : Int)

/-- Errors of `json.Unmarshal`. -/
inductive UnmarshalError where
  /-- the text is not a JSON document -/
  | malformed
  /-- a JSON value does not fit the Go type it is decoded into -/
  | typeMismatch (goField : String)
  deriving DecidableEq, Repr

/-- Decode one JSON value into a field: a string into a string field, an
integer literal into an integer field, `null` into anything (a no-op);
everything else is a type error. -/
def decodeField (t : TickerData) (f : TickerField) (v : JSON) : Except UnmarshalError TickerData :=
  match v with
  | .null => .ok t
  | .string s => if f.isInt then .error (.typeMismatch f.tag) else .ok (t.setString f s)
  | .number lit =>
    if f.isInt then
      match parseInt64 lit with
      | some n => .ok (t.setInt f n)
      | none => .error (.typeMismatch f.tag)
    else .error (.typeMismatch f.tag)
  | _ => .error (.typeMismatch f.tag)

/-- Decode the members of an object in order; a key naming no field is
skipped, a repeated key overwrites. -/
def decodeMembers : List (String × JSON) → TickerData → Except UnmarshalError TickerData
  | [], t => .ok t
  | (key, v) :: rest, t =>
    match findField key with
    | none => decodeMembers rest t
    | some f =>
      match decodeField t f v with
      | .error e => .error e
      | .ok t1 => decodeMembers rest t1

/-- The call `json.Unmarshal(message, &ticker)` on a fresh `TickerData`: the
decoded record, or the fact that an error is returned.  A type error does not
stop Go's decoder, which reports the first one once the document is read; the
callers here drop the record whenever an error is reported. -/
def unmarshalTicker (message : String) : Except UnmarshalError TickerData :=
  match parseJSON message with
  | none => .error .malformed
  | some .null => .ok {}
  | some (.object members) => decodeMembers members {}
  | some _ => .error (.typeMismatch "TickerData")

/-! ## `encoding/json`: writing a document -/

/-- Lower-case hexadecimal digit. -/
def hexDigit (n : Nat) : Char := "0123456789abcdef".data.getD n '0'

/-- The escape `\u00XX` and friends: four hexadecimal digits of a code unit. -/
def unicodeEscape (n : Nat) : List Char :=
  ['\\', 'u', hexDigit (n / 4096 % 16), hexDigit (n / 256 % 16), hexDigit (n / 16 % 16),
    hexDigit (n % 16)]

/-- How the encoder writes one character of a string (HTML escaping on, the
encoder's default). -/
def escapeChar (c : Char) : List Char :=
  if c == '"' then ['\\', '"']
  else if c == '\\' then ['\\', '\\']
  else if c == Char.ofNat 8 then ['\\', 'b']
  else if c == Char.ofNat 12 then ['\\', 'f']
  else if c == '\n' then ['\\', 'n']
  else if c == '\r' then ['\\', 'r']
  else if c == '\t' then ['\\', 't']
  else if c.toNat < 0x20 || c == '<' || c == '>' || c == '&'
      || c == Char.ofNat 0x2028 || c == Char.ofNat 0x2029 then unicodeEscape c.toNat
  else [c]

/-- Escape every character of a string body. -/
def escapeChars : List Char → List Char
  | [] => []
  | c :: cs => escapeChar c ++ escapeChars cs

/-- A quoted JSON string. -/
def encodeString (s : String) : List Char :=
  '"' :: (escapeChars s.data ++ ['"'])

/-- Decimal digits of a natural number, most significant first, in front of
`acc`; a fuel above the number of digits is enough. -/
def natDigits : Nat → Nat → List Char → List Char
  | 0, _, acc => acc
  | fuel + 1, n, acc =>
    if n < 10 then Char.ofNat (48 + n) :: acc
    else natDigits fuel (n / 10) (Char.ofNat (48 + n % 10) :: acc)

/-- The encoder's `strconv.AppendInt(_, n, 10)`. -/
def formatInt (n : Int) : List Char :=
  if n < 0 then '-' :: natDigits (n.natAbs + 1) n.natAbs []
  else natDigits (n.natAbs + 1) n.natAbs []

/-- The values stored in the `map[string]interface{}` of the source: a Go
`string` or an `int64`. -/
inductive GoValue where
  | str (s : String)
  | int64 (n : Int)
  deriving DecidableEq, Repr

/-- Encoding of one value. -/
def encodeValue : GoValue → List Char
  | .str s => encodeString s
  | .int64 n => formatInt n

/-- Go's string order `a < b` (bytewise on UTF-8, which is the order of the
code points). -/
def ltChars : List Char → List Char → Bool
  | _, [] => false
  | [], _ :: _ => true
  | a :: as, b :: bs =>
    if a.toNat < b.toNat then true
    else if b.toNat < a.toNat then false
    else ltChars as bs

/-- Insert an entry into a list sorted by key. -/
def insertByKey (e : String × GoValue) : List (String × GoValue) → List (String × GoValue)
  | [] => [e]
  | x :: xs => if ltChars e.1.data x.1.data then e :: x :: xs else x :: insertByKey e xs

/-- The entries of a map in the order the encoder writes them: sorted by key. -/
def sortByKey : List (String × GoValue) → List (String × GoValue)
  | [] => []
  | e :: es => insertByKey e (sortByKey es)

/-- The members `"k":v` separated by commas. -/
def encodeMembers : List (String × GoValue) → List Char
  | [] => []
  | [e] => encodeString e.1 ++ (':' :: encodeValue e.2)
  | e :: es => encodeString e.1 ++ (':' :: encodeValue e.2) ++ (',' :: encodeMembers es)

/-- The call `json.Marshal(m)` for a `map[string]interface{}` given by its
entries (distinct keys): an object with the keys in sorted order, without
white space.  It cannot fail for string and integer values. -/
def marshalMap (m : List (String × GoValue)) : String :=
  String.mk ('\x7b' :: (encodeMembers (sortByKey m) ++ ['\x7d']))

/-! ## The broadcaster -/

/-- A downstream connection (`*websocket.Conn`), identified by its pointer. -/
abbrev Conn := Nat

/-- One call of `client.WriteMessage(websocket.TextMessage, msg)` and whether
it returned a nil error. -/
structure WriteAttempt where
  conn : Conn
  data : String
  ok : Bool
  deriving DecidableEq, Repr

/-- The `Broadcaster` together with what it has done to the downstream
connections: `clients` holds the keys of the map `clients` (the client set),
`writes` every `WriteMessage` call in the order made, `closed` every
`Close()` call on a downstream connection in the order made. -/
structure Broadcaster where
  clients : List Conn := []
  writes : List WriteAttempt := []
  closed : List Conn := []
  deriving DecidableEq, Repr

/-- The constructor `NewBroadcaster`: an empty client set. -/
def NewBroadcaster : Broadcaster := {}

/-- The map store `b.clients[conn] = true`. -/
def mapInsert (c : Conn) (m : List Conn) : List Conn :=
  if c ∈ m then m else m ++ [c]

/-- The builtin `delete(b.clients, conn)`: no key `conn` afterwards, and no
effect when the key is absent. -/
def mapDelete (c : Conn) (m : List Conn) : List Conn :=
  m.filter (fun x => x != c)

/-- What one iteration of `for msg := range b.broadcast` meets: the order in
which `range b.clients` produces the keys (Go leaves it unspecified) and, for
every connection, whether a write to it fails. -/
structure Cycle where
  order : List Conn
  fails : Conn → Bool

/-- The inner loop `for client := range b.clients` of `BroadcastLoop` for one
message.  A key deleted before the iteration reaches it is not produced; a
failed write closes the connection and deletes it from the map. -/
def broadcastCycle (fails : Conn → Bool) (msg : String) : List Conn → Broadcaster → Broadcaster
  | [], b => b
  | client :: rest, b =>
    if client ∈ b.clients then
      if fails client then
        broadcastCycle fails msg rest
          { clients := mapDelete client b.clients
            writes := b.writes ++ [{ conn := client, data := msg, ok := false }]
            closed := b.closed ++ [client] }
      else
        broadcastCycle fails msg rest
          { b with writes := b.writes ++ [{ conn := client, data := msg, ok := true }] }
    else broadcastCycle fails msg rest b

/-- The loop `BroadcastLoop`, run on the messages received from the channel
`broadcast`, in order, the k-th message meeting the k-th cycle. -/
def BroadcastLoop : List String → List Cycle → Broadcaster → Broadcaster
  | msg :: msgs, cy :: cys, b => BroadcastLoop msgs cys (broadcastCycle cy.fails msg cy.order b)
  | _, _, b => b

/-- The steps that take the mutex `mu`: one cycle of `BroadcastLoop`, the
registration of `HandleWebSocket` and its removal once the read loop ends. -/
inductive HubEvent where
  | broadcast (msg : String) (cy : Cycle)
  | register (c : Conn)
  | unregister (c : Conn)

/-- Effect of one step on the broadcaster. -/
def Broadcaster.step (b : Broadcaster) : HubEvent → Broadcaster
  | .broadcast msg cy => broadcastCycle cy.fails msg cy.order b
  | .register c => { b with clients := mapInsert c b.clients }
  | .unregister c => { b with clients := mapDelete c b.clients }

/-- An interleaving of such steps, serialized by the mutex. -/
def Broadcaster.run (b : Broadcaster) : List HubEvent → Broadcaster
  | [] => b
  | ev :: evs => (b.step ev).run evs

/-- Every cycle of the run enumerates the client set it finds: its order is a
permutation of the keys of the map at that moment. -/
def ValidRun : Broadcaster → List HubEvent → Prop
  | _, [] => True
  | b, .broadcast msg cy :: evs =>
    cy.order.Perm b.clients ∧ ValidRun (b.step (.broadcast msg cy)) evs
  | b, .register c :: evs => ValidRun (b.step (.register c)) evs
  | b, .unregister c :: evs => ValidRun (b.step (.unregister c)) evs

instance ValidRun.decidable : ∀ (b : Broadcaster) (evs : List HubEvent),
    Decidable (ValidRun b evs)
  | _, [] => isTrue trivial
  | b, .broadcast msg cy :: evs =>
    have := ValidRun.decidable (b.step (.broadcast msg cy)) evs
    inferInstanceAs (Decidable (cy.order.Perm b.clients ∧ _))
  | b, .register c :: evs => ValidRun.decidable (b.step (.register c)) evs
  | b, .unregister c :: evs => ValidRun.decidable (b.step (.unregister c)) evs

/-- The step neither removes `c` through `HandleWebSocket` nor meets a failing
write to `c`. -/
def HubEvent.keeps (c : Conn) : HubEvent → Bool
  | .broadcast _ cy => !cy.fails c
  | .register _ => true
  | .unregister d => d != c

/-- The payloads accepted from the queue during a run, in order. -/
def payloads : List HubEvent → List String
  | [] => []
  | .broadcast msg _ :: evs => msg :: payloads evs
  | _ :: evs => payloads evs

/-- The messages for which `WriteMessage` was called on `c`, in order. -/
def attempts (c : Conn) (b : Broadcaster) : List String :=
  (b.writes.filter (fun w => w.conn == c)).map (fun w => w.data)

/-- The messages that sink `c` received: the successful writes, in order. -/
def received (c : Conn) (b : Broadcaster) : List String :=
  (b.writes.filter (fun w => w.conn == c && w.ok)).map (fun w => w.data)

/-! ## The upstream session -/

/-- Error values: the `*websocket.CloseError` of gorilla/websocket, any other
error, and an error wrapped by `fmt.Errorf("...: %w", err)`. -/
inductive GoError where
  | closeError (code : Int) (text : String)
  | other (msg : String)
  | wrap (msg : String) (inner : GoError)
  deriving DecidableEq, Repr

/-- The close code `websocket.CloseNormalClosure`. -/
def CloseNormalClosure : Int := 1000

/-- The test `websocket.IsCloseError(err, codes...)`: `err` is itself a
`*CloseError` and its code is one of `codes`. -/
def IsCloseError (err : GoError) (codes : List Int) : Bool :=
  match err with
  | .closeError code _ => codes.contains code
  | _ => false

/-- The record `SubscriptionMessage`. -/
structure SubscriptionMessage where
  Method : String
  Params : List String
  ID : Int
  deriving DecidableEq, Repr

/-- The subscribe request built by `streamPrices`. -/
def subscribeMsg : SubscriptionMessage :=
  { Method := "SUBSCRIBE", Params := ["btcusdt@ticker"], ID := 1 }

/-- The unsubscribe request built by `streamPrices`. -/
def unsubscribeMsg : SubscriptionMessage :=
  { Method := "UNSUBSCRIBE", Params := ["btcusdt@ticker"], ID := 2 }

/-- What one iteration of the loop of `streamPrices` meets: the context is
done when the `select` runs, or the `default` branch runs and
`conn.ReadMessage()` returns a frame or an error. -/
inductive LoopEvent where
  | done
  | message (data : String)
  | readError (err : GoError)
  deriving DecidableEq, Repr

/-- The behaviour of the upstream peer and of the context during one call of
`streamPrices`: the errors of `Dial` and of the two `WriteJSON` calls (if
any), and what the successive iterations of the loop meet. -/
structure Upstream where
  dial : Option GoError := none
  subscribe : Option GoError := none
  unsubscribe : Option GoError := none
  events : List LoopEvent := []

/-- Whether `streamPrices` has returned, and with which error. -/
inductive Outcome where
  | running
  | returned (err : Option GoError)
  deriving DecidableEq, Repr

/-- The observable effects of `streamPrices`: the `WriteJSON` calls on the
upstream connection, the number of `ReadMessage` calls, the payloads sent on
`broadcaster.broadcast` in order, whether the deferred `conn.Close()` ran, and
the outcome. -/
structure Session where
  writes : List SubscriptionMessage := []
  reads : Nat := 0
  queue : List String := []
  connClosed : Bool := false
  outcome : Outcome := .running
  deriving DecidableEq, Repr

/-- The map `simplified` built from a ticker record. -/
def simplified (ticker : TickerData) : List (String × GoValue) :=
  [("symbol", .str ticker.Symbol),
   ("price", .str ticker.LastPrice),
   ("change", .str ticker.PriceChangePercent),
   ("volume", .str ticker.Volume),
   ("timestamp", .int64 ticker.EventTime)]

/-- The main loop of `streamPrices`, from the state reached after the
subscription.  When the events run out the function has not returned: it is
blocked in `ReadMessage`. -/
def streamLoop : List LoopEvent → Session → Session
  | [], s => s
  | .done :: _, s =>
    { s with writes := s.writes ++ [unsubscribeMsg], connClosed := true,
             outcome := .returned none }
  | .readError err :: _, s =>
    if IsCloseError err [CloseNormalClosure] then
      { s with reads := s.reads + 1, connClosed := true, outcome := .returned none }
    else
      { s with reads := s.reads + 1, connClosed := true,
               outcome := .returned (some (.wrap "error reading message" err)) }
  | .message message :: rest, s =>
    match unmarshalTicker message with
    | .error _ => streamLoop rest { s with reads := s.reads + 1 }
    | .ok ticker =>
      if ticker.EventType == "24hrTicker" then
        streamLoop rest
          { s with reads := s.reads + 1, queue := s.queue ++ [marshalMap (simplified ticker)] }
      else streamLoop rest { s with reads := s.reads + 1 }

/-- The function `streamPrices`. -/
def streamPrices (up : Upstream) : Session :=
  match up.dial with
  | some err => { outcome := .returned (some (.wrap "failed to connect to Binance" err)) }
  | none =>
    match up.subscribe with
    | some err =>
      { writes := [subscribeMsg], connClosed := true,
        outcome := .returned (some (.wrap "failed to subscribe" err)) }
    | none => streamLoop up.events { writes := [subscribeMsg] }

/-- A session whose connection and subscription succeed and which then meets
the given events. -/
def streaming (events : List LoopEvent) : Upstream := { events := events }

/-! ## Frames and payloads of the scenarios -/

/-- The test made by the helper `processMessage`: the frame decodes to a JSON
object that has a key `result`. -/
def containsResultKey (frame : String) : Bool :=
  match parseJSON frame with
  | some (.object members) => members.any (fun m => m.1 == "result")
  | _ => false

/-- The ticker frame of the delivery scenario. -/
def tickerFrame : String :=
  "\x7b\"e\":\"24hrTicker\",\"E\":1700000000000,\"s\":\"BTCUSDT\",\"c\":\"65000.10\",\"P\":\"1.23\",\"v\":\"1000.5\"\x7d"

/-- The record that `tickerFrame` decodes to. -/
def tickerRecord : TickerData :=
  { EventType := "24hrTicker", EventTime := 1700000000000, Symbol := "BTCUSDT",
    PriceChangePercent := "1.23", LastPrice := "65000.10", Volume := "1000.5" }

/-- The payload for `tickerFrame` with the members in the order symbol, price,
change, volume, timestamp. -/
def tickerPayloadAsListed : String :=
  "\x7b\"symbol\":\"BTCUSDT\",\"price\":\"65000.10\",\"change\":\"1.23\",\"volume\":\"1000.5\",\"timestamp\":1700000000000\x7d"

/-- The payload for `tickerFrame` with the members in ascending key order. -/
def tickerPayloadSorted : String :=
  "\x7b\"change\":\"1.23\",\"price\":\"65000.10\",\"symbol\":\"BTCUSDT\",\"timestamp\":1700000000000,\"volume\":\"1000.5\"\x7d"

/-- The subscription acknowledgement sent by the exchange. -/
def ackFrame : String := "\x7b\"result\":null,\"id\":1\x7d"

/-- A frame with a `result` key and the ticker event type. -/
def resultTickerFrame : String := "\x7b\"result\":null,\"e\":\"24hrTicker\"\x7d"

/-- The step is not a registration of `k`. -/
def HubEvent.leavesOut (k : Conn) : HubEvent → Bool
  | .register c => c != k
  | _ => true

/-! ## Notions used to state the read-back of the encoder's output -/

/-- A character that ends a number literal: not a digit and not the start of a
fraction or of an exponent. -/
def endsNumber (c : Char) : Bool :=
  !isDigit c && c != '.' && c != 'e' && c != 'E'

/-- The JSON value that the encoder writes for a Go value. -/
def GoValue.toJSON : GoValue → JSON
  | .str s => .string s
  | .int64 n => .number (formatInt n)

/-- The character after a member's value: a comma or the closing brace. -/
def endsMember (c : Char) : Bool := c == ',' || c == '\x7d'

/-- An `int64` value. -/
def isInt64 (n : Int) : Prop := -(2 : Int) ^ 63 ≤ n ∧ n ≤ (2 : Int) ^ 63 - 1

instance isInt64.decidable (n : Int) : Decidable (isInt64 n) := by
  unfold isInt64
  infer_instance

/-! ## The calls made on the upstream connection -/

/-- A call that `streamPrices` makes on the upstream connection `conn`. -/
inductive UpstreamCall where
  | writeJSON (m : SubscriptionMessage)
  | setPingHandler
  | readMessage
  | close
  deriving DecidableEq, Repr

/-- The calls of the main loop of `streamPrices`, in order, up to and
including the deferred `conn.Close()` when the function returns. -/
def callsLoop : List LoopEvent → List UpstreamCall
  | [] => []
  | .done :: _ => [.writeJSON unsubscribeMsg, .close]
  | .readError _ :: _ => [.readMessage, .close]
  | .message _ :: rest => .readMessage :: callsLoop rest

/-- The calls that `streamPrices` makes on the upstream connection, in order.
`conn.Close()` is deferred right after a successful `Dial`, so it runs last,
when the function returns; no connection exists when `Dial` fails. -/
def upstreamCalls (up : Upstream) : List UpstreamCall :=
  match up.dial with
  | some _ => []
  | none =>
    match up.subscribe with
    | some _ => [.writeJSON subscribeMsg, .close]
    | none => .writeJSON subscribeMsg :: .setPingHandler :: callsLoop up.events

/-- The messages passed to `WriteJSON` among some calls. -/
def writtenMessages : List UpstreamCall → List SubscriptionMessage
  | [] => []
  | .writeJSON m :: cs => m :: writtenMessages cs
  | _ :: cs => writtenMessages cs

/-! ## `encoding/json`: writing a `SubscriptionMessage` -/

/-- The elements of a `[]string`, each a quoted string, separated by commas. -/
def encodeStrings : List String → List Char
  | [] => []
  | [s] => encodeString s
  | s :: ss => encodeString s ++ (',' :: encodeStrings ss)

/-- The call `json.Marshal(m)` for a `SubscriptionMessage` (with a non-nil
`Params`): the fields in declaration order under their tags `method`,
`params`, `id`. -/
def marshalSubscription (m : SubscriptionMessage) : String :=
  String.mk ("\x7b\"method\":".data ++ encodeString m.Method
    ++ ",\"params\":[".data ++ encodeStrings m.Params
    ++ "],\"id\":".data ++ formatInt m.ID ++ "\x7d".data)

/-- The text frame that `conn.WriteJSON(m)` writes: `WriteJSON` runs
`json.NewEncoder(w).Encode(m)`, which ends the document with a line feed. -/
def writeJSONFrame (m : SubscriptionMessage) : String :=
  String.mk ((marshalSubscription m).data ++ ['\n'])

/-- The keys of a JSON object, in the order written. -/
def JSON.keys : JSON → List String
  | .object members => members.map Prod.fst
  | _ => []

/-! ## The keepalive handler -/

/-- An instant or a duration of package `time`, in nanoseconds. -/
abbrev Nanos := Int

/-- The constant `time.Second`. -/
def Second : Nanos := 1000000000

/-- The message type `websocket.PongMessage`. -/
def PongMessage : Int := 10

/-- One call `conn.WriteControl(messageType, data, deadline)`. -/
structure ControlWrite where
  messageType : Int
  data : String
  deadline : Nanos
  deriving DecidableEq, Repr

/-- The handler that `streamPrices` installs with `conn.SetPingHandler`, run
at instant `now` (the value of `time.Now()`) on a ping with application data
`appData`; `writeControl` is the behaviour of `conn.WriteControl`.  The result
is the list of `WriteControl` calls made and the error returned. -/
def pingHandler (now : Nanos) (writeControl : ControlWrite → Option GoError)
    (appData : String) : List ControlWrite × Option GoError :=
  ([{ messageType := PongMessage, data := appData, deadline := now + Second }],
   writeControl { messageType := PongMessage, data := appData, deadline := now + Second })

/-! ## The steps of `BroadcastLoop` and `HandleWebSocket`, with the mutex -/

/-- An atomic step of `BroadcastLoop` or of `HandleWebSocket`: taking and
releasing the mutex `mu`, the two operations on the map `clients`, and the
calls on a downstream connection (`WriteMessage` with its outcome,
`ReadMessage` with the message it returns or `none` for an error, `Close`). -/
inductive Action where
  | lock
  | unlock
  | insert (c : Conn)
  | delete (c : Conn)
  | write (c : Conn) (msg : String) (ok : Bool)
  | read (c : Conn) (msg : Option String)
  | close (c : Conn)
  deriving DecidableEq, Repr

/-- The step is a call on a downstream connection (sink I/O). -/
def Action.isSinkIO : Action → Bool
  | .write _ _ _ => true
  | .read _ _ => true
  | .close _ => true
  | _ => false

/-- Effect of one step on the broadcaster. -/
def Broadcaster.perform (b : Broadcaster) : Action → Broadcaster
  | .insert c => { b with clients := mapInsert c b.clients }
  | .delete c => { b with clients := mapDelete c b.clients }
  | .write c msg ok => { b with writes := b.writes ++ [{ conn := c, data := msg, ok := ok }] }
  | .close c => { b with closed := b.closed ++ [c] }
  | _ => b

/-- Effect of a sequence of steps. -/
def Broadcaster.exec (b : Broadcaster) : List Action → Broadcaster
  | [] => b
  | a :: as => (b.perform a).exec as

/-- The steps of the inner loop `for client := range b.clients` for one
message, given the enumeration order and the current keys of the map. -/
def cycleBody (fails : Conn → Bool) (msg : String) : List Conn → List Conn → List Action
  | [], _ => []
  | client :: rest, clients =>
    if client ∈ clients then
      if fails client then
        .write client msg false :: .close client :: .delete client ::
          cycleBody fails msg rest (mapDelete client clients)
      else .write client msg true :: cycleBody fails msg rest clients
    else cycleBody fails msg rest clients

/-- The steps of one iteration of `for msg := range b.broadcast`:
`b.mu.Lock()`, the inner loop, `b.mu.Unlock()`. -/
def cycleActions (fails : Conn → Bool) (msg : String) (order clients : List Conn) :
    List Action :=
  .lock :: (cycleBody fails msg order clients ++ [.unlock])

/-- What one call of `HandleWebSocket` meets: the connection returned by
`upgrader.Upgrade` (`none` when it returns an error) and the messages that
`conn.ReadMessage()` returns before its first error. -/
structure WebSocketCall where
  upgrade : Option Conn
  inbound : List String

/-- The registration of `HandleWebSocket`: the store into the map, under the
mutex. -/
def registration (conn : Conn) : List Action := [.lock, .insert conn, .unlock]

/-- The read loop of `HandleWebSocket`: every message is read and dropped; the
loop ends at the first read error. -/
def readLoop (conn : Conn) (inbound : List String) : List Action :=
  inbound.map (fun m => Action.read conn (some m)) ++ [.read conn none]

/-- The end of `HandleWebSocket`: the deletion from the map, under the mutex,
then the deferred `conn.Close()`. -/
def removal (conn : Conn) : List Action := [.lock, .delete conn, .unlock, .close conn]

/-- The steps of one call of `HandleWebSocket`, in order; a failed upgrade
returns at once. -/
def HandleWebSocket (call : WebSocketCall) : List Action :=
  match call.upgrade with
  | none => []
  | some conn => registration conn ++ readLoop conn call.inbound ++ removal conn

/-- The sink I/O steps of a trace that are made while the mutex is held;
`held` tells whether it is held at the start. -/
def ioUnderLock : Bool → List Action → List Action
  | _, [] => []
  | _, .lock :: as => ioUnderLock true as
  | _, .unlock :: as => ioUnderLock false as
  | held, a :: as =>
    if held && a.isSinkIO then a :: ioUnderLock held as else ioUnderLock held as

/-- The sink I/O steps of a trace that are made while the mutex is not held. -/
def ioOutsideLock : Bool → List Action → List Action
  | _, [] => []
  | _, .lock :: as => ioOutsideLock true as
  | _, .unlock :: as => ioOutsideLock false as
  | held, a :: as =>
    if !held && a.isSinkIO then a :: ioOutsideLock held as else ioOutsideLock held as

/-! ## The channel `broadcast` and the end of `BroadcastLoop` -/

/-- The channel `broadcast` as its receiver sees it: the values sent, in
order, and whether `close` has been called on it. -/
structure Channel where
  sent : List String
  closed : Bool
  deriving DecidableEq, Repr

/-- The channel as a session leaves it.  `streamPrices` only sends on
`broadcaster.broadcast`; neither it nor any other function of the program
calls `close` on the channel. -/
def broadcastChannel (s : Session) : Channel :=
  { sent := s.queue, closed := false }

/-- Where the loop `for msg := range b.broadcast` stands once the cycles given
are used up: it has left the loop, it is blocked receiving from the channel,
or a value sent is still to be taken. -/
inductive LoopStatus where
  | exited
  | waiting
  | pending
  deriving DecidableEq, Repr

/-- The loop of `BroadcastLoop` on a channel: every value sent is received in
order and broadcast; when none is left, `range` ends if the channel is closed
and blocks otherwise. -/
def rangeBroadcast (closed : Bool) : List String → List Cycle → Broadcaster →
    Broadcaster × LoopStatus
  | [], _, b => (b, if closed then .exited else .waiting)
  | _ :: _, [], b => (b, .pending)
  | msg :: msgs, cy :: cys, b =>
    rangeBroadcast closed msgs cys (broadcastCycle cy.fails msg cy.order b)

/-! ## When the cancellation signal arrives -/

/-- What a call of `conn.ReadMessage()` returns. -/
inductive ReadResult where
  | frame (data : String)
  | failure (err : GoError)
  deriving DecidableEq, Repr

/-- The iteration of the loop that meets a given read result. -/
def ReadResult.event : ReadResult → LoopEvent
  | .frame data => .message data
  | .failure err => .readError err

/-- The moment the context is cancelled, counted in reads of the session
(from 0): never, before the iteration that would make read `k` begins, or
while read `k` is in flight (the loop is blocked in `ReadMessage`). -/
inductive CancelAt where
  | never
  | beforeIteration (k : Nat)
  | duringRead (k : Nat)
  deriving DecidableEq, Repr

/-- Whether `ctx.Done()` is ready when the `select` of the iteration that
would make read `i` runs. -/
def CancelAt.observed : CancelAt → Nat → Bool
  | .never, _ => false
  | .beforeIteration k, i => decide (k ≤ i)
  | .duringRead k, i => decide (k < i)

/-- The iterations of the loop of `streamPrices` for the given read results
and cancellation moment, from the iteration that would make read `i`: the
`select` takes the `ctx.Done()` case when it is ready and the `default` case,
which reads, otherwise. -/
def schedule (cancel : CancelAt) : Nat → List ReadResult → List LoopEvent
  | i, [] => if cancel.observed i then [.done] else []
  | i, r :: rs =>
    if cancel.observed i then [.done] else r.event :: schedule cancel (i + 1) rs

/-! ## Sessions of the start-up scenarios -/

/-- A session whose `Dial` fails. -/
def unreachableUpstream : Upstream :=
  { dial := some (.other "no route to host"), events := [.message tickerFrame] }

/-- A session whose subscribe write fails. -/
def refusedSubscription : Upstream :=
  { subscribe := some (.other "broken pipe"), events := [.message tickerFrame] }

/-- A session that is cancelled after one frame and whose unsubscribe write
fails. -/
def cancelledUpstream : Upstream :=
  { unsubscribe := some (.other "broken pipe"), events := [.message tickerFrame, .done] }

/-- A record with empty strings, strings that need escaping and the least
`int64` as timestamp. -/
def escapingRecord : TickerData :=
  { EventType := "24hrTicker", EventTime := -9223372036854775808, Symbol := "<x\n",
    LastPrice := "a\"b\\c" }

/-- The key order that `json.Marshal` sorts a map by. -/
def keyLt (a b : String × GoValue) : Prop := ltChars a.1.data b.1.data = true

instance keyLt.decidable (a b : String × GoValue) : Decidable (keyLt a b) := by
  unfold keyLt
  infer_instance

/-! ## The helper `processMessageForBroadcast` -/

/-- The helper `processMessageForBroadcast`: the JSON bytes (`none` for `nil`)
and whether broadcasting should occur. -/
def processMessageForBroadcast (message : String) : Option String × Bool :=
  match unmarshalTicker message with
  | .error _ => (none, false)
  | .ok ticker =>
    if ticker.EventType == "24hrTicker" then
      (some (marshalMap
        [("symbol", .str ticker.Symbol),
         ("price", .str ticker.LastPrice),
         ("change", .str ticker.PriceChangePercent),
         ("volume", .str ticker.Volume),
         ("timestamp", .int64 ticker.EventTime)]), true)
    else (none, false)

/-! ## Writes that do not return -/

/-- What a call of `client.WriteMessage` does: it returns nil, it returns an
error, or it never returns (the peer does not read and no deadline is set). -/
inductive WriteOutcome where
  | ok
  | failed
  | never
  deriving DecidableEq, Repr

/-- The inner loop of `BroadcastLoop` for one message when a write may never
return: the broadcaster reached, and whether the loop is stuck inside a
`WriteMessage` call (with the mutex held). -/
def blockingCycle (outcome : Conn → WriteOutcome) (msg : String) :
    List Conn → Broadcaster → Broadcaster × Bool
  | [], b => (b, false)
  | client :: rest, b =>
    if client ∈ b.clients then
      match outcome client with
      | .never => (b, true)
      | .failed =>
        blockingCycle outcome msg rest
          { clients := mapDelete client b.clients
            writes := b.writes ++ [{ conn := client, data := msg, ok := false }]
            closed := b.closed ++ [client] }
      | .ok =>
        blockingCycle outcome msg rest
          { b with writes := b.writes ++ [{ conn := client, data := msg, ok := true }] }
    else blockingCycle outcome msg rest b

/-- What one iteration of `for msg := range b.broadcast` meets when a write
may never return. -/
structure BlockingCycle where
  order : List Conn
  outcome : Conn → WriteOutcome

/-- The loop `BroadcastLoop` when a write may never return: a cycle that is
stuck is never left, so no later message is received. -/
def blockingLoop : List String → List BlockingCycle → Broadcaster → Broadcaster × Bool
  | msg :: msgs, cy :: cys, b =>
    if (blockingCycle cy.outcome msg cy.order b).2 then blockingCycle cy.outcome msg cy.order b
    else blockingLoop msgs cys (blockingCycle cy.outcome msg cy.order b).1
  | _, _, b => (b, false)

/-- The writes that return an error. -/
def failedWrites (outcome : Conn → WriteOutcome) : Conn → Bool :=
  fun c => outcome c == .failed

/-! ## The mutex discipline -/

/-- The step is an access to the map `clients`. -/
def Action.isMapAccess : Action → Bool
  | .insert _ => true
  | .delete _ => true
  | _ => false

/-- The accesses to the map `clients` that a trace makes while the mutex is
not held. -/
def mapAccessOutsideLock : Bool → List Action → List Action
  | _, [] => []
  | _, .lock :: as => mapAccessOutsideLock true as
  | _, .unlock :: as => mapAccessOutsideLock false as
  | held, a :: as =>
    if !held && a.isMapAccess then a :: mapAccessOutsideLock held as
    else mapAccessOutsideLock held as

/-- The use a trace makes of the mutex: `Lock` only when it does not hold it,
`Unlock` only when it does.  The result is whether the mutex is held at the
end, or `none` when the discipline is broken. -/
def lockDiscipline : Bool → List Action → Option Bool
  | held, [] => some held
  | held, .lock :: as => if held then none else lockDiscipline true as
  | held, .unlock :: as => if held then lockDiscipline false as else none
  | held, _ :: as => lockDiscipline held as

/-! ## The fields of a decoded record -/

/-- The value of a field of a record. -/
def TickerData.get (t : TickerData) : TickerField → GoValue
  | .EventType => .str t.EventType
  | .EventTime => .int64 t.EventTime
  | .Symbol => .str t.Symbol
  | .PriceChange => .str t.PriceChange
  | .PriceChangePercent => .str t.PriceChangePercent
  | .WeightedAvgPrice => .str t.WeightedAvgPrice
  | .LastPrice => .str t.LastPrice
  | .LastQuantity => .str t.LastQuantity
  | .OpenPrice => .str t.OpenPrice
  | .HighPrice => .str t.HighPrice
  | .LowPrice => .str t.LowPrice
  | .Volume => .str t.Volume
  | .QuoteVolume => .str t.QuoteVolume
  | .OpenTime => .int64 t.OpenTime
  | .CloseTime => .int64 t.CloseTime
  | .FirstTradeID => .int64 t.FirstTradeID
  | .LastTradeID => .int64 t.LastTradeID
  | .TotalTrades => .int64 t.TotalTrades

/-- The zero value of a field: the empty string or 0. -/
def zeroValue (f : TickerField) : GoValue := ({} : TickerData).get f

/-- No member of the object is decoded into field `f`: none of its keys
matches the tag of `f`, exactly or under case folding. -/
def omits (members : List (String × JSON)) (f : TickerField) : Bool :=
  members.all (fun m => findField m.1 != some f)

/-- A ticker frame with a member of the wrong type for its field. -/
def mistypedTickerFrame : String := "\x7b\"e\":\"24hrTicker\",\"p\":5\x7d"

/-- A ticker frame with the event type only and a key that names no field. -/
def bareTickerFrame : String := "\x7b\"e\":\"24hrTicker\",\"x\":[1,2]\x7d"

/-! ## Package `auth`: tokens -/

/-- A `uuid.UUID`, by its canonical text. -/
abbrev UUID := String

/-- The record `Claims`: the user id and, of `jwt.RegisteredClaims`, the
fields that `GenerateAccessToken` sets (`ExpiresAt`, `IssuedAt`, `Subject`);
a `*jwt.NumericDate` is an instant or `none` for nil. -/
structure Claims where
  UserID : UUID
  ExpiresAt : Option Nanos
  IssuedAt : Option Nanos
  Subject : String
  deriving DecidableEq, Repr

/-- A token as the library handles it once parsed: the `alg` of its header, its
claims and its signature. -/
structure Token where
  alg : String
  claims : Claims
  signature : String
  deriving DecidableEq, Repr

/-- What the token functions take from the process and from the libraries:
the environment variables with the secrets, the results of
`time.ParseDuration` on the two duration variables, and, of
`github.com/golang-jwt/jwt/v5`, the HMAC of a signing method under a key over
the claims, the compact serialization of a token and its decoder. -/
structure AuthEnv where
  accessSecret : String
  refreshSecret : String
  accessDuration : Except GoError Nanos
  refreshDuration : Except GoError Nanos
  mac : String → String → Claims → String
  encode : Token → String
  parse : String → Option Token

/-- The library's `jwt.NewNumericDate`: the instant truncated to
`jwt.TimePrecision`, one second. -/
def NewNumericDate (t : Nanos) : Nanos := t - t % Second

/-- The claims built by `GenerateAccessToken` and `GenerateRefreshToken` for a
duration `d`; `t1` and `t2` are the two successive values of `time.Now()`. -/
def newClaims (userID : UUID) (d t1 t2 : Nanos) : Claims :=
  { UserID := userID
    ExpiresAt := some (NewNumericDate (t1 + d))
    IssuedAt := some (NewNumericDate t2)
    Subject := userID }

/-- The token `jwt.NewWithClaims(jwt.SigningMethodHS256, claims)` signed with
`key`, before serialization. -/
def signedToken (env : AuthEnv) (key : String) (claims : Claims) : Token :=
  { alg := "HS256", claims := claims, signature := env.mac "HS256" key claims }

/-- The call `token.SignedString([]byte(key))`. -/
def SignedString (env : AuthEnv) (key : String) (claims : Claims) : String :=
  env.encode (signedToken env key claims)

/-- The function `GenerateAccessToken`. -/
def GenerateAccessToken (env : AuthEnv) (t1 t2 : Nanos) (userID : UUID) :
    Except GoError String :=
  match env.accessDuration with
  | .error err => .error err
  | .ok duration => .ok (SignedString env env.accessSecret (newClaims userID duration t1 t2))

/-- The function `GenerateRefreshToken`. -/
def GenerateRefreshToken (env : AuthEnv) (t1 t2 : Nanos) (userID : UUID) :
    Except GoError String :=
  match env.refreshDuration with
  | .error err => .error err
  | .ok duration => .ok (SignedString env env.refreshSecret (newClaims userID duration t1 t2))

/-- The signing methods that the library registers. -/
def registeredMethods : List String :=
  ["HS256", "HS384", "HS512", "RS256", "RS384", "RS512", "ES256", "ES384", "ES512",
   "PS256", "PS384", "PS512", "EdDSA", "none"]

/-- The signing methods of type `*jwt.SigningMethodHMAC`. -/
def hmacMethods : List String := ["HS256", "HS384", "HS512"]

/-- The function `validateToken`, run at instant `now`: `jwt.ParseWithClaims`
decodes the string, looks the signing method up, asks the key function for the
key (it refuses every method that is not an HMAC one), verifies the signature
and then the claims, of which only the expiry is set: the token is valid when
`now` is before it. -/
def validateToken (env : AuthEnv) (now : Nanos) (tokenString secret : String) :
    Except GoError Claims :=
  match env.parse tokenString with
  | none => .error (.other "token is malformed")
  | some token =>
    if !registeredMethods.contains token.alg then
      .error (.other "token is unverifiable: signing method (alg) is unavailable")
    else if !hmacMethods.contains token.alg then
      .error (.wrap "token is unverifiable: error while executing keyfunc"
        (.other ("unexpected signing method: " ++ token.alg)))
    else if token.signature != env.mac token.alg secret token.claims then
      .error (.other "token signature is invalid: signature is invalid")
    else
      match token.claims.ExpiresAt with
      | none => .ok token.claims
      | some exp =>
        if now < exp then .ok token.claims
        else .error (.other "token has invalid claims: token is expired")

/-- The function `ValidateAccessToken`. -/
def ValidateAccessToken (env : AuthEnv) (now : Nanos) (tokenString : String) :
    Except GoError Claims :=
  validateToken env now tokenString env.accessSecret

/-- The function `ValidateRefreshToken`. -/
def ValidateRefreshToken (env : AuthEnv) (now : Nanos) (tokenString : String) :
    Except GoError Claims :=
  validateToken env now tokenString env.refreshSecret

/-- An environment for the examples: the secrets of the tests, the refresh
duration of the tests (seventy-two hours), a keyed tag in place of the HMAC,
and a serialization given by a table of token strings. -/
def exampleEnv (accessDuration : Nanos) (table : List (String × Token)) : AuthEnv :=
  { accessSecret := "testsecret"
    refreshSecret := "testrefresh"
    accessDuration := .ok accessDuration
    refreshDuration := .ok (72 * 3600 * Second)
    mac := fun alg key claims => String.join [alg, "/", key, "/", claims.UserID]
    encode := fun token => ((table.find? (fun e => e.2 == token)).map Prod.fst).getD ""
    parse := fun s => (table.find? (fun e => e.1 == s)).map Prod.snd }

/-- The access and the refresh token generated for user `u1` at instant `t`
under `exampleEnv`, with the strings that stand for them. -/
def exampleTable (accessDuration t : Nanos) : List (String × Token) :=
  [("access.token",
     { alg := "HS256"
       claims := newClaims "u1" accessDuration t t
       signature := "HS256/testsecret/u1" }),
   ("refresh.token",
     { alg := "HS256"
       claims := newClaims "u1" (72 * 3600 * Second) t t
       signature := "HS256/testrefresh/u1" })]

/-- The environment of the examples for tokens generated at instant `t`. -/
def exampleEnvAt (accessDuration t : Nanos) : AuthEnv :=
  exampleEnv accessDuration (exampleTable accessDuration t)

/-! ## Package `auth`: the middleware -/

/-- What `AuthMiddleware` reads of a request: the value of the cookie
`access_token` as `c.Cookie` returns it (`none` when it returns
`http.ErrNoCookie`) and the header `Authorization` (empty when absent). -/
structure AuthRequest where
  accessCookie : Option String
  authorization : String
  deriving DecidableEq, Repr

/-- What a handler leaves in the `*gin.Context`: whether the chain was
aborted, the status and body written, the value under the key `user_id`, and
whether `c.Next()` ran the rest of the chain. -/
structure GinContext where
  aborted : Bool := false
  status : Option Nat := none
  body : Option String := none
  userID : Option UUID := none
  nextCalled : Bool := false
  deriving DecidableEq, Repr

/-- The constant `http.StatusUnauthorized`. -/
def StatusUnauthorized : Nat := 401

/-- The body `gin.H{"error": msg}` as `c.JSON` writes it. -/
def errorBody (msg : String) : String := marshalMap [("error", .str msg)]

/-- The call `c.AbortWithStatusJSON(code, gin.H{"error": msg})`. -/
def AbortWithStatusJSON (code : Nat) (msg : String) : GinContext :=
  { aborted := true, status := some code, body := some (errorBody msg) }

/-- The token string that `AuthMiddleware` extracts: the cookie when present,
otherwise what follows `Bearer ` in the header `Authorization`, otherwise the
empty string. -/
def tokenString (req : AuthRequest) : String :=
  match req.accessCookie with
  | some cookie => cookie
  | none =>
    match stripWord "Bearer ".data req.authorization.data with
    | some rest => String.mk rest
    | none => ""

/-- The handler returned by `AuthMiddleware`, run at instant `now`. -/
def AuthMiddleware (env : AuthEnv) (now : Nanos) (req : AuthRequest) : GinContext :=
  if tokenString req == "" then
    AbortWithStatusJSON StatusUnauthorized "Unauthorized"
  else
    match ValidateAccessToken env now (tokenString req) with
    | .error _ => AbortWithStatusJSON StatusUnauthorized "Invalid or expired token"
    | .ok claims => { userID := some claims.UserID, nextCalled := true }

/-! ## Package `handler`: registration -/

/-- The record `models.User`. -/
structure User where
  ID : UUID
  Email : String
  PasswordHash : String
  CreatedAt : Nanos
  UpdatedAt : Nanos
  deriving DecidableEq, Repr

/-- The record `registerRequest`. -/
structure registerRequest where
  Email : String
  Password : String
  deriving DecidableEq, Repr

/-- The methods of `repository.UserRepository` and
`repository.TokenRepository` that `Register` calls, by their results: a
pointer result is `none` for nil, an `error` result is `none` for nil. -/
structure Repositories where
  GetUserByEmail : String → Option User × Option GoError
  CreateUser : String → String → Except GoError User
  StoreRefreshToken : UUID → String → Nanos → Option GoError

/-- One call on a repository, with its arguments. -/
inductive RepoCall where
  | GetUserByEmail (email : String)
  | CreateUser (email password : String)
  | StoreRefreshToken (userID : UUID) (token : String) (expiresAt : Nanos)
  deriving DecidableEq, Repr

/-- A cookie as `c.SetCookie` adds it to the response. -/
structure Cookie where
  name : String
  value : String
  maxAge : Int
  path : String
  domain : String
  secure : Bool
  httpOnly : Bool
  deriving DecidableEq, Repr

/-- The call `c.SetCookie(name, value, maxAge, path, domain, secure,
httpOnly)`. -/
def SetCookie (name value : String) (maxAge : Int) (path domain : String)
    (secure httpOnly : Bool) : Cookie :=
  { name := name, value := value, maxAge := maxAge, path := path, domain := domain,
    secure := secure, httpOnly := httpOnly }

/-- What one run of `Register` does: the repository calls in order, the
cookies set in order, and the status and body of the response. -/
structure Response where
  calls : List RepoCall
  cookies : List Cookie
  status : Nat
  body : String
  deriving DecidableEq, Repr

/-- The successive values of `time.Now()` in one run of `Register`: two in
each token generation and one for the expiry of the stored refresh token. -/
structure RegisterClock where
  access1 : Nanos
  access2 : Nanos
  refresh1 : Nanos
  refresh2 : Nanos
  store : Nanos
  deriving DecidableEq, Repr

/-- The status codes of `net/http` that `Register` uses. -/
def StatusCreated : Nat := 201

def StatusBadRequest : Nat := 400

def StatusConflict : Nat := 409

def StatusInternalServerError : Nat := 500

/-- The body `authResponse{Message: msg}` as `c.JSON` writes it (the field
`error` is empty and omitted). -/
def messageBody (msg : String) : String :=
  String.mk ("\x7b\"message\":".data ++ encodeString msg ++ ['\x7d'])

/-- The handler `AuthHandler.Register`; `bound` is the result of
`c.ShouldBindJSON(&req)`. -/
def Register (env : AuthEnv) (repos : Repositories) (clock : RegisterClock)
    (bound : Except GoError registerRequest) : Response :=
  match bound with
  | .error _ =>
    { calls := [], cookies := [], status := StatusBadRequest, body := errorBody "Invalid request" }
  | .ok req =>
    let calls1 := [RepoCall.GetUserByEmail req.Email]
    match (repos.GetUserByEmail req.Email).1 with
    | some _ =>
      { calls := calls1, cookies := [], status := StatusConflict,
        body := errorBody "User already exists" }
    | none =>
      let calls2 := calls1 ++ [RepoCall.CreateUser req.Email req.Password]
      match repos.CreateUser req.Email req.Password with
      | .error _ =>
        { calls := calls2, cookies := [], status := StatusInternalServerError,
          body := errorBody "Failed to create user" }
      | .ok user =>
        match GenerateAccessToken env clock.access1 clock.access2 user.ID with
        | .error _ =>
          { calls := calls2, cookies := [], status := StatusInternalServerError,
            body := errorBody "Failed to generate access token" }
        | .ok accessToken =>
          match GenerateRefreshToken env clock.refresh1 clock.refresh2 user.ID with
          | .error _ =>
            { calls := calls2, cookies := [], status := StatusInternalServerError,
              body := errorBody "Failed to generate refresh token" }
          | .ok refreshToken =>
            let refreshExp := clock.store + 7 * 24 * 3600 * Second
            let calls3 := calls2 ++ [RepoCall.StoreRefreshToken user.ID refreshToken refreshExp]
            match repos.StoreRefreshToken user.ID refreshToken refreshExp with
            | some _ =>
              { calls := calls3, cookies := [], status := StatusInternalServerError,
                body := errorBody "Failed to store refresh token" }
            | none =>
              { calls := calls3
                cookies :=
                  [SetCookie "access_token" accessToken (15 * 60) "/" "" true true,
                   SetCookie "refresh_token" refreshToken (7 * 24 * 3600) "/" "" true true]
                status := StatusCreated
                body := messageBody "Registration successful" }

/-- A user for the examples. -/
def exampleUser : User :=
  { ID := "u1", Email := "a@b.c", PasswordHash := "hash", CreatedAt := 0, UpdatedAt := 0 }

/-- Repositories for the examples: `known` is the list of stored users; a
created user gets the id `u1`; storing a token succeeds. -/
def exampleRepos (known : List User) : Repositories :=
  { GetUserByEmail := fun email => (known.find? (fun u => u.Email == email), none)
    CreateUser := fun email password =>
      .ok { ID := "u1", Email := email, PasswordHash := password, CreatedAt := 0,
            UpdatedAt := 0 }
    StoreRefreshToken := fun _ _ _ => none }

/-- A clock for the examples: every reading is the instant `t`. -/
def exampleClock (t : Nanos) : RegisterClock :=
  { access1 := t, access2 := t, refresh1 := t, refresh2 := t, store := t }

/-! ## Runs in which a write may never return -/

/-- Every write of the cycle returns: no sink that the enumeration produces
has a write that never returns. -/
def BlockingCycle.returns (cy : BlockingCycle) : Bool :=
  cy.order.all (fun c => cy.outcome c != .never)

/-- The cycle as a `Cycle` describes it, for a cycle whose writes return. -/
def BlockingCycle.toCycle (cy : BlockingCycle) : Cycle :=
  { order := cy.order, fails := failedWrites cy.outcome }

/-- The steps that take the mutex `mu`, when a write may never return. -/
inductive BlockingEvent where
  | broadcast (msg : String) (cy : BlockingCycle)
  | register (c : Conn)
  | unregister (c : Conn)

/-- The step as a `HubEvent` describes it, for a step whose writes return. -/
def BlockingEvent.toHub : BlockingEvent → HubEvent
  | .broadcast msg cy => .broadcast msg cy.toCycle
  | .register c => .register c
  | .unregister c => .unregister c

/-- Every write of the step returns. -/
def BlockingEvent.returns : BlockingEvent → Bool
  | .broadcast _ cy => cy.returns
  | _ => true

/-- An interleaving of such steps, serialized by the mutex: the broadcaster
reached, and whether `BroadcastLoop` is stuck inside a `WriteMessage` call.
It holds the mutex there, so no later step takes place. -/
def Broadcaster.blockingRun (b : Broadcaster) : List BlockingEvent → Broadcaster × Bool
  | [] => (b, false)
  | .broadcast msg cy :: evs =>
    if (blockingCycle cy.outcome msg cy.order b).2 then blockingCycle cy.outcome msg cy.order b
    else (blockingCycle cy.outcome msg cy.order b).1.blockingRun evs
  | .register c :: evs => Broadcaster.blockingRun { b with clients := mapInsert c b.clients } evs
  | .unregister c :: evs => Broadcaster.blockingRun { b with clients := mapDelete c b.clients } evs

/-- The iterations of `BroadcastLoop` on the messages received from the
channel, the k-th message meeting the k-th cycle, with no other step in
between. -/
def blockingBroadcasts : List String → List BlockingCycle → List BlockingEvent
  | msg :: msgs, cy :: cys => .broadcast msg cy :: blockingBroadcasts msgs cys
  | _, _ => []

/-- The steps of the inner loop `for client := range b.clients` for one
message when a write may never return: the steps made, and the sink whose
`WriteMessage` call does not return, if there is one. -/
def blockingBody (outcome : Conn → WriteOutcome) (msg : String) :
    List Conn → List Conn → List Action × Option Conn
  | [], _ => ([], none)
  | client :: rest, clients =>
    if client ∈ clients then
      match outcome client with
      | .never => ([], some client)
      | .failed =>
        (.write client msg false :: .close client :: .delete client ::
          (blockingBody outcome msg rest (mapDelete client clients)).1,
         (blockingBody outcome msg rest (mapDelete client clients)).2)
      | .ok =>
        (.write client msg true :: (blockingBody outcome msg rest clients).1,
         (blockingBody outcome msg rest clients).2)
    else blockingBody outcome msg rest clients

/-- The steps of one iteration of `for msg := range b.broadcast` when a write
may never return: `b.mu.Lock()`, the inner loop, and `b.mu.Unlock()` once the
inner loop has ended. -/
def blockingActions (outcome : Conn → WriteOutcome) (msg : String) (order clients : List Conn) :
    List Action × Option Conn :=
  match (blockingBody outcome msg order clients).2 with
  | none => (.lock :: ((blockingBody outcome msg order clients).1 ++ [.unlock]), none)
  | some k => (.lock :: (blockingBody outcome msg order clients).1, some k)

/-! # Properties -/

/-! ## Reading back what the encoder writes -/

theorem hexVal_hexDigit : ∀ d, d < 16 → hexVal (hexDigit d) = some d := by
  decide

theorem getu4_unicodeEscape (n : Nat) (hn : n < 65536) (rest : List Char) :
    getu4 (unicodeEscape n ++ rest) = some n := by
  have h1 := hexVal_hexDigit (n / 4096 % 16) (Nat.mod_lt _ (by decide))
  have h2 := hexVal_hexDigit (n / 256 % 16) (Nat.mod_lt _ (by decide))
  have h3 := hexVal_hexDigit (n / 16 % 16) (Nat.mod_lt _ (by decide))
  have h4 := hexVal_hexDigit (n % 16) (Nat.mod_lt _ (by decide))
  simp only [unicodeEscape, List.cons_append, List.nil_append, getu4, h1, h2, h3, h4]
  simp
  omega

theorem scanString_unicodeEscape (n : Nat) (hn : n < 0xD800) (rest : List Char) (fuel : Nat) :
    scanString (fuel + 1) (unicodeEscape n ++ rest)
      = (scanString fuel rest).map (fun p => (Char.ofNat n :: p.1, p.2)) := by
  have hg := getu4_unicodeEscape n (by omega) rest
  have hs : isSurrogate n = false := by
    simp only [isSurrogate, Bool.and_eq_false_imp, decide_eq_true_eq, decide_eq_false_iff_not]
    omega
  simp only [unicodeEscape, List.cons_append, List.nil_append] at hg ⊢
  rw [scanString]
  simp [hg, hs]

theorem scanString_escapeChar (c : Char) (rest : List Char) (fuel : Nat) :
    scanString (fuel + 1) (escapeChar c ++ rest)
      = (scanString fuel rest).map (fun p => (c :: p.1, p.2)) := by
  unfold escapeChar
  split_ifs with h1 h2 h3 h4 h5 h6 h7 h8
  · simp at h1; subst h1; simp [scanString, unescape]
  · simp at h2; subst h2; simp [scanString, unescape]
  · simp at h3; subst h3; simp [scanString, unescape]
  · simp at h4; subst h4; simp [scanString, unescape]
  · simp at h5; subst h5; simp [scanString, unescape]
  · simp at h6; subst h6; simp [scanString, unescape]
  · simp at h7; subst h7; simp [scanString, unescape]
  · have hn : c.toNat < 0xD800 := by
      simp only [Bool.or_eq_true, decide_eq_true_eq, beq_iff_eq] at h8
      rcases h8 with ((((h | h) | h) | h) | h) | h
      · omega
      · subst h; decide
      · subst h; decide
      · subst h; decide
      · subst h; decide
      · subst h; decide
    rw [scanString_unicodeEscape _ hn]
    simp
  · have hq : (c == '"') = false := by simpa using h1
    have hb : (c == '\\') = false := by simpa using h2
    have hlt : ¬ c.toNat < 0x20 := by
      intro hlt
      apply h8
      simp [hlt]
    simp [scanString, hq, hb, hlt]

theorem scanString_escapeChars :
    ∀ (s rest : List Char) (fuel : Nat), s.length < fuel →
      scanString fuel (escapeChars s ++ '"' :: rest) = some (s, rest) := by
  intro s
  induction s with
  | nil =>
    intro rest fuel h
    obtain ⟨f, rfl⟩ : ∃ f, fuel = f + 1 := ⟨fuel - 1, by omega⟩
    simp [escapeChars, scanString]
  | cons c cs ih =>
    intro rest fuel h
    obtain ⟨f, rfl⟩ : ∃ f, fuel = f + 1 := ⟨fuel - 1, by omega⟩
    have hf : cs.length < f := by simpa using h
    simp only [escapeChars, List.append_assoc]
    rw [scanString_escapeChar, ih rest f hf]
    rfl

theorem isDigit_digit : ∀ k, k < 10 → isDigit (Char.ofNat (48 + k)) = true := by
  decide

theorem digit_eq_zero : ∀ k, k < 10 → Char.ofNat (48 + k) = '0' → k = 0 := by
  decide

/-- With enough fuel, `natDigits` puts in front of the accumulator a non-empty
run of digits that starts with `0` only when the number is zero, and is then
the single digit `0`. -/
theorem natDigits_spec :
    ∀ (fuel n : Nat) (acc : List Char), n < fuel →
      ∃ d ds, natDigits fuel n acc = d :: (ds ++ acc) ∧ isDigit d = true ∧
        (∀ c ∈ ds, isDigit c = true) ∧ (d = '0' → n = 0 ∧ ds = []) := by
  intro fuel
  induction fuel with
  | zero => intro n acc h; omega
  | succ fuel ih =>
    intro n acc h
    by_cases h10 : n < 10
    · refine ⟨Char.ofNat (48 + n), [], ?_, isDigit_digit n h10, ?_,
        fun h0 => ⟨digit_eq_zero n h10 h0, rfl⟩⟩
      · simp [natDigits, h10]
      · intro c hc; cases hc
    · have hlt : n / 10 < fuel := by omega
      obtain ⟨d, ds, heq, hd, hds, hzero⟩ := ih (n / 10) (Char.ofNat (48 + n % 10) :: acc) hlt
      have hnz : d ≠ '0' := by
        intro hd0
        have := (hzero hd0).1
        omega
      refine ⟨d, ds ++ [Char.ofNat (48 + n % 10)], ?_, hd, ?_, fun h0 => absurd h0 hnz⟩
      · simp [natDigits, h10, heq]
      · intro c hc
        rcases List.mem_append.1 hc with hc | hc
        · exact hds c hc
        · have : c = Char.ofNat (48 + n % 10) := by simpa using hc
          rw [this]
          exact isDigit_digit _ (Nat.mod_lt _ (by decide))

theorem spanDigits_run :
    ∀ (ds : List Char) (c : Char) (rest : List Char), (∀ x ∈ ds, isDigit x = true) →
      isDigit c = false → spanDigits (ds ++ c :: rest) = (ds, c :: rest) := by
  intro ds
  induction ds with
  | nil => intro c rest _ hc; simp [spanDigits, hc]
  | cons d ds ih =>
    intro c rest hall hc
    have hd : isDigit d = true := hall d (List.mem_cons_self _ _)
    have := ih c rest (fun x hx => hall x (List.mem_cons_of_mem _ hx)) hc
    simp [spanDigits, hd, this]

theorem isDigit_ne_minus (d : Char) (hd : isDigit d = true) : (d == '-') = false := by
  cases h : d == '-' with
  | false => rfl
  | true =>
    have : d = '-' := by simpa using h
    subst this
    exact absurd hd (by decide)

theorem scanNumber_digits (d : Char) (ds : List Char) (c : Char) (rest : List Char)
    (hd : isDigit d = true) (hds : ∀ x ∈ ds, isDigit x = true) (hzero : d = '0' → ds = [])
    (hc : endsNumber c = true) :
    scanIntPart (d :: (ds ++ c :: rest)) = some (d :: ds, c :: rest) ∧
    scanFrac (c :: rest) = some ([], c :: rest) ∧
    scanExp (c :: rest) = some ([], c :: rest) := by
  simp only [endsNumber, Bool.and_eq_true, Bool.not_eq_true', bne_iff_ne, ne_eq] at hc
  obtain ⟨⟨⟨hcd, hdot⟩, he⟩, hE⟩ := hc
  refine ⟨?_, ?_, ?_⟩
  · by_cases h0 : d = '0'
    · have := hzero h0
      subst this
      subst h0
      simp [scanIntPart]
    · have hb : (d == '0') = false := by simpa using h0
      simp [scanIntPart, hb, hd, spanDigits_run ds c rest hds hcd]
  · simp [scanFrac, hdot]
  · simp [scanExp, he, hE]

/-- The scanner reads back the whole of a formatted integer when a character
that ends a number follows it. -/
theorem scanNumber_formatInt (n : Int) (c : Char) (rest : List Char)
    (hc : endsNumber c = true) :
    scanNumber (formatInt n ++ c :: rest) = some (formatInt n, c :: rest) := by
  obtain ⟨d, ds, heq, hd, hds, hzero⟩ :=
    natDigits_spec (n.natAbs + 1) n.natAbs [] (Nat.lt_succ_self _)
  obtain ⟨h1, h2, h3⟩ :=
    scanNumber_digits d ds c rest hd hds (fun h => (hzero h).2) hc
  have hm := isDigit_ne_minus d hd
  simp only [List.append_nil] at heq
  unfold formatInt
  split_ifs with hneg
  · simp [scanNumber, heq, h1, h2, h3]
  · simp [scanNumber, heq, hm, h1, h2, h3]

theorem endsMember_endsNumber (c : Char) (h : endsMember c = true) : endsNumber c = true := by
  simp only [endsMember, Bool.or_eq_true, beq_iff_eq] at h
  rcases h with h | h <;> subst h <;> decide

theorem endsMember_not_space (c : Char) (h : endsMember c = true) : isSpace c = false := by
  simp only [endsMember, Bool.or_eq_true, beq_iff_eq] at h
  rcases h with h | h <;> subst h <;> decide

theorem length_le_escapeChars : ∀ s : List Char, s.length ≤ (escapeChars s).length := by
  intro s
  induction s with
  | nil => simp [escapeChars]
  | cons c cs ih =>
    have hc : 1 ≤ (escapeChar c).length := by
      unfold escapeChar unicodeEscape
      split_ifs <;> simp
    simp only [escapeChars, List.length_cons, List.length_append]
    omega

theorem isDigit_ne (x k : Char) (hx : isDigit x = true) (hk : isDigit k = false) :
    (x == k) = false := by
  cases h : x == k with
  | false => rfl
  | true =>
    have : x = k := by simpa using h
    rw [this, hk] at hx
    cases hx

theorem formatInt_head (n : Int) :
    ∃ x xs, formatInt n = x :: xs ∧ (x = '-' ∨ isDigit x = true) := by
  obtain ⟨d, ds, heq, hd, _, _⟩ :=
    natDigits_spec (n.natAbs + 1) n.natAbs [] (Nat.lt_succ_self _)
  unfold formatInt
  split_ifs
  · exact ⟨'-', _, rfl, Or.inl rfl⟩
  · exact ⟨d, ds ++ [], heq, Or.inr hd⟩

theorem parseValue_number (x : Char) (xs : List Char) (hx : x = '-' ∨ isDigit x = true)
    (fuel depth : Nat) :
    parseValue (fuel + 1) depth (x :: xs)
      = (scanNumber (x :: xs)).map (fun p => (JSON.number p.1, p.2)) := by
  rcases hx with hx | hx
  · subst hx
    simp [parseValue, skipSpace, isSpace]
  · have h1 := isDigit_ne x ' ' hx (by decide)
    have h2 := isDigit_ne x '\t' hx (by decide)
    have h3 := isDigit_ne x '\r' hx (by decide)
    have h4 := isDigit_ne x '\n' hx (by decide)
    have h5 := isDigit_ne x '\x7b' hx (by decide)
    have h6 := isDigit_ne x '[' hx (by decide)
    have h7 := isDigit_ne x '"' hx (by decide)
    have h8 := isDigit_ne x 't' hx (by decide)
    have h9 := isDigit_ne x 'f' hx (by decide)
    have h10 := isDigit_ne x 'n' hx (by decide)
    simp [parseValue, skipSpace, isSpace, h1, h2, h3, h4, h5, h6, h7, h8, h9, h10, hx]

/-- The decoder reads back an encoded value that is followed by a comma or a
closing brace. -/
theorem parseValue_encodeValue (v : GoValue) (fuel depth : Nat) (c : Char) (rest : List Char)
    (hc : endsMember c = true) :
    parseValue (fuel + 1) depth (encodeValue v ++ c :: rest) = some (v.toJSON, c :: rest) := by
  cases v with
  | str s =>
    have hle := length_le_escapeChars s.data
    simp only [encodeValue, encodeString, List.cons_append, List.append_assoc,
      List.singleton_append]
    simp only [parseValue, skipSpace, isSpace, GoValue.toJSON]
    simp
    exact ⟨s.data, scanString_escapeChars s.data (c :: rest) _ (by omega), rfl⟩
  | int64 n =>
    obtain ⟨x, xs, heq, hx⟩ := formatInt_head n
    have hscan := scanNumber_formatInt n c rest (endsMember_endsNumber c hc)
    simp only [encodeValue, GoValue.toJSON]
    rw [heq] at hscan ⊢
    rw [List.cons_append, parseValue_number x _ hx, ← List.cons_append, hscan]
    rfl

theorem skipSpace_cons (c : Char) (xs : List Char) (h : isSpace c = false) :
    skipSpace (c :: xs) = c :: xs := by
  simp [skipSpace, h]

/-- The decoder reads a key written by the encoder. -/
theorem scanString_key (key : String) (rest : List Char) (fuel : Nat)
    (h : key.data.length < fuel) :
    scanString fuel (escapeChars key.data ++ '"' :: rest) = some (key.data, rest) :=
  scanString_escapeChars key.data rest fuel h

theorem parseMembers_member (e : String × GoValue) (tail : List Char) (fuel depth : Nat)
    (sep : Char) (hsep : endsMember sep = true) :
    parseMembers (fuel + 2) depth
        (encodeString e.1 ++ (':' :: encodeValue e.2) ++ sep :: tail)
      = if sep == ',' then
          (parseMembers (fuel + 1) depth tail).map
            (fun p => ((e.1, e.2.toJSON) :: p.1, p.2))
        else some ([(e.1, e.2.toJSON)], tail) := by
  have hle := length_le_escapeChars e.1.data
  have hval := parseValue_encodeValue e.2 fuel depth sep tail hsep
  have hsp := endsMember_not_space sep hsep
  have hkey : ∀ F, e.1.data.length < F →
      scanString F (escapeChars e.1.data ++ '"' :: ':' :: (encodeValue e.2 ++ sep :: tail))
        = some (e.1.data, ':' :: (encodeValue e.2 ++ sep :: tail)) :=
    fun F hF => scanString_escapeChars e.1.data _ F hF
  have hbrace : sep ≠ ',' → (sep == '\x7d') = true := by
    intro hne
    simp only [endsMember, Bool.or_eq_true, beq_iff_eq] at hsep
    rcases hsep with h | h
    · exact absurd h hne
    · simp [h]
  simp only [encodeString, List.cons_append, List.append_assoc, List.singleton_append,
    List.nil_append]
  rw [parseMembers, skipSpace_cons _ _ (by decide : isSpace '"' = false)]
  simp only [beq_self_eq_true, if_true]
  rw [hkey _ (by simp only [List.length_append]; omega)]
  simp only [skipSpace_cons _ _ (by decide : isSpace ':' = false), beq_self_eq_true, if_true,
    hval, skipSpace_cons _ _ hsp]
  by_cases hcomma : sep = ','
  · subst hcomma
    simp
  · have := hbrace hcomma
    simp [hcomma, this]

/-- The decoder reads back the members written by the encoder. -/
theorem parseMembers_encodeMembers :
    ∀ (es : List (String × GoValue)) (fuel depth : Nat) (rest : List Char),
      es ≠ [] → es.length < fuel →
      parseMembers fuel depth (encodeMembers es ++ '\x7d' :: rest)
        = some (es.map (fun e => (e.1, e.2.toJSON)), rest) := by
  intro es
  induction es with
  | nil => intro _ _ _ h; exact absurd rfl h
  | cons e es ih =>
    intro fuel depth rest _ hlen
    cases es with
    | nil =>
      obtain ⟨f, rfl⟩ : ∃ f, fuel = f + 2 := ⟨fuel - 2, by simp at hlen; omega⟩
      have := parseMembers_member e rest f depth '\x7d' (by decide)
      simp only [encodeMembers]
      rw [this]
      simp
    | cons e2 es2 =>
      obtain ⟨f, rfl⟩ : ∃ f, fuel = f + 2 := ⟨fuel - 2, by simp at hlen; omega⟩
      have hstep := parseMembers_member e (encodeMembers (e2 :: es2) ++ '\x7d' :: rest)
        f depth ',' (by decide)
      have hrest := ih (f + 1) depth rest (by simp) (by simp at hlen ⊢; omega)
      simp only [encodeMembers, List.append_assoc, List.cons_append] at hstep ⊢
      rw [hstep, hrest]
      simp

theorem length_le_encodeMembers :
    ∀ es : List (String × GoValue), es.length ≤ (encodeMembers es).length := by
  intro es
  induction es with
  | nil => simp
  | cons e es ih =>
    cases es with
    | nil => simp [encodeMembers, encodeString]
    | cons e2 es2 =>
      simp only [encodeMembers, List.length_append, List.length_cons] at ih ⊢
      omega

/-- The decoder reads back the object that `marshalMap` writes: its members
are the entries of the map in key order, strings as strings and integers as
integer literals. -/
theorem parseJSON_marshalMap (m : List (String × GoValue)) :
    parseJSON (marshalMap m)
      = some (JSON.object ((sortByKey m).map (fun e => (e.1, e.2.toJSON)))) := by
  cases hes : sortByKey m with
  | nil => simp [parseJSON, marshalMap, hes, encodeMembers, parseValue, skipSpace, isSpace,
      maxNestingDepth]
  | cons e es =>
    have hlen := length_le_encodeMembers (e :: es)
    have hfirst : ∃ tail, encodeMembers (e :: es) = '"' :: tail := by
      cases es with
      | nil =>
        simp only [encodeMembers, encodeString, List.cons_append]
        exact ⟨_, rfl⟩
      | cons e2 es2 =>
        simp only [encodeMembers, encodeString, List.cons_append]
        exact ⟨_, rfl⟩
    obtain ⟨tail, htail⟩ := hfirst
    have hmem : ∀ F, (e :: es).length < F →
        parseMembers F 1 (encodeMembers (e :: es) ++ ['\x7d'])
          = some ((e :: es).map (fun e => (e.1, e.2.toJSON)), []) :=
      fun F hF => parseMembers_encodeMembers (e :: es) F 1 [] (by simp) hF
    simp only [parseJSON, marshalMap, hes]
    rw [parseValue, skipSpace_cons _ _ (by decide : isSpace '\x7b' = false)]
    simp only [beq_self_eq_true, if_true]
    rw [htail] at hmem hlen
    rw [htail, List.cons_append, skipSpace_cons _ _ (by decide : isSpace '"' = false)]
    have hne : ('"' == '\x7d') = false := by decide
    have hdepth : ¬ (0 + 1 > maxNestingDepth) := by decide
    simp only [hne, hdepth, if_false, Bool.false_eq_true]
    rw [← List.cons_append, hmem _ (by
      simp only [List.length_cons, List.length_append] at hlen ⊢; omega)]
    simp [skipSpace]

theorem digit_toNat : ∀ k, k < 10 → (Char.ofNat (48 + k)).toNat - 48 = k := by
  decide

theorem digitsValue_append (ds : List Char) (x : Char) :
    digitsValue (ds ++ [x]) = digitsValue ds * 10 + (x.toNat - 48) := by
  simp [digitsValue, List.foldl_append]

/-- With enough fuel and an empty accumulator, `natDigits` writes digits
whose decimal value is the number. -/
theorem natDigits_value :
    ∀ (fuel n : Nat), n < fuel →
      digitsValue (natDigits fuel n []) = n ∧
      (natDigits fuel n []).all isDigit = true ∧ natDigits fuel n [] ≠ [] := by
  intro fuel n h
  have key : ∀ (fuel n : Nat) (acc : List Char), n < fuel →
      ∃ ds, natDigits fuel n acc = ds ++ acc ∧ digitsValue ds = n ∧
        (∀ c ∈ ds, isDigit c = true) ∧ ds ≠ [] := by
    intro fuel
    induction fuel with
    | zero => intro n acc h; omega
    | succ fuel ih =>
      intro n acc h
      by_cases h10 : n < 10
      · refine ⟨[Char.ofNat (48 + n)], by simp [natDigits, h10], ?_, ?_, by simp⟩
        · simpa [digitsValue] using digit_toNat n h10
        · intro c hc
          have : c = Char.ofNat (48 + n) := by simpa using hc
          rw [this]
          exact isDigit_digit n h10
      · obtain ⟨ds, heq, hval, hds, hne⟩ :=
          ih (n / 10) (Char.ofNat (48 + n % 10) :: acc) (by omega)
        refine ⟨ds ++ [Char.ofNat (48 + n % 10)], by simp [natDigits, h10, heq], ?_, ?_,
          by simp⟩
        · rw [digitsValue_append, hval, digit_toNat _ (Nat.mod_lt _ (by decide))]
          omega
        · intro c hc
          rcases List.mem_append.1 hc with hc | hc
          · exact hds c hc
          · have : c = Char.ofNat (48 + n % 10) := by simpa using hc
            rw [this]
            exact isDigit_digit _ (Nat.mod_lt _ (by decide))
  obtain ⟨ds, heq, hval, hds, hne⟩ := key fuel n [] h
  simp only [List.append_nil] at heq
  rw [heq]
  exact ⟨hval, List.all_eq_true.2 hds, hne⟩

theorem checkInt64_of_isInt64 (n : Int) (hn : isInt64 n) : checkInt64 n = some n := by
  unfold isInt64 at hn
  unfold checkInt64
  rw [if_pos]
  simp only [Bool.and_eq_true, decide_eq_true_eq]
  exact hn

theorem isInt64_of_checkInt64 (v n : Int) (h : checkInt64 v = some n) : isInt64 n := by
  unfold checkInt64 at h
  split_ifs at h with hr
  cases h
  simpa [isInt64] using hr

theorem isInt64_of_parseInt64 (lit : List Char) (n : Int) (h : parseInt64 lit = some n) :
    isInt64 n := by
  unfold parseInt64 at h
  split_ifs at h
  · exact isInt64_of_checkInt64 _ _ h
  · exact isInt64_of_checkInt64 _ _ h

/-- The integer conversion of the decoder reads a formatted `int64` back. -/
theorem parseInt64_formatInt (n : Int) (hn : isInt64 n) :
    parseInt64 (formatInt n) = some n := by
  obtain ⟨hval, hall, hne⟩ := natDigits_value (n.natAbs + 1) n.natAbs (Nat.lt_succ_self _)
  obtain ⟨d, ds, heq, hd, _, _⟩ :=
    natDigits_spec (n.natAbs + 1) n.natAbs [] (Nat.lt_succ_self _)
  have hm : ¬ (d = '-') := by
    have := isDigit_ne_minus d hd
    simpa using this
  have hempty : (natDigits (n.natAbs + 1) n.natAbs []).isEmpty = false := by
    cases hnd : natDigits (n.natAbs + 1) n.natAbs [] with
    | nil => exact absurd hnd hne
    | cons _ _ => rfl
  have hcheck := checkInt64_of_isInt64 n hn
  unfold formatInt
  split_ifs with hneg
  · have hv : -|n| = n := by rw [abs_of_neg hneg, neg_neg]
    simp [parseInt64, hempty, hall, hval, hv, hcheck]
  · have hv : |n| = n := abs_of_nonneg (by omega)
    have hhead : (natDigits (n.natAbs + 1) n.natAbs []).head? ≠ some '-' := by
      rw [heq]
      simpa using hm
    simp [parseInt64, hhead, hempty, hall, hval, hv, hcheck]

theorem decodeField_isInt64 (t t1 : TickerData) (f : TickerField) (v : JSON)
    (ht : isInt64 t.EventTime) (h : decodeField t f v = .ok t1) : isInt64 t1.EventTime := by
  cases v with
  | null => simp [decodeField] at h; subst h; exact ht
  | bool b => simp [decodeField] at h
  | array xs => simp [decodeField] at h
  | object ms => simp [decodeField] at h
  | string s =>
    cases f <;> simp [decodeField, TickerField.isInt, TickerData.setString] at h <;>
      (subst h; exact ht)
  | number lit =>
    cases hp : parseInt64 lit with
    | none => cases f <;> simp [decodeField, TickerField.isInt, hp] at h
    | some n =>
      have hn : isInt64 n := isInt64_of_parseInt64 lit n hp
      cases f <;> simp [decodeField, TickerField.isInt, hp, TickerData.setInt] at h <;>
        (subst h; first | exact ht | exact hn)

theorem decodeMembers_isInt64 :
    ∀ (members : List (String × JSON)) (t t1 : TickerData), isInt64 t.EventTime →
      decodeMembers members t = .ok t1 → isInt64 t1.EventTime := by
  intro members
  induction members with
  | nil =>
    intro t t1 ht h
    simp [decodeMembers] at h
    subst h
    exact ht
  | cons m rest ih =>
    intro t t1 ht h
    obtain ⟨key, v⟩ := m
    cases hf : findField key with
    | none =>
      simp only [decodeMembers, hf] at h
      exact ih t t1 ht h
    | some f =>
      cases hd : decodeField t f v with
      | error e => simp [decodeMembers, hf, hd] at h
      | ok t2 =>
        simp only [decodeMembers, hf, hd] at h
        exact ih t2 t1 (decodeField_isInt64 t t2 f v ht hd) h

/-- The event time of a decoded record is an `int64`. -/
theorem unmarshalTicker_isInt64 (frame : String) (t : TickerData)
    (h : unmarshalTicker frame = .ok t) : isInt64 t.EventTime := by
  have h0 : isInt64 ({} : TickerData).EventTime := by
    unfold isInt64
    decide
  unfold unmarshalTicker at h
  cases hp : parseJSON frame with
  | none => rw [hp] at h; cases h
  | some v =>
    rw [hp] at h
    cases v with
    | null => simp at h; subst h; exact h0
    | object ms => exact decodeMembers_isInt64 ms {} t h0 h
    | bool b => cases h
    | number lit => cases h
    | string s => cases h
    | array xs => cases h

/-! ## Lemmas on one broadcast cycle -/

theorem mem_mapDelete (c x : Conn) (m : List Conn) : c ∈ mapDelete x m ↔ c ∈ m ∧ c ≠ x := by
  simp [mapDelete]

theorem mapDelete_nodup (x : Conn) (m : List Conn) (h : m.Nodup) : (mapDelete x m).Nodup :=
  h.filter _

theorem mapInsert_nodup (x : Conn) (m : List Conn) (h : m.Nodup) : (mapInsert x m).Nodup := by
  unfold mapInsert
  split
  · exact h
  · rename_i hx
    exact List.nodup_append.2 ⟨h, List.nodup_singleton x, by
      intro a ha hb
      simp at hb
      exact hx (hb ▸ ha)⟩

/-- The writes attempted on `c` by one cycle: exactly one, of the message, when
`c` is enumerated and is a client; none otherwise. -/
theorem attempts_broadcastCycle (fails : Conn → Bool) (msg : String) (c : Conn) :
    ∀ (order : List Conn) (b : Broadcaster), order.Nodup →
      attempts c (broadcastCycle fails msg order b)
        = attempts c b ++ (if c ∈ order ∧ c ∈ b.clients then [msg] else []) := by
  intro order
  induction order with
  | nil => intro b _; simp [broadcastCycle]
  | cons x rest ih =>
    intro b hnd
    have hx : x ∉ rest := (List.nodup_cons.1 hnd).1
    have hrest : rest.Nodup := (List.nodup_cons.1 hnd).2
    unfold broadcastCycle
    by_cases hmem : x ∈ b.clients
    · by_cases hf : fails x = true
      · simp only [hmem, hf, if_true]
        rw [ih _ hrest]
        by_cases hc : c = x
        · subst hc
          simp [attempts, hx, hmem, mem_mapDelete]
        · have hc2 : ¬ x = c := fun h => hc h.symm
          simp [attempts, hc, hc2, mem_mapDelete]
      · have hf2 : fails x = false := by simpa using hf
        simp only [hmem, hf2, if_true, Bool.false_eq_true, if_false]
        rw [ih _ hrest]
        by_cases hc : c = x
        · subst hc
          simp [attempts, hx, hmem]
        · have hc2 : ¬ x = c := fun h => hc h.symm
          simp [attempts, hc, hc2]
    · simp only [hmem, if_false]
      rw [ih _ hrest]
      by_cases hc : c = x
      · subst hc
        simp [hx, hmem]
      · simp [hc]

/-- The messages received by `c` in one cycle: the message, once, when `c` is
enumerated, is a client and its write succeeds; nothing otherwise. -/
theorem received_broadcastCycle (fails : Conn → Bool) (msg : String) (c : Conn) :
    ∀ (order : List Conn) (b : Broadcaster), order.Nodup →
      received c (broadcastCycle fails msg order b)
        = received c b ++
            (if c ∈ order ∧ c ∈ b.clients ∧ fails c = false then [msg] else []) := by
  intro order
  induction order with
  | nil => intro b _; simp [broadcastCycle]
  | cons x rest ih =>
    intro b hnd
    have hx : x ∉ rest := (List.nodup_cons.1 hnd).1
    have hrest : rest.Nodup := (List.nodup_cons.1 hnd).2
    unfold broadcastCycle
    by_cases hmem : x ∈ b.clients
    · by_cases hf : fails x = true
      · simp only [hmem, hf, if_true]
        rw [ih _ hrest]
        by_cases hc : c = x
        · subst hc
          simp [received, hx, hmem, mem_mapDelete, hf]
        · have hc2 : ¬ x = c := fun h => hc h.symm
          simp [received, hc, hc2, mem_mapDelete]
      · have hf2 : fails x = false := by simpa using hf
        simp only [hmem, hf2, if_true, Bool.false_eq_true, if_false]
        rw [ih _ hrest]
        by_cases hc : c = x
        · subst hc
          simp [received, hx, hmem, hf2]
        · have hc2 : ¬ x = c := fun h => hc h.symm
          simp [received, hc, hc2]
    · simp only [hmem, if_false]
      rw [ih _ hrest]
      by_cases hc : c = x
      · subst hc
        simp [hx, hmem]
      · simp [hc]

/-- The client set after one cycle: the clients whose write did not fail. -/
theorem clients_broadcastCycle (fails : Conn → Bool) (msg : String) :
    ∀ (order : List Conn) (b : Broadcaster),
      (broadcastCycle fails msg order b).clients
        = b.clients.filter (fun c => !(decide (c ∈ order) && fails c)) := by
  intro order
  induction order with
  | nil => intro b; simp [broadcastCycle]
  | cons x rest ih =>
    intro b
    unfold broadcastCycle
    by_cases hmem : x ∈ b.clients
    · by_cases hf : fails x = true
      · simp only [hmem, hf, if_true]
        rw [ih]
        simp only [mapDelete, List.filter_filter]
        apply List.filter_congr
        intro c _
        by_cases hc : c = x
        · subst hc; simp [hf]
        · simp [hc]
      · have hf2 : fails x = false := by simpa using hf
        simp only [hmem, hf2, if_true, Bool.false_eq_true, if_false]
        rw [ih]
        apply List.filter_congr
        intro c _
        by_cases hc : c = x
        · subst hc; simp [hf2]
        · simp [hc]
    · simp only [hmem, if_false]
      rw [ih]
      apply List.filter_congr
      intro c hcm
      have hc : c ≠ x := fun h => hmem (h ▸ hcm)
      simp [hc]

theorem writes_broadcastCycle (fails : Conn → Bool) (msg : String) :
    ∀ (order : List Conn) (b : Broadcaster), order.Nodup →
      (broadcastCycle fails msg order b).writes
        = b.writes ++ (order.filter (fun c => decide (c ∈ b.clients))).map
            (fun c => { conn := c, data := msg, ok := !fails c }) := by
  intro order
  induction order with
  | nil => intro b _; simp [broadcastCycle]
  | cons x rest ih =>
    intro b hnd
    have hx : x ∉ rest := (List.nodup_cons.1 hnd).1
    have hrest : rest.Nodup := (List.nodup_cons.1 hnd).2
    unfold broadcastCycle
    by_cases hmem : x ∈ b.clients
    · by_cases hf : fails x = true
      · simp only [hmem, hf, if_true]
        rw [ih _ hrest]
        have hfilt : rest.filter (fun c => decide (c ∈ mapDelete x b.clients))
            = rest.filter (fun c => decide (c ∈ b.clients)) := by
          apply List.filter_congr
          intro c hc
          have hne : c ≠ x := fun h => hx (h ▸ hc)
          simp [mem_mapDelete, hne]
        simp [hfilt, hmem, hf]
      · have hf2 : fails x = false := by simpa using hf
        simp only [hmem, hf2, if_true, Bool.false_eq_true, if_false]
        rw [ih _ hrest]
        simp [hmem, hf2]
    · simp only [hmem, if_false]
      rw [ih _ hrest]
      simp [hmem]

theorem broadcastCycle_nodup (fails : Conn → Bool) (msg : String) (order : List Conn)
    (b : Broadcaster) (h : b.clients.Nodup) :
    (broadcastCycle fails msg order b).clients.Nodup := by
  rw [clients_broadcastCycle]
  exact h.filter _

theorem step_nodup (b : Broadcaster) (ev : HubEvent) (h : b.clients.Nodup) :
    (b.step ev).clients.Nodup := by
  cases ev with
  | broadcast msg cy => exact broadcastCycle_nodup _ _ _ _ h
  | register c => exact mapInsert_nodup _ _ h
  | unregister c => exact mapDelete_nodup _ _ h

theorem mem_mapInsert (c x : Conn) (m : List Conn) : c ∈ mapInsert x m ↔ c ∈ m ∨ c = x := by
  unfold mapInsert
  split
  · rename_i hx
    constructor
    · exact fun h => Or.inl h
    · rintro (h | h)
      · exact h
      · exact h ▸ hx
  · simp

theorem step_not_mem (b : Broadcaster) (ev : HubEvent) (k : Conn) (hk : k ∉ b.clients)
    (hev : ev.leavesOut k = true) : k ∉ (b.step ev).clients := by
  cases ev with
  | broadcast msg cy =>
    simp only [Broadcaster.step, clients_broadcastCycle]
    exact fun h => hk (List.mem_filter.1 h).1
  | register c =>
    simp only [Broadcaster.step, mem_mapInsert]
    have hne : c ≠ k := by simpa [HubEvent.leavesOut] using hev
    rintro (h | h)
    · exact hk h
    · exact hne h.symm
  | unregister c =>
    simp only [Broadcaster.step, mem_mapDelete]
    exact fun h => hk h.1

theorem run_not_mem (k : Conn) : ∀ (evs : List HubEvent) (b : Broadcaster), k ∉ b.clients →
    (∀ ev ∈ evs, ev.leavesOut k = true) → k ∉ (b.run evs).clients := by
  intro evs
  induction evs with
  | nil => intro b hk _; exact hk
  | cons ev evs ih =>
    intro b hk hall
    exact ih _ (step_not_mem b ev k hk (hall ev (List.mem_cons_self _ _)))
      (fun e he => hall e (List.mem_cons_of_mem _ he))

/-- A cycle in which every write returns, over a registry of N sinks, calls
`WriteMessage` with the payload exactly once on each of the N sinks and on
nothing else (N calls in all), so every sink whose write does not fail
receives exactly one copy. -/
theorem broadcastCycle_fanout (b : Broadcaster) (msg : String) (cy : Cycle)
    (hnd : b.clients.Nodup) (hperm : cy.order.Perm b.clients) :
    (∀ c, c ∈ b.clients →
        attempts c (broadcastCycle cy.fails msg cy.order b) = attempts c b ++ [msg]) ∧
    (∀ c, c ∉ b.clients →
        attempts c (broadcastCycle cy.fails msg cy.order b) = attempts c b) ∧
    (∀ c, c ∈ b.clients → cy.fails c = false →
        received c (broadcastCycle cy.fails msg cy.order b) = received c b ++ [msg]) ∧
    (broadcastCycle cy.fails msg cy.order b).writes.length
        = b.writes.length + b.clients.length := by
  have hond : cy.order.Nodup := hperm.nodup_iff.2 hnd
  refine ⟨?_, ?_, ?_, ?_⟩
  · intro c hc
    rw [attempts_broadcastCycle _ _ _ _ _ hond]
    simp [hc, hperm.mem_iff.2 hc]
  · intro c hc
    rw [attempts_broadcastCycle _ _ _ _ _ hond]
    simp [hc]
  · intro c hc hf
    rw [received_broadcastCycle _ _ _ _ _ hond]
    simp [hc, hperm.mem_iff.2 hc, hf]
  · rw [writes_broadcastCycle _ _ _ _ hond]
    have hall : cy.order.filter (fun c => decide (c ∈ b.clients)) = cy.order := by
      apply List.filter_eq_self.2
      intro c hc
      simpa using hperm.mem_iff.1 hc
    simp [hall, hperm.length_eq]

/-- When the write of payload `msg` to sink `k` fails during a cycle in which
every write returns, every
other registered sink is still written `msg` in that cycle (and receives it
when its own write succeeds), `k` is no longer in the client set after the
cycle, stays out of it under every later step other than a registration of
`k` itself, and the next cycle does not write to `k`. -/
theorem broadcastCycle_fault_isolation (b : Broadcaster) (msg : String) (cy : Cycle) (k : Conn)
    (hnd : b.clients.Nodup) (hperm : cy.order.Perm b.clients)
    (hk : k ∈ b.clients) (hfail : cy.fails k = true) :
    (∀ c, c ∈ b.clients → c ≠ k →
        attempts c (broadcastCycle cy.fails msg cy.order b) = attempts c b ++ [msg]) ∧
    (∀ c, c ∈ b.clients → cy.fails c = false →
        received c (broadcastCycle cy.fails msg cy.order b) = received c b ++ [msg]) ∧
    k ∉ (broadcastCycle cy.fails msg cy.order b).clients ∧
    (∀ evs : List HubEvent, (∀ ev ∈ evs, ev.leavesOut k = true) →
        k ∉ ((broadcastCycle cy.fails msg cy.order b).run evs).clients) ∧
    (∀ (next : String) (cy2 : Cycle),
        cy2.order.Perm (broadcastCycle cy.fails msg cy.order b).clients →
        attempts k (broadcastCycle cy2.fails next cy2.order
            (broadcastCycle cy.fails msg cy.order b))
          = attempts k (broadcastCycle cy.fails msg cy.order b)) := by
  have hond : cy.order.Nodup := hperm.nodup_iff.2 hnd
  have hout : k ∉ (broadcastCycle cy.fails msg cy.order b).clients := by
    rw [clients_broadcastCycle]
    simp [hperm.mem_iff.2 hk, hfail]
  refine ⟨?_, ?_, hout, ?_, ?_⟩
  · intro c hc _
    rw [attempts_broadcastCycle _ _ _ _ _ hond]
    simp [hc, hperm.mem_iff.2 hc]
  · intro c hc hf
    rw [received_broadcastCycle _ _ _ _ _ hond]
    simp [hc, hperm.mem_iff.2 hc, hf]
  · intro evs hall
    exact run_not_mem k evs _ hout hall
  · intro next cy2 hperm2
    have hnd2 : cy2.order.Nodup :=
      hperm2.nodup_iff.2 (broadcastCycle_nodup _ _ _ _ hnd)
    rw [attempts_broadcastCycle _ _ _ _ _ hnd2]
    simp [hout]

/-- Along every run of the broadcaster in which every write returns (cycles
of `BroadcastLoop`
interleaved with registrations and removals by `HandleWebSocket`), a sink that
is registered at the start, is never removed and never fails a write receives
exactly the payloads accepted from the queue, in the order accepted: nothing
dropped, merged or duplicated; and it is still registered at the end. -/
theorem run_preserves_order (c : Conn) :
    ∀ (evs : List HubEvent) (b : Broadcaster), b.clients.Nodup → c ∈ b.clients →
      ValidRun b evs → (∀ ev ∈ evs, ev.keeps c = true) →
      received c (b.run evs) = received c b ++ payloads evs ∧ c ∈ (b.run evs).clients := by
  intro evs
  induction evs with
  | nil => intro b _ hc _ _; simp [Broadcaster.run, payloads, hc]
  | cons ev evs ih =>
    intro b hnd hc hvalid hkeep
    have hk : ev.keeps c = true := hkeep ev (List.mem_cons_self _ _)
    have hrest : ∀ e ∈ evs, e.keeps c = true := fun e he => hkeep e (List.mem_cons_of_mem _ he)
    have hnd1 : (b.step ev).clients.Nodup := step_nodup b ev hnd
    cases ev with
    | broadcast msg cy =>
      have hperm : cy.order.Perm b.clients := hvalid.1
      have hf : cy.fails c = false := by simpa [HubEvent.keeps] using hk
      have hc1 : c ∈ (Broadcaster.step b (.broadcast msg cy)).clients := by
        simp only [Broadcaster.step, clients_broadcastCycle]
        exact List.mem_filter.2 ⟨hc, by simp [hf]⟩
      have hrec : received c (Broadcaster.step b (.broadcast msg cy)) = received c b ++ [msg] := by
        simp only [Broadcaster.step]
        rw [received_broadcastCycle _ _ _ _ _ (hperm.nodup_iff.2 hnd)]
        simp [hc, hperm.mem_iff.2 hc, hf]
      have h := ih _ hnd1 hc1 hvalid.2 hrest
      refine ⟨?_, h.2⟩
      simp only [Broadcaster.run, payloads]
      rw [h.1, hrec]
      simp
    | register d =>
      have hc1 : c ∈ (Broadcaster.step b (.register d)).clients := by
        simp only [Broadcaster.step, mem_mapInsert]
        exact Or.inl hc
      have h := ih _ hnd1 hc1 hvalid hrest
      refine ⟨?_, h.2⟩
      simp only [Broadcaster.run, payloads]
      rw [h.1]
      simp [Broadcaster.step, received]
    | unregister d =>
      have hne : d ≠ c := by simpa [HubEvent.keeps] using hk
      have hc1 : c ∈ (Broadcaster.step b (.unregister d)).clients := by
        simp only [Broadcaster.step, mem_mapDelete]
        exact ⟨hc, fun h => hne h.symm⟩
      have h := ih _ hnd1 hc1 hvalid hrest
      refine ⟨?_, h.2⟩
      simp only [Broadcaster.run, payloads]
      rw [h.1]
      simp [Broadcaster.step, received]

/-- C8. Removing a sink from the client set is idempotent: a second removal
(by `HandleWebSocket` or by a failed write in `BroadcastLoop`) leaves the
broadcaster as it was after the first, the removed sink is absent, and
removing a sink that is not registered changes nothing; the operation is
total, it has no error case. -/
theorem unregister_idempotent (b : Broadcaster) (c : Conn) :
    (b.step (.unregister c)).step (.unregister c) = b.step (.unregister c) ∧
    mapDelete c (mapDelete c b.clients) = mapDelete c b.clients ∧
    c ∉ (b.step (.unregister c)).clients ∧
    (c ∉ b.clients → b.step (.unregister c) = b) := by
  have hidem : mapDelete c (mapDelete c b.clients) = mapDelete c b.clients := by
    simp [mapDelete, List.filter_filter]
  refine ⟨?_, hidem, ?_, ?_⟩
  · simp [Broadcaster.step, hidem]
  · simp [Broadcaster.step, mem_mapDelete]
  · intro hc
    have : mapDelete c b.clients = b.clients := by
      apply List.filter_eq_self.2
      intro a ha
      have : a ≠ c := fun h => hc (h ▸ ha)
      simpa using this
    simp [Broadcaster.step, this]

theorem unregister_idempotent_witness :
    Broadcaster.step { clients := [1, 2] } (.unregister 3) = { clients := [1, 2] } :=
  (unregister_idempotent { clients := [1, 2] } 3).2.2.2 (by decide)

/-! ## Lemmas on the session loop -/

theorem sortByKey_simplified (t : TickerData) :
    sortByKey (simplified t) =
      [("change", .str t.PriceChangePercent), ("price", .str t.LastPrice),
       ("symbol", .str t.Symbol), ("timestamp", .int64 t.EventTime),
       ("volume", .str t.Volume)] := by
  rfl

theorem streamLoop_message_ok (frame : String) (ticker : TickerData)
    (hdec : unmarshalTicker frame = .ok ticker) (htype : ticker.EventType = "24hrTicker")
    (rest : List LoopEvent) (s : Session) :
    streamLoop (.message frame :: rest) s
      = streamLoop rest { s with reads := s.reads + 1,
                                 queue := s.queue ++ [marshalMap (simplified ticker)] } := by
  simp [streamLoop, hdec, htype]

theorem streamLoop_message_skip (frame : String)
    (h : ∀ t, unmarshalTicker frame = .ok t → t.EventType ≠ "24hrTicker")
    (rest : List LoopEvent) (s : Session) :
    streamLoop (.message frame :: rest) s = streamLoop rest { s with reads := s.reads + 1 } := by
  cases hdec : unmarshalTicker frame with
  | error e => simp [streamLoop, hdec]
  | ok t => simp [streamLoop, hdec, h t hdec]

theorem BroadcastLoop_nil (cycles : List Cycle) (b : Broadcaster) :
    BroadcastLoop [] cycles b = b := by
  cases cycles <;> rfl

theorem findField_result : findField "result" = none := by decide

theorem decodeMembers_result_ignored :
    ∀ (members : List (String × JSON)) (t : TickerData),
      decodeMembers (members.filter (fun m => m.1 != "result")) t = decodeMembers members t := by
  intro members
  induction members with
  | nil => intro t; rfl
  | cons m rest ih =>
    intro t
    obtain ⟨key, v⟩ := m
    by_cases hk : key = "result"
    · subst hk
      simp [decodeMembers, findField_result, ih]
    · simp only [List.filter, bne_iff_ne, ne_eq, hk, not_false_eq_true, decide_True]
      have hb : (key != "result") = true := by simpa using hk
      simp only [hb, decodeMembers, ih]

theorem queue_single_message (frame : String) :
    (streamPrices (streaming [.message frame])).queue =
      match unmarshalTicker frame with
      | .error _ => []
      | .ok ticker =>
        if ticker.EventType == "24hrTicker" then [marshalMap (simplified ticker)] else [] := by
  simp only [streamPrices, streaming, streamLoop]
  cases unmarshalTicker frame with
  | error e => rfl
  | ok t =>
    by_cases h : t.EventType = "24hrTicker" <;> simp [h, streamLoop]

/-- C1, as amended. For the ticker frame of the scenario and a registry of two
sinks whose writes succeed, `streamPrices` puts one payload on the queue and
`BroadcastLoop` writes it to both sinks, whatever the order in which the map
is enumerated; the text is the object with the five members in ascending key
order, as `json.Marshal` writes a map. -/
theorem ticker_frame_delivered_sorted (c1 c2 : Conn) (order : List Conn) (hne : c1 ≠ c2)
    (hperm : order.Perm (NewBroadcaster.run [.register c1, .register c2]).clients) :
    (streamPrices (streaming [.message tickerFrame])).queue = [tickerPayloadSorted] ∧
    received c1 (BroadcastLoop (streamPrices (streaming [.message tickerFrame])).queue
        [{ order := order, fails := fun _ => false }]
        (NewBroadcaster.run [.register c1, .register c2])) = [tickerPayloadSorted] ∧
    received c2 (BroadcastLoop (streamPrices (streaming [.message tickerFrame])).queue
        [{ order := order, fails := fun _ => false }]
        (NewBroadcaster.run [.register c1, .register c2])) = [tickerPayloadSorted] := by
  have hq : (streamPrices (streaming [.message tickerFrame])).queue = [tickerPayloadSorted] := by
    decide
  have hne2 : ¬ c2 = c1 := fun h => hne h.symm
  have hb : NewBroadcaster.run [.register c1, .register c2] = { clients := [c1, c2] } := by
    simp [Broadcaster.run, Broadcaster.step, NewBroadcaster, mapInsert, hne2]
  rw [hb] at hperm ⊢
  have hnd : order.Nodup := hperm.nodup_iff.2 (by simp [hne])
  refine ⟨hq, ?_, ?_⟩
  · rw [hq]
    simp only [BroadcastLoop]
    rw [received_broadcastCycle _ _ _ _ _ hnd]
    simp [received, hperm.mem_iff]
  · rw [hq]
    simp only [BroadcastLoop]
    rw [received_broadcastCycle _ _ _ _ _ hnd]
    simp [received, hperm.mem_iff]

theorem ticker_frame_delivered_sorted_witness :
    received 1 (BroadcastLoop (streamPrices (streaming [.message tickerFrame])).queue
        [{ order := [2, 1], fails := fun _ => false }]
        (NewBroadcaster.run [.register 1, .register 2])) = [tickerPayloadSorted] :=
  (ticker_frame_delivered_sorted 1 2 [2, 1] (by decide) (List.Perm.swap 1 2 [])).2.1

/-- C1, as stated, fails: the text written to the sinks is not the one with
the members in the order symbol, price, change, volume, timestamp. -/
theorem ticker_frame_not_as_listed :
    ¬ (received 1 (BroadcastLoop (streamPrices (streaming [.message tickerFrame])).queue
        [{ order := [1, 2], fails := fun _ => false }]
        (NewBroadcaster.run [.register 1, .register 2])) = [tickerPayloadAsListed]) := by
  decide

/-- C2. A frame that decodes without error into a `TickerData` whose
`EventType` is "24hrTicker" makes `streamPrices` send exactly one payload on
the queue; the map it marshals has exactly the keys symbol, price, change,
volume, timestamp, bound to the record's `Symbol`, `LastPrice`,
`PriceChangePercent`, `Volume` as strings and to `EventTime` as an integer,
and the payload is the object of these five members and nothing else: its
text is spelled out, and read back by the decoder it is the object with the
four strings unchanged and the event time as an integer literal. -/
theorem ticker_frame_enqueues_projection (frame : String) (ticker : TickerData)
    (hdec : unmarshalTicker frame = .ok ticker) (htype : ticker.EventType = "24hrTicker") :
    (∀ (rest : List LoopEvent) (s : Session),
        streamLoop (.message frame :: rest) s
          = streamLoop rest { s with reads := s.reads + 1,
                                     queue := s.queue ++ [marshalMap (simplified ticker)] }) ∧
    (streamPrices (streaming [.message frame])).queue = [marshalMap (simplified ticker)] ∧
    (simplified ticker).map Prod.fst = ["symbol", "price", "change", "volume", "timestamp"] ∧
    (simplified ticker).lookup "symbol" = some (.str ticker.Symbol) ∧
    (simplified ticker).lookup "price" = some (.str ticker.LastPrice) ∧
    (simplified ticker).lookup "change" = some (.str ticker.PriceChangePercent) ∧
    (simplified ticker).lookup "volume" = some (.str ticker.Volume) ∧
    (simplified ticker).lookup "timestamp" = some (.int64 ticker.EventTime) ∧
    (marshalMap (simplified ticker)).data =
      "\x7b\"change\":".data ++ encodeString ticker.PriceChangePercent
        ++ ",\"price\":".data ++ encodeString ticker.LastPrice
        ++ ",\"symbol\":".data ++ encodeString ticker.Symbol
        ++ ",\"timestamp\":".data ++ formatInt ticker.EventTime
        ++ ",\"volume\":".data ++ encodeString ticker.Volume ++ "\x7d".data ∧
    parseJSON (marshalMap (simplified ticker)) =
      some (.object
        [("change", .string ticker.PriceChangePercent), ("price", .string ticker.LastPrice),
         ("symbol", .string ticker.Symbol), ("timestamp", .number (formatInt ticker.EventTime)),
         ("volume", .string ticker.Volume)]) ∧
    parseInt64 (formatInt ticker.EventTime) = some ticker.EventTime := by
  refine ⟨fun rest s => streamLoop_message_ok frame ticker hdec htype rest s, ?_,
    rfl, rfl, rfl, rfl, rfl, rfl, ?_, ?_,
    parseInt64_formatInt _ (unmarshalTicker_isInt64 frame ticker hdec)⟩
  · rw [queue_single_message, hdec]
    simp [htype]
  · have h1 : encodeString "change" = "\"change\"".data := by decide
    have h2 : encodeString "price" = "\"price\"".data := by decide
    have h3 : encodeString "symbol" = "\"symbol\"".data := by decide
    have h4 : encodeString "timestamp" = "\"timestamp\"".data := by decide
    have h5 : encodeString "volume" = "\"volume\"".data := by decide
    simp only [marshalMap, sortByKey_simplified, encodeMembers, encodeValue, h1, h2, h3, h4, h5]
    simp
  · rw [parseJSON_marshalMap, sortByKey_simplified]
    rfl

theorem ticker_frame_enqueues_projection_witness :
    (streamPrices (streaming [.message tickerFrame])).queue
      = [marshalMap (simplified tickerRecord)] :=
  (ticker_frame_enqueues_projection tickerFrame tickerRecord rfl rfl).2.1

/-- The session does not inspect a `result` key: a frame
that is a JSON object with such a key decodes as the object without it, and
the session sends nothing on the queue exactly when the frame does not decode
into a record of event type "24hrTicker" (as for the acknowledgement with
`result` and `id` only); when it does, one payload is sent. -/
theorem result_key_not_inspected (frame : String) (hres : containsResultKey frame = true) :
    (∃ members, parseJSON frame = some (.object members) ∧
        unmarshalTicker frame
          = decodeMembers (members.filter (fun m => m.1 != "result")) {}) ∧
    ((streamPrices (streaming [.message frame])).queue = [] ↔
        ∀ t, unmarshalTicker frame = .ok t → t.EventType ≠ "24hrTicker") ∧
    (∀ t, unmarshalTicker frame = .ok t → t.EventType = "24hrTicker" →
        (streamPrices (streaming [.message frame])).queue = [marshalMap (simplified t)]) ∧
    (streamPrices (streaming [.message ackFrame])).queue = [] := by
  refine ⟨?_, ?_, ?_, by decide⟩
  · unfold containsResultKey at hres
    cases hp : parseJSON frame with
    | none => simp [hp] at hres
    | some v =>
      cases v with
      | object members =>
        exact ⟨members, rfl, by simp [unmarshalTicker, hp, decodeMembers_result_ignored]⟩
      | null => simp [hp] at hres
      | bool b => simp [hp] at hres
      | number lit => simp [hp] at hres
      | string s => simp [hp] at hres
      | array elems => simp [hp] at hres
  · rw [queue_single_message]
    cases hdec : unmarshalTicker frame with
    | error e => simp
    | ok t =>
      by_cases h : t.EventType = "24hrTicker" <;> simp [h]
  · intro t hdec htype
    rw [queue_single_message, hdec]
    simp [htype]

/-- C3. The inline path of `streamPrices` makes no check of the `result` key,
the check that the helper `processMessage` makes before it looks at the event
type: the JSON object frame with the keys `result` and `e`, the latter
"24hrTicker", is not held back as an acknowledgement; `streamPrices` sends a
payload for it. -/
theorem result_frame_forwarded :
    containsResultKey resultTickerFrame = true ∧
    (streamPrices (streaming [.message resultTickerFrame])).queue
      = ["\x7b\"change\":\"\",\"price\":\"\",\"symbol\":\"\",\"timestamp\":0,\"volume\":\"\"\x7d"] := by
  decide

/-- C4. A frame whose decoded event-type tag is not exactly "24hrTicker" (a
missing or empty tag, another tag, or no decoded record at all) makes
`streamPrices` read on without sending anything on the queue, so
`BroadcastLoop` has nothing to write and leaves every sink untouched. -/
theorem non_ticker_frame_not_forwarded (frame : String)
    (h : ∀ t, unmarshalTicker frame = .ok t → t.EventType ≠ "24hrTicker") :
    (∀ (rest : List LoopEvent) (s : Session),
        streamLoop (.message frame :: rest) s
          = streamLoop rest { s with reads := s.reads + 1 }) ∧
    (streamPrices (streaming [.message frame])).queue = [] ∧
    (∀ (cycles : List Cycle) (b : Broadcaster),
        BroadcastLoop (streamPrices (streaming [.message frame])).queue cycles b = b) := by
  have hq : (streamPrices (streaming [.message frame])).queue = [] := by
    rw [queue_single_message]
    cases hdec : unmarshalTicker frame with
    | error e => rfl
    | ok t => simp [h t hdec]
  refine ⟨fun rest s => streamLoop_message_skip frame h rest s, hq, ?_⟩
  intro cycles b
  rw [hq]
  exact BroadcastLoop_nil cycles b

theorem non_ticker_frame_not_forwarded_witness :
    (streamPrices (streaming [.message "\x7b\"e\":\"trade\",\"s\":\"BTCUSDT\"\x7d"])).queue = [] ∧
    (streamPrices (streaming [.message "\x7b\"s\":\"BTCUSDT\"\x7d"])).queue = [] ∧
    (streamPrices (streaming [.message "\x7b\"e\":\"\"\x7d"])).queue = [] := by
  refine ⟨(non_ticker_frame_not_forwarded _ ?_).2.1, (non_ticker_frame_not_forwarded _ ?_).2.1,
    (non_ticker_frame_not_forwarded _ ?_).2.1⟩
  · intro t ht
    have hd : unmarshalTicker "\x7b\"e\":\"trade\",\"s\":\"BTCUSDT\"\x7d"
        = .ok { EventType := "trade", Symbol := "BTCUSDT" } := rfl
    rw [hd] at ht
    cases ht
    decide
  · intro t ht
    have hd : unmarshalTicker "\x7b\"s\":\"BTCUSDT\"\x7d" = .ok { Symbol := "BTCUSDT" } :=
      rfl
    rw [hd] at ht
    cases ht
    decide
  · intro t ht
    have hd : unmarshalTicker "\x7b\"e\":\"\"\x7d" = .ok {} := rfl
    rw [hd] at ht
    cases ht
    decide

theorem IsCloseError_normal (err : GoError) :
    IsCloseError err [CloseNormalClosure] = true
      ↔ ∃ text, err = .closeError CloseNormalClosure text := by
  cases err with
  | closeError code text =>
    simp only [IsCloseError, List.contains_cons, List.contains_nil, Bool.or_false, beq_iff_eq]
    constructor
    · intro h; exact ⟨text, by rw [h]⟩
    · rintro ⟨t, ht⟩; injection ht
  | other msg => simp [IsCloseError]
  | wrap msg inner => simp [IsCloseError]

/-- C9. A frame that fails to decode (not JSON, or JSON that does not fit
`TickerData`) is dropped: `streamPrices` sends nothing for it, does not
return, and goes on with the next read exactly as it would have without the
frame's effect on the queue; a valid ticker frame that follows is put on the
queue and the session is still running. -/
theorem undecodable_frame_skipped (frame : String) (e : UnmarshalError)
    (herr : unmarshalTicker frame = .error e) :
    (∀ (rest : List LoopEvent) (s : Session),
        streamLoop (.message frame :: rest) s
          = streamLoop rest { s with reads := s.reads + 1 }) ∧
    streamPrices (streaming [.message frame])
      = { writes := [subscribeMsg], reads := 1, queue := [], connClosed := false,
          outcome := .running } ∧
    (∀ (next : String) (t : TickerData), unmarshalTicker next = .ok t →
        t.EventType = "24hrTicker" →
        streamPrices (streaming [.message frame, .message next])
          = { writes := [subscribeMsg], reads := 2, queue := [marshalMap (simplified t)],
              connClosed := false, outcome := .running }) := by
  have hskip : ∀ t, unmarshalTicker frame = .ok t → t.EventType ≠ "24hrTicker" := by
    intro t ht
    rw [herr] at ht
    cases ht
  refine ⟨fun rest s => streamLoop_message_skip frame hskip rest s, ?_, ?_⟩
  · simp [streamPrices, streaming, streamLoop, herr]
  · intro next t hnext htype
    simp [streamPrices, streaming, streamLoop, herr, hnext, htype]

theorem undecodable_frame_skipped_witness :
    unmarshalTicker "not json" = .error .malformed ∧
    unmarshalTicker "\x7b\"e\":\"24hrTicker\",\"E\":\"soon\"\x7d" = .error (.typeMismatch "E") ∧
    (streamPrices (streaming [.message "not json", .message tickerFrame])).queue
      = [tickerPayloadSorted] ∧
    (streamPrices (streaming [.message "\x7b\"e\":\"24hrTicker\",\"E\":\"soon\"\x7d",
        .message tickerFrame])).queue = [tickerPayloadSorted] := by
  have h1 := (undecodable_frame_skipped "not json" .malformed rfl).2.2
    tickerFrame tickerRecord rfl rfl
  have h2 := (undecodable_frame_skipped "\x7b\"e\":\"24hrTicker\",\"E\":\"soon\"\x7d"
    (.typeMismatch "E") rfl).2.2 tickerFrame tickerRecord rfl rfl
  have hp : marshalMap (simplified tickerRecord) = tickerPayloadSorted := by decide
  refine ⟨rfl, rfl, ?_, ?_⟩
  · rw [h1, hp]
  · rw [h2, hp]

/-- C10. When `ReadMessage` fails, `streamPrices` returns at once: with a nil
error if and only if the read error is itself a websocket close error whose
code is the normal-closure code, and otherwise with an error that wraps the
read error; in both cases the connection is closed, nothing is sent on the
queue and no later frame is read (what follows has no effect). -/
theorem read_error_ends_session (err : GoError) (rest : List LoopEvent) (s : Session) :
    ((streamLoop (.readError err :: rest) s).outcome = .returned none
        ↔ ∃ text, err = .closeError CloseNormalClosure text) ∧
    ((¬ ∃ text, err = .closeError CloseNormalClosure text) →
        (streamLoop (.readError err :: rest) s).outcome
          = .returned (some (.wrap "error reading message" err))) ∧
    (streamLoop (.readError err :: rest) s).reads = s.reads + 1 ∧
    (streamLoop (.readError err :: rest) s).queue = s.queue ∧
    (streamLoop (.readError err :: rest) s).connClosed = true ∧
    streamLoop (.readError err :: rest) s = streamLoop [.readError err] s := by
  by_cases h : IsCloseError err [CloseNormalClosure] = true
  · have hex := (IsCloseError_normal err).1 h
    simp [streamLoop, h, hex]
  · have hex : ¬ ∃ text, err = .closeError CloseNormalClosure text :=
      fun hx => h ((IsCloseError_normal err).2 hx)
    simp [streamLoop, h, hex]

theorem read_error_ends_session_witness :
    (streamPrices (streaming [.readError (.closeError 1006 "abnormal"),
        .message tickerFrame])).outcome
      = .returned (some (.wrap "error reading message" (.closeError 1006 "abnormal"))) :=
  (read_error_ends_session (.closeError 1006 "abnormal") [.message tickerFrame]
    { writes := [subscribeMsg] }).2.1 (by
      rintro ⟨text, h⟩
      injection h with h1 _
      exact absurd h1 (by decide))



/-! ## Lemmas on the calls of the session -/

theorem streamLoop_writes : ∀ (events : List LoopEvent) (s : Session),
    (streamLoop events s).writes = s.writes ++ writtenMessages (callsLoop events) := by
  intro events
  induction events with
  | nil => intro s; simp [streamLoop, callsLoop, writtenMessages]
  | cons ev rest ih =>
    intro s
    cases ev with
    | done => simp [streamLoop, callsLoop, writtenMessages]
    | readError err =>
      by_cases h : IsCloseError err [CloseNormalClosure] = true <;>
        simp [streamLoop, callsLoop, writtenMessages, h]
    | message frame =>
      simp only [streamLoop, callsLoop, writtenMessages]
      cases unmarshalTicker frame with
      | error e => simp [ih]
      | ok t => by_cases ht : t.EventType = "24hrTicker" <;> simp [ht, ih]

theorem streamLoop_reads : ∀ (events : List LoopEvent) (s : Session),
    (streamLoop events s).reads = s.reads + (callsLoop events).count .readMessage := by
  intro events
  induction events with
  | nil => intro s; simp [streamLoop, callsLoop]
  | cons ev rest ih =>
    intro s
    cases ev with
    | done => simp [streamLoop, callsLoop]
    | readError err =>
      by_cases h : IsCloseError err [CloseNormalClosure] = true <;>
        simp [streamLoop, callsLoop, h]
    | message frame =>
      simp only [streamLoop, callsLoop]
      cases unmarshalTicker frame with
      | error e => simp [ih]; omega
      | ok t => by_cases ht : t.EventType = "24hrTicker" <;> simp [ht, ih] <;> omega

theorem streamLoop_connClosed : ∀ (events : List LoopEvent) (s : Session),
    (streamLoop events s).connClosed
      = (s.connClosed || decide (UpstreamCall.close ∈ callsLoop events)) := by
  intro events
  induction events with
  | nil => intro s; simp [streamLoop, callsLoop]
  | cons ev rest ih =>
    intro s
    cases ev with
    | done => simp [streamLoop, callsLoop]
    | readError err =>
      by_cases h : IsCloseError err [CloseNormalClosure] = true <;>
        simp [streamLoop, callsLoop, h]
    | message frame =>
      simp only [streamLoop, callsLoop]
      cases unmarshalTicker frame with
      | error e => simp [ih]
      | ok t => by_cases ht : t.EventType = "24hrTicker" <;> simp [ht, ih]

/-- The calls listed by `upstreamCalls` are those counted in the session: the
same `WriteJSON` messages in the same order, as many `ReadMessage` calls, and
a `Close` exactly when the session records the connection as closed. -/
theorem upstreamCalls_agree (up : Upstream) :
    writtenMessages (upstreamCalls up) = (streamPrices up).writes ∧
    (upstreamCalls up).count .readMessage = (streamPrices up).reads ∧
    decide (UpstreamCall.close ∈ upstreamCalls up) = (streamPrices up).connClosed := by
  unfold upstreamCalls streamPrices
  cases up.dial with
  | some err => simp [writtenMessages]
  | none =>
    cases up.subscribe with
    | some err => simp [writtenMessages]
    | none =>
      simp [writtenMessages, streamLoop_writes, streamLoop_reads, streamLoop_connClosed]

theorem streamLoop_frames_done (frames : List String) (rest : List LoopEvent) :
    ∀ s : Session,
      (streamLoop (frames.map LoopEvent.message ++ .done :: rest) s).outcome
        = .returned none := by
  induction frames with
  | nil => intro s; simp [streamLoop]
  | cons f fs ih =>
    intro s
    have hcons : (f :: fs).map LoopEvent.message ++ .done :: rest
        = .message f :: (fs.map LoopEvent.message ++ .done :: rest) := rfl
    rw [hcons, streamLoop]
    cases unmarshalTicker f with
    | error e => exact ih _
    | ok t =>
      simp only []
      split <;> exact ih _

theorem callsLoop_frames_done (frames : List String) (rest : List LoopEvent) :
    callsLoop (frames.map LoopEvent.message ++ .done :: rest)
      = List.replicate frames.length .readMessage ++ [.writeJSON unsubscribeMsg, .close] := by
  induction frames with
  | nil => simp [callsLoop]
  | cons f fs ih => simp [callsLoop, ih, List.replicate_succ]

theorem writtenMessages_append (xs ys : List UpstreamCall) :
    writtenMessages (xs ++ ys) = writtenMessages xs ++ writtenMessages ys := by
  induction xs with
  | nil => rfl
  | cons x xs ih => cases x <;> simp [writtenMessages, ih]

theorem writtenMessages_replicate_read (n : Nat) :
    writtenMessages (List.replicate n .readMessage) = [] := by
  induction n with
  | zero => rfl
  | succ n ih => simp [List.replicate_succ, writtenMessages, ih]

/-- C11. When `streamPrices` meets the cancellation signal (after any number
of frames), it calls `WriteJSON` with the UNSUBSCRIBE message exactly once,
as the last call before the deferred `Close` of the connection, and returns
nil; the result of that write is not looked at, so the session is the same
whether the write succeeds or fails. -/
theorem cancellation_unsubscribes (up : Upstream) (frames : List String)
    (rest : List LoopEvent) (hdial : up.dial = none) (hsub : up.subscribe = none)
    (hev : up.events = frames.map LoopEvent.message ++ .done :: rest) :
    (streamPrices up).outcome = .returned none ∧
    (streamPrices up).writes = [subscribeMsg, unsubscribeMsg] ∧
    (streamPrices up).reads = frames.length ∧
    upstreamCalls up
      = .writeJSON subscribeMsg :: .setPingHandler ::
          (List.replicate frames.length .readMessage
            ++ [.writeJSON unsubscribeMsg, .close]) ∧
    (∀ e : Option GoError, streamPrices { up with unsubscribe := e } = streamPrices up) := by
  have hcalls : upstreamCalls up
      = .writeJSON subscribeMsg :: .setPingHandler ::
          (List.replicate frames.length .readMessage
            ++ [.writeJSON unsubscribeMsg, .close]) := by
    simp [upstreamCalls, hdial, hsub, hev, callsLoop_frames_done]
  have hagree := upstreamCalls_agree up
  have hloop := streamLoop_frames_done frames rest { writes := [subscribeMsg] }
  refine ⟨?_, ?_, ?_, hcalls, fun e => rfl⟩
  · simp only [streamPrices, hdial, hsub, hev]
    exact hloop
  · rw [← hagree.1, hcalls]
    simp [writtenMessages, writtenMessages_append, writtenMessages_replicate_read]
  · rw [← hagree.2.1, hcalls]
    simp [List.count_cons, List.count_append, List.count_replicate]

theorem cancellation_unsubscribes_witness :
    (streamPrices cancelledUpstream).outcome = .returned none ∧
    upstreamCalls cancelledUpstream
      = [.writeJSON subscribeMsg, .setPingHandler, .readMessage,
         .writeJSON unsubscribeMsg, .close] := by
  have h := cancellation_unsubscribes cancelledUpstream [tickerFrame] [] rfl rfl rfl
  exact ⟨h.1, h.2.2.2.1⟩

theorem streamLoop_writes_mem : ∀ (events : List LoopEvent),
    ∀ m ∈ writtenMessages (callsLoop events), m = unsubscribeMsg := by
  intro events
  induction events with
  | nil => intro m hm; simp [callsLoop, writtenMessages] at hm
  | cons ev rest ih =>
    intro m hm
    cases ev with
    | done => simpa [callsLoop, writtenMessages] using hm
    | readError err => simp [callsLoop, writtenMessages] at hm
    | message frame => exact ih m (by simpa [callsLoop, writtenMessages] using hm)

/-- C12. The two requests that `streamPrices` passes to `WriteJSON` encode as
JSON objects with the keys method, params, id in that order: the subscribe
request is the object with method SUBSCRIBE, the single stream name
btcusdt@ticker and id 1, the unsubscribe request the same with method
UNSUBSCRIBE and id 2.  The text frame written is this object followed by the
line feed that the encoder appends.  No other request is ever written, and the
subscribe request is the first call on the connection. -/
theorem subscription_requests_serialized :
    marshalSubscription subscribeMsg
      = "\x7b\"method\":\"SUBSCRIBE\",\"params\":[\"btcusdt@ticker\"],\"id\":1\x7d" ∧
    marshalSubscription unsubscribeMsg
      = "\x7b\"method\":\"UNSUBSCRIBE\",\"params\":[\"btcusdt@ticker\"],\"id\":2\x7d" ∧
    (parseJSON (marshalSubscription subscribeMsg)).map JSON.keys
      = some ["method", "params", "id"] ∧
    (parseJSON (marshalSubscription unsubscribeMsg)).map JSON.keys
      = some ["method", "params", "id"] ∧
    writeJSONFrame subscribeMsg
      = "\x7b\"method\":\"SUBSCRIBE\",\"params\":[\"btcusdt@ticker\"],\"id\":1\x7d\n" ∧
    writeJSONFrame unsubscribeMsg
      = "\x7b\"method\":\"UNSUBSCRIBE\",\"params\":[\"btcusdt@ticker\"],\"id\":2\x7d\n" ∧
    (parseJSON (writeJSONFrame subscribeMsg)).map JSON.keys
      = some ["method", "params", "id"] ∧
    (parseJSON (writeJSONFrame unsubscribeMsg)).map JSON.keys
      = some ["method", "params", "id"] ∧
    unsubscribeMsg.Params = subscribeMsg.Params ∧
    (∀ up : Upstream, ∀ m ∈ (streamPrices up).writes, m = subscribeMsg ∨ m = unsubscribeMsg) ∧
    (∀ up : Upstream, up.dial = none →
      (upstreamCalls up).head? = some (.writeJSON subscribeMsg)) := by
  refine ⟨by decide, by decide, by decide, by decide, by decide, by decide, by decide,
    by decide, rfl, ?_, ?_⟩
  · intro up m hm
    rw [← (upstreamCalls_agree up).1] at hm
    unfold upstreamCalls at hm
    cases hd : up.dial with
    | some err => simp [hd, writtenMessages] at hm
    | none =>
      cases hs : up.subscribe with
      | some err =>
        simp only [hd, hs, writtenMessages, List.mem_singleton] at hm
        exact Or.inl hm
      | none =>
        simp only [hd, hs, writtenMessages, List.mem_cons] at hm
        rcases hm with hm | hm
        · exact Or.inl hm
        · exact Or.inr (streamLoop_writes_mem up.events m hm)
  · intro up hd
    unfold upstreamCalls
    cases hs : up.subscribe <;> simp [hd, hs]

theorem subscription_requests_serialized_witness :
    (streamPrices (streaming [.done])).writes = [subscribeMsg, unsubscribeMsg] ∧
    (upstreamCalls (streaming [.done])).head? = some (.writeJSON subscribeMsg) :=
  ⟨by decide, subscription_requests_serialized.2.2.2.2.2.2.2.2.2.2 (streaming [.done]) rfl⟩

/-- C13. On a ping with application data `d`, handled at instant `now`, the
handler installed by `streamPrices` makes exactly one `WriteControl` call on
the upstream connection: a pong whose payload is `d` unchanged and whose
deadline is `now` plus one second (10^9 nanoseconds); it returns the result of
that call.  The handler is installed once the subscription has been written. -/
theorem pingHandler_answers_pong (now : Nanos) (writeControl : ControlWrite → Option GoError)
    (d : String) :
    (pingHandler now writeControl d).1
      = [{ messageType := PongMessage, data := d, deadline := now + Second }] ∧
    (pingHandler now writeControl d).1.length = 1 ∧
    (∀ w ∈ (pingHandler now writeControl d).1,
        w.messageType = 10 ∧ w.data = d ∧ w.deadline - now = 1000000000) ∧
    (pingHandler now writeControl d).2
      = writeControl { messageType := PongMessage, data := d, deadline := now + Second } ∧
    (∀ up : Upstream, up.dial = none → up.subscribe = none →
        (upstreamCalls up).take 2 = [.writeJSON subscribeMsg, .setPingHandler]) := by
  refine ⟨rfl, rfl, ?_, rfl, ?_⟩
  · intro w hw
    have : w = { messageType := PongMessage, data := d, deadline := now + Second } := by
      simpa [pingHandler] using hw
    subst this
    refine ⟨rfl, rfl, ?_⟩
    simp [Second]
  · intro up hd hs
    simp [upstreamCalls, hd, hs]

theorem pingHandler_answers_pong_witness :
    (pingHandler 5000000000 (fun _ => some (.other "write timeout")) "keepalive")
      = ([{ messageType := 10, data := "keepalive", deadline := 6000000000 }],
         some (.other "write timeout")) ∧
    (upstreamCalls (streaming [])).take 2 = [.writeJSON subscribeMsg, .setPingHandler] := by
  have h := pingHandler_answers_pong 5000000000 (fun _ => some (.other "write timeout"))
    "keepalive"
  exact ⟨Prod.ext h.1 h.2.2.2.1, h.2.2.2.2 (streaming []) rfl rfl⟩

/-- C18. A failure at start-up ends the session before any streaming.  When
`Dial` fails, `streamPrices` returns a non-nil error (wrapping the dial error)
and makes no call on any connection, so no subscribe message is written.  When
the subscribe write fails, it returns a non-nil error wrapping the write
error, closes the connection, reads no frame and sends no payload. -/
theorem startup_failures_fatal (up : Upstream) :
    (∀ err, up.dial = some err →
        (streamPrices up).outcome
          = .returned (some (.wrap "failed to connect to Binance" err)) ∧
        (streamPrices up).writes = [] ∧ (streamPrices up).reads = 0 ∧
        (streamPrices up).queue = [] ∧ upstreamCalls up = []) ∧
    (∀ err, up.dial = none → up.subscribe = some err →
        (streamPrices up).outcome = .returned (some (.wrap "failed to subscribe" err)) ∧
        (streamPrices up).reads = 0 ∧ (streamPrices up).queue = [] ∧
        upstreamCalls up = [.writeJSON subscribeMsg, .close]) := by
  constructor
  · intro err hd
    simp [streamPrices, upstreamCalls, hd]
  · intro err hd hs
    simp [streamPrices, upstreamCalls, hd, hs]

theorem startup_failures_fatal_witness :
    (streamPrices unreachableUpstream).queue = [] ∧
    (streamPrices refusedSubscription).outcome
      = .returned (some (.wrap "failed to subscribe" (.other "broken pipe"))) :=
  ⟨((startup_failures_fatal unreachableUpstream).1 (.other "no route to host") rfl).2.2.2.1,
   ((startup_failures_fatal refusedSubscription).2 (.other "broken pipe") rfl rfl).1⟩

/-! ## Lemmas on the payloads of the queue -/

theorem streamLoop_queue_mem : ∀ (events : List LoopEvent) (s : Session) (p : String),
    p ∈ (streamLoop events s).queue →
      p ∈ s.queue ∨ ∃ t : TickerData, p = marshalMap (simplified t) := by
  intro events
  induction events with
  | nil => intro s p hp; exact Or.inl hp
  | cons ev rest ih =>
    intro s p hp
    cases ev with
    | done => exact Or.inl (by simpa [streamLoop] using hp)
    | readError err =>
      by_cases h : IsCloseError err [CloseNormalClosure] = true
      · exact Or.inl (by simpa [streamLoop, h] using hp)
      · exact Or.inl (by simpa [streamLoop, h] using hp)
    | message frame =>
      rw [streamLoop] at hp
      cases hdec : unmarshalTicker frame with
      | error e =>
        rw [hdec] at hp
        simp only [] at hp
        have h := ih _ p hp
        exact h
      | ok t =>
        rw [hdec] at hp
        by_cases ht : t.EventType = "24hrTicker"
        · simp only [ht, beq_self_eq_true, if_true] at hp
          rcases ih _ p hp with h | h
          · rcases List.mem_append.1 h with h | h
            · exact Or.inl h
            · exact Or.inr ⟨t, by simpa using h⟩
          · exact Or.inr h
        · have hb : (t.EventType == "24hrTicker") = false := by simpa using ht
          simp only [hb, Bool.false_eq_true, if_false] at hp
          have h := ih _ p hp
          exact h

theorem streamPrices_queue_mem (up : Upstream) (p : String)
    (hp : p ∈ (streamPrices up).queue) : ∃ t : TickerData, p = marshalMap (simplified t) := by
  unfold streamPrices at hp
  cases hd : up.dial with
  | some err => simp [hd] at hp
  | none =>
    cases hs : up.subscribe with
    | some err => simp [hd, hs] at hp
    | none =>
      simp only [hd, hs] at hp
      rcases streamLoop_queue_mem _ _ p hp with h | h
      · simp at h
      · exact h

theorem marshalMap_ne_empty (m : List (String × GoValue)) : marshalMap m ≠ "" := by
  intro h
  have := congrArg String.data h
  simp [marshalMap] at this

/-- C14. The projection of a ticker record to its payload cannot fail: for
every record (any strings, any timestamp) `marshalMap` of the five-entry map,
whose values are strings and an integer only, yields a text that is not empty
and that the decoder reads as the object of the five members, the strings as
they were; an `int64` timestamp is read back as itself.  Hence every payload
that `streamPrices` sends is a non-empty JSON document. -/
theorem projection_total (ticker : TickerData) :
    marshalMap (simplified ticker) ≠ "" ∧
    parseJSON (marshalMap (simplified ticker)) =
      some (.object
        [("change", .string ticker.PriceChangePercent), ("price", .string ticker.LastPrice),
         ("symbol", .string ticker.Symbol), ("timestamp", .number (formatInt ticker.EventTime)),
         ("volume", .string ticker.Volume)]) ∧
    (isInt64 ticker.EventTime →
      parseInt64 (formatInt ticker.EventTime) = some ticker.EventTime) ∧
    (∀ (up : Upstream) (p : String), p ∈ (streamPrices up).queue →
      p ≠ "" ∧ (parseJSON p).isSome = true) := by
  refine ⟨marshalMap_ne_empty _, ?_, parseInt64_formatInt _, ?_⟩
  · rw [parseJSON_marshalMap, sortByKey_simplified]
    rfl
  · intro up p hp
    obtain ⟨t, rfl⟩ := streamPrices_queue_mem up p hp
    refine ⟨marshalMap_ne_empty _, ?_⟩
    rw [parseJSON_marshalMap]
    rfl

theorem projection_total_witness :
    marshalMap (simplified escapingRecord)
      = "\x7b\"change\":\"\",\"price\":\"a\\\"b\\\\c\",\"symbol\":\"\\u003cx\\n\",\"timestamp\":-9223372036854775808,\"volume\":\"\"\x7d" ∧
    parseInt64 (formatInt escapingRecord.EventTime) = some (-9223372036854775808) ∧
    (tickerPayloadSorted ≠ "" ∧ (parseJSON tickerPayloadSorted).isSome = true) := by
  have h := projection_total escapingRecord
  exact ⟨by decide, h.2.2.1 (by decide),
    h.2.2.2 (streaming [.message tickerFrame]) tickerPayloadSorted (by decide)⟩

/-! ## The encoder's key order -/

theorem ltChars_irrefl : ∀ a : List Char, ltChars a a = false := by
  intro a
  induction a with
  | nil => rfl
  | cons c cs ih => simp [ltChars, ih]

theorem ltChars_trans : ∀ a b c : List Char,
    ltChars a b = true → ltChars b c = true → ltChars a c = true := by
  intro a
  induction a with
  | nil =>
    intro b c hab hbc
    cases b with
    | nil => simp [ltChars] at hab
    | cons y ys =>
      cases c with
      | nil => simp [ltChars] at hbc
      | cons z zs => simp [ltChars]
  | cons x xs ih =>
    intro b c hab hbc
    cases b with
    | nil => simp [ltChars] at hab
    | cons y ys =>
      cases c with
      | nil => simp [ltChars] at hbc
      | cons z zs =>
        simp only [ltChars] at hab hbc ⊢
        by_cases hxy : x.toNat < y.toNat
        · by_cases hyz : y.toNat < z.toNat
          · have : x.toNat < z.toNat := by omega
            simp [this]
          · by_cases hzy : z.toNat < y.toNat
            · simp [hyz, hzy] at hbc
            · have : x.toNat < z.toNat := by omega
              simp [this]
        · by_cases hyx : y.toNat < x.toNat
          · simp [hxy, hyx] at hab
          · simp only [hxy, hyx, if_false] at hab
            by_cases hyz : y.toNat < z.toNat
            · have : x.toNat < z.toNat := by omega
              simp [this]
            · by_cases hzy : z.toNat < y.toNat
              · simp [hyz, hzy] at hbc
              · simp only [hyz, hzy, if_false] at hbc
                have h1 : ¬ x.toNat < z.toNat := by omega
                have h2 : ¬ z.toNat < x.toNat := by omega
                simp only [h1, h2, if_false]
                exact ih ys zs hab hbc

theorem ltChars_total : ∀ a b : List Char,
    ltChars a b = false → ltChars b a = false → a = b := by
  intro a
  induction a with
  | nil =>
    intro b hab _
    cases b with
    | nil => rfl
    | cons y ys => simp [ltChars] at hab
  | cons x xs ih =>
    intro b hab hba
    cases b with
    | nil => simp [ltChars] at hba
    | cons y ys =>
      simp only [ltChars] at hab hba
      by_cases hxy : x.toNat < y.toNat
      · simp [hxy] at hab
      · by_cases hyx : y.toNat < x.toNat
        · simp [hyx] at hba
        · simp only [hxy, hyx, if_false] at hab hba
          have hn : x.toNat = y.toNat := by omega
          have hc : x = y :=
            (Char.ofNat_toNat x).symm.trans ((congrArg Char.ofNat hn).trans (Char.ofNat_toNat y))
          rw [hc, ih ys hab hba]

theorem keyLt_trans (a b c : String × GoValue) (hab : keyLt a b) (hbc : keyLt b c) :
    keyLt a c :=
  ltChars_trans _ _ _ hab hbc

theorem keyLt_asymm (a b : String × GoValue) (hab : keyLt a b) (hba : keyLt b a) : False := by
  have := ltChars_trans _ _ _ hab hba
  rw [ltChars_irrefl] at this
  cases this

theorem keyLt_of_not (a b : String × GoValue) (hne : a.1 ≠ b.1) (h : ¬ keyLt a b) :
    keyLt b a := by
  unfold keyLt at h ⊢
  by_contra hba
  have h1 : ltChars a.1.data b.1.data = false := by simpa using h
  have h2 : ltChars b.1.data a.1.data = false := by simpa using hba
  have := ltChars_total _ _ h1 h2
  exact hne (String.ext this)

theorem insertByKey_perm (e : String × GoValue) :
    ∀ l : List (String × GoValue), (insertByKey e l).Perm (e :: l) := by
  intro l
  induction l with
  | nil => exact List.Perm.refl _
  | cons x xs ih =>
    unfold insertByKey
    split
    · exact List.Perm.refl _
    · exact (List.Perm.cons x ih).trans (List.Perm.swap e x xs)

theorem sortByKey_perm : ∀ l : List (String × GoValue), (sortByKey l).Perm l := by
  intro l
  induction l with
  | nil => exact List.Perm.refl _
  | cons e es ih =>
    exact (insertByKey_perm e (sortByKey es)).trans (List.Perm.cons e ih)

theorem insertByKey_sorted (e : String × GoValue) :
    ∀ l : List (String × GoValue), l.Pairwise keyLt → (∀ x ∈ l, e.1 ≠ x.1) →
      (insertByKey e l).Pairwise keyLt := by
  intro l
  induction l with
  | nil => intro _ _; simp [insertByKey]
  | cons x xs ih =>
    intro hs hne
    have hx : ∀ y ∈ xs, keyLt x y := (List.pairwise_cons.1 hs).1
    have hxs : xs.Pairwise keyLt := (List.pairwise_cons.1 hs).2
    unfold insertByKey
    by_cases hlt : ltChars e.1.data x.1.data = true
    · simp only [hlt, if_true]
      refine List.pairwise_cons.2 ⟨?_, hs⟩
      intro y hy
      rcases List.mem_cons.1 hy with hy | hy
      · rw [hy]; exact hlt
      · exact keyLt_trans e x y hlt (hx y hy)
    · simp only [hlt, if_false]
      have hxe : keyLt x e :=
        keyLt_of_not e x (hne x (List.mem_cons_self _ _)) hlt
      refine List.pairwise_cons.2 ⟨?_, ih hxs (fun y hy => hne y (List.mem_cons_of_mem _ hy))⟩
      intro y hy
      rcases List.mem_cons.1 ((insertByKey_perm e xs).mem_iff.1 hy) with hy | hy
      · rw [hy]; exact hxe
      · exact hx y hy

theorem sortByKey_sorted : ∀ l : List (String × GoValue),
    l.Pairwise (fun a b => a.1 ≠ b.1) → (sortByKey l).Pairwise keyLt := by
  intro l
  induction l with
  | nil => intro _; simp [sortByKey]
  | cons e es ih =>
    intro h
    have he : ∀ x ∈ es, e.1 ≠ x.1 := (List.pairwise_cons.1 h).1
    exact insertByKey_sorted e _ (ih (List.pairwise_cons.1 h).2)
      (fun x hx => he x ((sortByKey_perm es).mem_iff.1 hx))

/-- Two enumerations of one map (distinct keys) sort to the same list of
entries: the order in which a map is enumerated has no effect on the encoder's
output. -/
theorem sortByKey_eq_of_perm (l1 l2 : List (String × GoValue))
    (hkeys : l1.Pairwise (fun a b => a.1 ≠ b.1)) (hperm : l2.Perm l1) :
    sortByKey l2 = sortByKey l1 := by
  have hkeys2 : l2.Pairwise (fun a b => a.1 ≠ b.1) :=
    hperm.symm.pairwise hkeys (fun h => fun e => h e.symm)
  haveI : IsAntisymm (String × GoValue) keyLt :=
    ⟨fun a b hab hba => (keyLt_asymm a b hab hba).elim⟩
  exact List.eq_of_perm_of_sorted
    ((sortByKey_perm l2).trans (hperm.trans (sortByKey_perm l1).symm))
    (sortByKey_sorted l2 hkeys2) (sortByKey_sorted l1 hkeys)

theorem simplified_keys_distinct (t : TickerData) :
    (simplified t).Pairwise (fun a b => a.1 ≠ b.1) := by
  simp [simplified]

/-- C15. The payload of a ticker record is a function of the five projected
values only: two records that agree on `Symbol`, `LastPrice`,
`PriceChangePercent`, `Volume` and `EventTime` have byte-identical payloads
whatever their other fields, and marshalling the map in any enumeration order
of its five entries gives the same bytes, since the encoder sorts the keys;
the payload has no other input (no clock, no state). -/
theorem projection_deterministic (t1 t2 : TickerData) :
    (t1.Symbol = t2.Symbol → t1.LastPrice = t2.LastPrice →
      t1.PriceChangePercent = t2.PriceChangePercent → t1.Volume = t2.Volume →
      t1.EventTime = t2.EventTime →
      marshalMap (simplified t1) = marshalMap (simplified t2)) ∧
    (∀ m : List (String × GoValue), m.Perm (simplified t1) →
      marshalMap m = marshalMap (simplified t1)) ∧
    (∀ frame1 frame2 : String, unmarshalTicker frame1 = .ok t1 →
      unmarshalTicker frame2 = .ok t1 → t1.EventType = "24hrTicker" →
      (streamPrices (streaming [.message frame1])).queue
        = (streamPrices (streaming [.message frame2])).queue) := by
  refine ⟨?_, ?_, ?_⟩
  · intro h1 h2 h3 h4 h5
    simp [simplified, h1, h2, h3, h4, h5]
  · intro m hm
    simp only [marshalMap, sortByKey_eq_of_perm _ _ (simplified_keys_distinct t1) hm]
  · intro frame1 frame2 hd1 hd2 ht
    rw [queue_single_message, queue_single_message, hd1, hd2]

theorem projection_deterministic_witness :
    marshalMap (simplified { tickerRecord with OpenPrice := "64000.00", TotalTrades := 7 })
      = marshalMap (simplified tickerRecord) ∧
    marshalMap [("timestamp", .int64 1700000000000), ("volume", .str "1000.5"),
        ("symbol", .str "BTCUSDT"), ("change", .str "1.23"), ("price", .str "65000.10")]
      = tickerPayloadSorted := by
  have h := projection_deterministic
    { tickerRecord with OpenPrice := "64000.00", TotalTrades := 7 } tickerRecord
  have h2 := projection_deterministic tickerRecord tickerRecord
  have hp : marshalMap (simplified tickerRecord) = tickerPayloadSorted := by decide
  refine ⟨h.1 rfl rfl rfl rfl rfl, ?_⟩
  rw [← hp]
  exact h2.2.1 _ (by decide)

/-! ## The loop of `BroadcastLoop` on the channel -/

theorem rangeBroadcast_fst (closed : Bool) : ∀ (msgs : List String) (cycles : List Cycle)
    (b : Broadcaster), (rangeBroadcast closed msgs cycles b).1 = BroadcastLoop msgs cycles b := by
  intro msgs
  induction msgs with
  | nil => intro cycles b; cases cycles <;> rfl
  | cons msg msgs ih =>
    intro cycles b
    cases cycles with
    | nil => rfl
    | cons cy cys => exact ih cys _

theorem rangeBroadcast_open : ∀ (msgs : List String) (cycles : List Cycle) (b : Broadcaster),
    (rangeBroadcast false msgs cycles b).2 ≠ .exited ∧
    (msgs.length ≤ cycles.length → (rangeBroadcast false msgs cycles b).2 = .waiting) := by
  intro msgs
  induction msgs with
  | nil => intro cycles b; simp [rangeBroadcast]
  | cons msg msgs ih =>
    intro cycles b
    cases cycles with
    | nil => simp [rangeBroadcast]
    | cons cy cys =>
      simp only [rangeBroadcast, List.length_cons, Nat.add_le_add_iff_right]
      exact ih cys _

/-- C16, as amended. When the upstream session has returned (on cancellation
or otherwise) the channel `broadcast` is not closed, since nothing in the
program closes it: `BroadcastLoop` broadcasts every payload that was sent, in
order, and then blocks waiting for the next one; it never leaves its loop. -/
theorem broadcast_loop_never_exits (up : Upstream) (cycles : List Cycle) (b : Broadcaster) :
    (broadcastChannel (streamPrices up)).closed = false ∧
    (broadcastChannel (streamPrices up)).sent = (streamPrices up).queue ∧
    (rangeBroadcast (broadcastChannel (streamPrices up)).closed
        (broadcastChannel (streamPrices up)).sent cycles b).1
      = BroadcastLoop (streamPrices up).queue cycles b ∧
    (rangeBroadcast (broadcastChannel (streamPrices up)).closed
        (broadcastChannel (streamPrices up)).sent cycles b).2 ≠ .exited ∧
    ((streamPrices up).queue.length ≤ cycles.length →
      (rangeBroadcast (broadcastChannel (streamPrices up)).closed
        (broadcastChannel (streamPrices up)).sent cycles b).2 = .waiting) := by
  refine ⟨rfl, rfl, ?_, ?_, ?_⟩
  · exact rangeBroadcast_fst _ _ _ _
  · exact (rangeBroadcast_open _ cycles b).1
  · exact (rangeBroadcast_open _ cycles b).2

theorem broadcast_loop_never_exits_witness :
    (streamPrices cancelledUpstream).outcome = .returned none ∧
    (rangeBroadcast (broadcastChannel (streamPrices cancelledUpstream)).closed
        (broadcastChannel (streamPrices cancelledUpstream)).sent
        [{ order := [1], fails := fun _ => false }] { clients := [1] }).2 = .waiting :=
  ⟨by decide,
   (broadcast_loop_never_exits cancelledUpstream [{ order := [1], fails := fun _ => false }]
      { clients := [1] }).2.2.2.2 (by decide)⟩

/-- C16, as stated, fails: after a session ended by cancellation the channel
is not closed, and the loop of `BroadcastLoop`, having delivered the payload
that was sent, has not exited. -/
theorem broadcast_loop_not_exited :
    (streamPrices cancelledUpstream).outcome = .returned none ∧
    (broadcastChannel (streamPrices cancelledUpstream)).closed = false ∧
    received 1 (rangeBroadcast (broadcastChannel (streamPrices cancelledUpstream)).closed
        (broadcastChannel (streamPrices cancelledUpstream)).sent
        [{ order := [1], fails := fun _ => false }] { clients := [1] }).1
      = [tickerPayloadSorted] ∧
    ¬ ((rangeBroadcast (broadcastChannel (streamPrices cancelledUpstream)).closed
        (broadcastChannel (streamPrices cancelledUpstream)).sent
        [{ order := [1], fails := fun _ => false }] { clients := [1] }).2 = .exited) := by
  decide

/-! ## The mutex regions -/

theorem exec_append (b : Broadcaster) (xs ys : List Action) :
    b.exec (xs ++ ys) = (b.exec xs).exec ys := by
  induction xs generalizing b with
  | nil => rfl
  | cons x xs ih => exact ih _

theorem exec_cycleBody (fails : Conn → Bool) (msg : String) :
    ∀ (order : List Conn) (b : Broadcaster),
      b.exec (cycleBody fails msg order b.clients) = broadcastCycle fails msg order b := by
  intro order
  induction order with
  | nil => intro b; rfl
  | cons x rest ih =>
    intro b
    unfold cycleBody broadcastCycle
    by_cases hmem : x ∈ b.clients
    · by_cases hf : fails x = true
      · simp only [hmem, hf, if_true, Broadcaster.exec, Broadcaster.perform]
        exact ih _
      · have hf2 : fails x = false := by simpa using hf
        simp only [hmem, hf2, if_true, Bool.false_eq_true, if_false, Broadcaster.exec,
          Broadcaster.perform]
        exact ih _
    · simp only [hmem, if_false]
      exact ih b

theorem exec_cycleActions (fails : Conn → Bool) (msg : String) (order : List Conn)
    (b : Broadcaster) :
    b.exec (cycleActions fails msg order b.clients) = broadcastCycle fails msg order b := by
  unfold cycleActions
  simp only [Broadcaster.exec, Broadcaster.perform]
  rw [exec_append, exec_cycleBody]
  rfl

theorem ioOutsideLock_cycleBody (fails : Conn → Bool) (msg : String) :
    ∀ (order clients : List Conn) (tail : List Action),
      ioOutsideLock true (cycleBody fails msg order clients ++ tail)
        = ioOutsideLock true tail := by
  intro order
  induction order with
  | nil => intro clients tail; rfl
  | cons x rest ih =>
    intro clients tail
    unfold cycleBody
    split_ifs <;> simp [ioOutsideLock, Action.isSinkIO, ih]

theorem ioUnderLock_cycleBody (fails : Conn → Bool) (msg : String) :
    ∀ (order clients : List Conn) (tail : List Action),
      ioUnderLock true (cycleBody fails msg order clients ++ tail)
        = (cycleBody fails msg order clients).filter Action.isSinkIO
            ++ ioUnderLock true tail := by
  intro order
  induction order with
  | nil => intro clients tail; rfl
  | cons x rest ih =>
    intro clients tail
    unfold cycleBody
    split_ifs <;> simp [ioUnderLock, Action.isSinkIO, ih]

theorem ioUnderLock_reads (c : Conn) :
    ∀ (inbound : List String) (tail : List Action),
      ioUnderLock false (inbound.map (fun m => Action.read c (some m)) ++ tail)
        = ioUnderLock false tail := by
  intro inbound
  induction inbound with
  | nil => intro tail; rfl
  | cons m ms ih => intro tail; simp [ioUnderLock, ih]

theorem write_mem_cycleBody (fails : Conn → Bool) (msg : String) (c : Conn) :
    ∀ (order clients : List Conn), c ∈ clients → c ∈ order →
      ∃ ok, Action.write c msg ok ∈ cycleBody fails msg order clients := by
  intro order
  induction order with
  | nil => intro clients _ hco; cases hco
  | cons x rest ih =>
    intro clients hc hco
    unfold cycleBody
    by_cases hxc : x = c
    · subst hxc
      by_cases hf : fails x = true
      · exact ⟨false, by simp [hc, hf]⟩
      · exact ⟨true, by simp [hc, hf]⟩
    · have hrest : c ∈ rest := by
        rcases List.mem_cons.1 hco with h | h
        · exact absurd h.symm hxc
        · exact h
      have hcx : c ≠ x := fun h => hxc h.symm
      by_cases hmem : x ∈ clients
      · by_cases hf : fails x = true
        · obtain ⟨ok, hok⟩ := ih (mapDelete x clients) ((mem_mapDelete c x clients).2 ⟨hc, hcx⟩)
            hrest
          exact ⟨ok, by simp [hmem, hf, hok]⟩
        · obtain ⟨ok, hok⟩ := ih clients hc hrest
          exact ⟨ok, by simp [hmem, hf, hok]⟩
      · obtain ⟨ok, hok⟩ := ih clients hc hrest
        exact ⟨ok, by simp [hmem, hok]⟩

/-- C17, as amended. `HandleWebSocket` makes every call on its connection
(each read of the disconnect-detection loop and the deferred close) while the
mutex is not held.  `BroadcastLoop` holds the mutex for the whole iteration
over the map itself, not over a copy: every `WriteMessage` and every `Close`
of a cycle is made between `mu.Lock` and `mu.Unlock`, none outside. -/
theorem sink_io_and_mutex (fails : Conn → Bool) (msg : String) (order : List Conn)
    (b : Broadcaster) (call : WebSocketCall) :
    ioUnderLock false (HandleWebSocket call) = [] ∧
    ioOutsideLock false (cycleActions fails msg order b.clients) = [] ∧
    ioUnderLock false (cycleActions fails msg order b.clients)
      = (cycleActions fails msg order b.clients).filter Action.isSinkIO ∧
    b.exec (cycleActions fails msg order b.clients) = broadcastCycle fails msg order b ∧
    (∀ c ∈ b.clients, c ∈ order →
      ∃ ok, Action.write c msg ok
        ∈ ioUnderLock false (cycleActions fails msg order b.clients)) := by
  have hunder : ioUnderLock false (cycleActions fails msg order b.clients)
      = (cycleActions fails msg order b.clients).filter Action.isSinkIO := by
    simp [cycleActions, ioUnderLock, ioUnderLock_cycleBody, Action.isSinkIO,
      List.filter_append]
  refine ⟨?_, ?_, hunder, exec_cycleActions fails msg order b, ?_⟩
  · unfold HandleWebSocket
    cases call.upgrade with
    | none => rfl
    | some conn =>
      simp [registration, readLoop, removal, ioUnderLock, ioUnderLock_reads,
        Action.isSinkIO]
  · simp [cycleActions, ioOutsideLock, ioOutsideLock_cycleBody]
  · intro c hc hco
    obtain ⟨ok, hok⟩ := write_mem_cycleBody fails msg c order b.clients hc hco
    refine ⟨ok, ?_⟩
    rw [hunder]
    simp [cycleActions, Action.isSinkIO, hok]

theorem sink_io_and_mutex_witness :
    ∃ ok, Action.write 1 "p" ok
      ∈ ioUnderLock false (cycleActions (fun _ => false) "p" [1] [1]) :=
  (sink_io_and_mutex (fun _ => false) "p" [1] { clients := [1] }
    { upgrade := none, inbound := [] }).2.2.2.2 1 (by decide) (by decide)

/-- C17, as stated, fails: in a cycle of `BroadcastLoop` over one registered
sink the write to the sink is made while the mutex is held. -/
theorem write_under_mutex :
    cycleActions (fun _ => false) "p" [1] [1] = [.lock, .write 1 "p" true, .unlock] ∧
    ioUnderLock false (cycleActions (fun _ => false) "p" [1] [1]) = [.write 1 "p" true] ∧
    ¬ (ioUnderLock false (cycleActions (fun _ => false) "p" [1] [1]) = []) := by
  decide

/-! ## The subscriber endpoint -/

theorem run_keeps_mem (c : Conn) : ∀ (evs : List HubEvent) (b : Broadcaster), c ∈ b.clients →
    (∀ ev ∈ evs, ev.keeps c = true) → c ∈ (b.run evs).clients := by
  intro evs
  induction evs with
  | nil => intro b hc _; exact hc
  | cons ev evs ih =>
    intro b hc hkeep
    have hk : ev.keeps c = true := hkeep ev (List.mem_cons_self _ _)
    refine ih _ ?_ (fun e he => hkeep e (List.mem_cons_of_mem _ he))
    cases ev with
    | broadcast msg cy =>
      have hf : cy.fails c = false := by simpa [HubEvent.keeps] using hk
      simp only [Broadcaster.step, clients_broadcastCycle]
      exact List.mem_filter.2 ⟨hc, by simp [hf]⟩
    | register d =>
      simp only [Broadcaster.step, mem_mapInsert]
      exact Or.inl hc
    | unregister d =>
      have hne : d ≠ c := by simpa [HubEvent.keeps] using hk
      simp only [Broadcaster.step, mem_mapDelete]
      exact ⟨hc, fun h => hne h.symm⟩

theorem exec_reads (c : Conn) : ∀ (inbound : List String) (b : Broadcaster),
    b.exec (inbound.map (fun m => Action.read c (some m))) = b := by
  intro inbound
  induction inbound with
  | nil => intro b; rfl
  | cons m ms ih => intro b; exact ih b

/-- C19, as amended. A call of `HandleWebSocket` whose upgrade succeeds with
connection `c` registers `c`, reads until the first read error, then removes
`c` and closes it.  After the registration `c` is in the client set; reading
and dropping the inbound messages changes nothing; while the read loop runs,
`c` stays in the client set under the steps of the other goroutines as long
as none of them is a cycle of `BroadcastLoop` that meets a failing write to
`c` (such a cycle removes `c` before the read loop has ended); when the call
returns `c` is not in the client set and has been closed.  A call whose
upgrade fails makes no step and leaves the client set unchanged. -/
theorem handleWebSocket_membership (b : Broadcaster) (c : Conn) (inbound : List String) :
    HandleWebSocket { upgrade := some c, inbound := inbound }
      = registration c ++ readLoop c inbound ++ removal c ∧
    b.exec (registration c) = b.step (.register c) ∧
    c ∈ (b.exec (registration c)).clients ∧
    (∀ b1 : Broadcaster, b1.exec (readLoop c inbound) = b1) ∧
    (∀ evs : List HubEvent, (∀ ev ∈ evs, ev.keeps c = true) →
      c ∈ ((b.exec (registration c)).run evs).clients) ∧
    (∀ b1 : Broadcaster, c ∉ (b1.exec (removal c)).clients ∧
      (b1.exec (removal c)).closed = b1.closed ++ [c] ∧
      (b1.exec (removal c)).clients = (b1.step (.unregister c)).clients) ∧
    c ∉ (b.exec (HandleWebSocket { upgrade := some c, inbound := inbound })).clients ∧
    (HandleWebSocket { upgrade := none, inbound := inbound } = [] ∧
      b.exec (HandleWebSocket { upgrade := none, inbound := inbound }) = b) := by
  have hreg : b.exec (registration c) = b.step (.register c) := rfl
  have hmem : c ∈ (b.exec (registration c)).clients := by
    rw [hreg]
    simp [Broadcaster.step, mem_mapInsert]
  have hread : ∀ b1 : Broadcaster, b1.exec (readLoop c inbound) = b1 := by
    intro b1
    unfold readLoop
    rw [exec_append, exec_reads]
    rfl
  have hrem : ∀ b1 : Broadcaster, c ∉ (b1.exec (removal c)).clients ∧
      (b1.exec (removal c)).closed = b1.closed ++ [c] ∧
      (b1.exec (removal c)).clients = (b1.step (.unregister c)).clients := by
    intro b1
    refine ⟨?_, rfl, rfl⟩
    simp [removal, Broadcaster.exec, Broadcaster.perform, mem_mapDelete]
  refine ⟨rfl, hreg, hmem, hread, ?_, hrem, ?_, rfl, rfl⟩
  · intro evs hkeep
    exact run_keeps_mem c evs _ hmem hkeep
  · simp only [HandleWebSocket, exec_append]
    exact (hrem _).1

theorem handleWebSocket_membership_witness :
    3 ∈ ((Broadcaster.exec { clients := [1] } (registration 3)).run
      [.broadcast "p" { order := [3, 1], fails := fun c => c == 1 }, .register 4]).clients :=
  (handleWebSocket_membership { clients := [1] } 3 ["hello"]).2.2.2.2.1
    [.broadcast "p" { order := [3, 1], fails := fun c => c == 1 }, .register 4]
    (by
      intro ev hev
      simp only [List.mem_cons, List.mem_singleton, List.not_mem_nil, or_false] at hev
      rcases hev with h | h <;> subst h <;> decide)

/-- C19, as stated, fails: while the read loop of the call for connection 1
has not ended (its removal has not been made), a cycle of `BroadcastLoop`
whose write to 1 fails takes 1 out of the client set. -/
theorem member_removed_during_read_loop :
    1 ∈ (NewBroadcaster.exec (registration 1)).clients ∧
    ¬ (1 ∈ ((NewBroadcaster.exec (registration 1)).run
        [.broadcast "p" { order := [1], fails := fun _ => true }]).clients) := by
  decide

/-! ## Cancellation and the read in flight -/

theorem schedule_beforeIteration (k : Nat) : ∀ (rs : List ReadResult) (i : Nat),
    i ≤ k → k - i ≤ rs.length →
      schedule (.beforeIteration k) i rs
        = (rs.take (k - i)).map ReadResult.event ++ [.done] := by
  intro rs
  induction rs with
  | nil =>
    intro i hik hlen
    have : k = i := by simp at hlen; omega
    subst this
    simp [schedule, CancelAt.observed]
  | cons r rs ih =>
    intro i hik hlen
    by_cases hki : k ≤ i
    · have : k = i := by omega
      subst this
      simp [schedule, CancelAt.observed]
    · have hstep : k - i = (k - (i + 1)) + 1 := by omega
      have hobs : CancelAt.observed (.beforeIteration k) i = false := by
        simp [CancelAt.observed, hki]
      simp only [schedule, hobs, Bool.false_eq_true, if_false]
      rw [ih (i + 1) (by omega) (by simp at hlen; omega), hstep]
      simp

theorem schedule_duringRead (k : Nat) : ∀ (rs : List ReadResult) (i : Nat),
    schedule (.duringRead k) i rs = schedule (.beforeIteration (k + 1)) i rs := by
  intro rs
  induction rs with
  | nil =>
    intro i
    simp [schedule, CancelAt.observed, Nat.lt_iff_add_one_le]
  | cons r rs ih =>
    intro i
    simp [schedule, CancelAt.observed, Nat.lt_iff_add_one_le, ih]

theorem callsLoop_append_done : ∀ evs : List LoopEvent,
    (callsLoop (evs ++ [.done])).count .readMessage ≤ evs.length := by
  intro evs
  induction evs with
  | nil => simp [callsLoop]
  | cons ev evs ih =>
    cases ev with
    | done => simp [callsLoop]
    | readError err => simp [callsLoop]
    | message f =>
      have hstep : callsLoop ((LoopEvent.message f :: evs) ++ [.done])
          = .readMessage :: callsLoop (evs ++ [.done]) := rfl
      rw [hstep, List.count_cons_self, List.length_cons]
      omega

theorem streamLoop_append_done_queue : ∀ (evs : List LoopEvent) (s : Session),
    (streamLoop (evs ++ [.done]) s).queue = (streamLoop evs s).queue := by
  intro evs
  induction evs with
  | nil => intro s; simp [streamLoop]
  | cons ev evs ih =>
    intro s
    cases ev with
    | done => simp [streamLoop]
    | readError err =>
      by_cases h : IsCloseError err [CloseNormalClosure] = true <;> simp [streamLoop, h]
    | message f =>
      have hcons : (LoopEvent.message f :: evs) ++ [.done]
          = .message f :: (evs ++ [.done]) := rfl
      rw [hcons, streamLoop, streamLoop]
      cases unmarshalTicker f with
      | error e => exact ih _
      | ok t =>
        simp only []
        split <;> exact ih _

theorem streaming_append_done (evs : List LoopEvent) :
    (streamPrices (streaming (evs ++ [.done]))).queue = (streamPrices (streaming evs)).queue ∧
    (streamPrices (streaming (evs ++ [.done]))).reads ≤ evs.length := by
  constructor
  · simp only [streamPrices, streaming]
    exact streamLoop_append_done_queue evs _
  · rw [← (upstreamCalls_agree _).2.1]
    simp only [upstreamCalls, streaming]
    simpa [List.count_cons] using callsLoop_append_done evs

/-- C20, as amended. The cancellation signal is looked at only when an
iteration begins.  Set before the iteration that would make read `k`, it ends
the session after the first `k` reads: no further frame is read or forwarded.
Set while read `k` is in flight, it is not seen until that read has returned:
the frame of read `k` is handled like any other (and forwarded if it is a
ticker frame), and the session ends at the next iteration. -/
theorem cancellation_checked_between_reads (rs : List ReadResult) (k : Nat) :
    (k ≤ rs.length →
      schedule (.beforeIteration k) 0 rs = (rs.take k).map ReadResult.event ++ [.done] ∧
      (streamPrices (streaming (schedule (.beforeIteration k) 0 rs))).reads ≤ k ∧
      (streamPrices (streaming (schedule (.beforeIteration k) 0 rs))).queue
        = (streamPrices (streaming ((rs.take k).map ReadResult.event))).queue) ∧
    (k < rs.length →
      schedule (.duringRead k) 0 rs = (rs.take (k + 1)).map ReadResult.event ++ [.done] ∧
      (streamPrices (streaming (schedule (.duringRead k) 0 rs))).reads ≤ k + 1 ∧
      (streamPrices (streaming (schedule (.duringRead k) 0 rs))).queue
        = (streamPrices (streaming ((rs.take (k + 1)).map ReadResult.event))).queue) := by
  constructor
  · intro hk
    have hs : schedule (.beforeIteration k) 0 rs
        = (rs.take k).map ReadResult.event ++ [.done] := by
      simpa using schedule_beforeIteration k rs 0 (Nat.zero_le _) (by simpa using hk)
    have h := streaming_append_done ((rs.take k).map ReadResult.event)
    rw [hs]
    refine ⟨rfl, ?_, h.1⟩
    have hlen : ((rs.take k).map ReadResult.event).length ≤ k := by simp
    exact le_trans h.2 hlen
  · intro hk
    have hs : schedule (.duringRead k) 0 rs
        = (rs.take (k + 1)).map ReadResult.event ++ [.done] := by
      rw [schedule_duringRead]
      simpa using schedule_beforeIteration (k + 1) rs 0 (Nat.zero_le _) (by simpa using hk)
    have h := streaming_append_done ((rs.take (k + 1)).map ReadResult.event)
    rw [hs]
    refine ⟨rfl, ?_, h.1⟩
    have hlen : ((rs.take (k + 1)).map ReadResult.event).length ≤ k + 1 := by simp
    exact le_trans h.2 hlen

theorem cancellation_checked_between_reads_witness :
    (streamPrices (streaming (schedule (.beforeIteration 1) 0
        [.frame tickerFrame, .frame tickerFrame]))).reads ≤ 1 ∧
    (streamPrices (streaming (schedule (.duringRead 1) 0
        [.frame tickerFrame, .frame tickerFrame]))).queue
      = (streamPrices (streaming [.message tickerFrame, .message tickerFrame])).queue :=
  ⟨((cancellation_checked_between_reads [.frame tickerFrame, .frame tickerFrame] 1).1
      (by decide)).2.1,
   ((cancellation_checked_between_reads [.frame tickerFrame, .frame tickerFrame] 1).2
      (by decide)).2.2⟩

/-- C20, as stated, fails: when the signal arrives while the first read is in
flight, that read still completes and its ticker frame is forwarded. -/
theorem frame_forwarded_after_cancellation :
    (streamPrices (streaming (schedule (.duringRead 0) 0 [.frame tickerFrame]))).reads = 1 ∧
    (streamPrices (streaming (schedule (.duringRead 0) 0 [.frame tickerFrame]))).queue
      = [tickerPayloadSorted] ∧
    (streamPrices (streaming (schedule (.duringRead 0) 0 [.frame tickerFrame]))).outcome
      = .returned none := by
  decide

/-! ## The helper and the key order of the payload -/

theorem processMessageForBroadcast_eq (m : String) :
    processMessageForBroadcast m =
      match unmarshalTicker m with
      | .error _ => (none, false)
      | .ok t =>
        if t.EventType == "24hrTicker" then (some (marshalMap (simplified t)), true)
        else (none, false) := rfl

/-- C27. The helper `processMessageForBroadcast` and the inline path of
`streamPrices` agree on every frame `m`: the helper returns a payload `p` with
`true` exactly when the session, reading `m`, sends `p` on the queue (the same
bytes), and returns nil with `false` exactly when the session sends nothing,
which is exactly when `m` fails to decode or its event type is not
"24hrTicker"; the helper returns nothing else. -/
theorem helper_agrees_with_session (m : String) :
    (∀ p, processMessageForBroadcast m = (some p, true)
        ↔ (streamPrices (streaming [.message m])).queue = [p]) ∧
    (processMessageForBroadcast m = (none, false)
        ↔ (streamPrices (streaming [.message m])).queue = []) ∧
    (processMessageForBroadcast m = (none, false)
        ↔ ∀ t, unmarshalTicker m = .ok t → t.EventType ≠ "24hrTicker") ∧
    (processMessageForBroadcast m = (none, false)
        ∨ ∃ p, processMessageForBroadcast m = (some p, true)) ∧
    (∀ (rest : List LoopEvent) (s : Session),
        streamLoop (.message m :: rest) s
          = streamLoop rest { s with reads := s.reads + 1,
                                     queue := s.queue
                                       ++ (processMessageForBroadcast m).1.toList }) := by
  rw [processMessageForBroadcast_eq, queue_single_message]
  cases hdec : unmarshalTicker m with
  | error e =>
    refine ⟨by simp, by simp, by simp, Or.inl rfl, ?_⟩
    intro rest s
    simp [streamLoop, hdec]
  | ok t =>
    by_cases ht : t.EventType = "24hrTicker"
    · refine ⟨?_, by simp [ht], by simp [ht], Or.inr ⟨marshalMap (simplified t), by simp [ht]⟩, ?_⟩
      · intro p
        simp [ht, eq_comm]
      · intro rest s
        simp [streamLoop, hdec, ht]
    · refine ⟨by simp [ht], by simp [ht], by simp [ht], Or.inl (by simp [ht]), ?_⟩
      intro rest s
      simp [streamLoop, hdec, ht]

theorem helper_agrees_with_session_witness :
    processMessageForBroadcast tickerFrame = (some tickerPayloadSorted, true) ∧
    processMessageForBroadcast "not json" = (none, false) :=
  ⟨((helper_agrees_with_session tickerFrame).1 tickerPayloadSorted).2 (by decide),
   (helper_agrees_with_session "not json").2.1.2 (by decide)⟩

theorem marshalMap_simplified_data (t : TickerData) :
    (marshalMap (simplified t)).data =
      "\x7b\"change\":".data ++ encodeString t.PriceChangePercent
        ++ ",\"price\":".data ++ encodeString t.LastPrice
        ++ ",\"symbol\":".data ++ encodeString t.Symbol
        ++ ",\"timestamp\":".data ++ formatInt t.EventTime
        ++ ",\"volume\":".data ++ encodeString t.Volume ++ "\x7d".data := by
  have h1 : encodeString "change" = "\"change\"".data := by decide
  have h2 : encodeString "price" = "\"price\"".data := by decide
  have h3 : encodeString "symbol" = "\"symbol\"".data := by decide
  have h4 : encodeString "timestamp" = "\"timestamp\"".data := by decide
  have h5 : encodeString "volume" = "\"volume\"".data := by decide
  simp only [marshalMap, sortByKey_simplified, encodeMembers, encodeValue, h1, h2, h3, h4, h5]
  simp

/-- C29. For every ticker record the payload lists its keys in ascending
order, change, price, symbol, timestamp, volume, as the encoder writes a
string-keyed map: its text is the opening brace, the five members `"key":value`
in that order separated by single commas, and the closing brace, with no white
space; the strings are quoted and the timestamp is a bare integer.  The helper
`processMessageForBroadcast` writes the same text. -/
theorem payload_keys_sorted (t : TickerData) :
    (marshalMap (simplified t)).data =
      "\x7b\"change\":".data ++ encodeString t.PriceChangePercent
        ++ ",\"price\":".data ++ encodeString t.LastPrice
        ++ ",\"symbol\":".data ++ encodeString t.Symbol
        ++ ",\"timestamp\":".data ++ formatInt t.EventTime
        ++ ",\"volume\":".data ++ encodeString t.Volume ++ "\x7d".data ∧
    (parseJSON (marshalMap (simplified t))).map JSON.keys
      = some ["change", "price", "symbol", "timestamp", "volume"] ∧
    ((sortByKey (simplified t)).map Prod.fst).Pairwise
      (fun a b => ltChars a.data b.data = true) ∧
    (sortByKey (simplified t)).Perm (simplified t) ∧
    (∀ m p, unmarshalTicker m = .ok t → processMessageForBroadcast m = (some p, true) →
      p = marshalMap (simplified t)) := by
  refine ⟨marshalMap_simplified_data t, ?_, ?_, sortByKey_perm _, ?_⟩
  · rw [parseJSON_marshalMap, sortByKey_simplified]
    rfl
  · rw [sortByKey_simplified]
    simp only [List.map_cons, List.map_nil]
    decide
  · intro m p hdec hp
    rw [processMessageForBroadcast_eq, hdec] at hp
    by_cases ht : t.EventType = "24hrTicker"
    · simp only [ht, beq_self_eq_true, if_true, Prod.mk.injEq, Option.some.injEq,
        and_true] at hp
      exact hp.symm
    · simp [ht] at hp

theorem payload_keys_sorted_witness :
    processMessageForBroadcast tickerFrame = (some tickerPayloadSorted, true) ∧
    tickerPayloadSorted = marshalMap (simplified tickerRecord) :=
  ⟨by decide, (payload_keys_sorted tickerRecord).2.2.2.2 tickerFrame tickerPayloadSorted rfl
      (by decide)⟩

/-! ## The effect of a cycle on the client set -/

theorem closed_broadcastCycle (fails : Conn → Bool) (msg : String) :
    ∀ (order : List Conn) (b : Broadcaster), order.Nodup →
      (broadcastCycle fails msg order b).closed
        = b.closed ++ order.filter (fun c => decide (c ∈ b.clients) && fails c) := by
  intro order
  induction order with
  | nil => intro b _; simp [broadcastCycle]
  | cons x rest ih =>
    intro b hnd
    have hx : x ∉ rest := (List.nodup_cons.1 hnd).1
    have hrest : rest.Nodup := (List.nodup_cons.1 hnd).2
    unfold broadcastCycle
    by_cases hmem : x ∈ b.clients
    · by_cases hf : fails x = true
      · simp only [hmem, hf, if_true]
        rw [ih _ hrest]
        have hfilt : rest.filter (fun c => decide (c ∈ mapDelete x b.clients) && fails c)
            = rest.filter (fun c => decide (c ∈ b.clients) && fails c) := by
          apply List.filter_congr
          intro c hc
          have hne : c ≠ x := fun h => hx (h ▸ hc)
          simp [mem_mapDelete, hne]
        simp [hfilt, hmem, hf]
      · have hf2 : fails x = false := by simpa using hf
        simp only [hmem, hf2, if_true, Bool.false_eq_true, if_false]
        rw [ih _ hrest]
        simp [hmem, hf2]
    · simp only [hmem, if_false]
      rw [ih _ hrest]
      simp [hmem]

/-- C30. One cycle of `BroadcastLoop`, with no other step in between, changes
the client set only by removing the sinks whose write failed: the set after
the cycle is the set before without exactly those sinks; a sink whose write
succeeded stays registered and is not closed; the sinks closed by the cycle
are exactly the failed ones; nothing is added. -/
theorem cycle_removes_failed_only (b : Broadcaster) (msg : String) (cy : Cycle)
    (hnd : b.clients.Nodup) (hperm : cy.order.Perm b.clients) :
    (broadcastCycle cy.fails msg cy.order b).clients
      = b.clients.filter (fun c => !cy.fails c) ∧
    (∀ c, c ∈ (broadcastCycle cy.fails msg cy.order b).clients
        ↔ c ∈ b.clients ∧ cy.fails c = false) ∧
    (broadcastCycle cy.fails msg cy.order b).closed
      = b.closed ++ cy.order.filter cy.fails ∧
    (∀ c, c ∈ b.clients → cy.fails c = false →
        c ∈ (broadcastCycle cy.fails msg cy.order b).clients ∧
        (broadcastCycle cy.fails msg cy.order b).closed.count c = b.closed.count c) ∧
    (∀ c, c ∉ b.clients → c ∉ (broadcastCycle cy.fails msg cy.order b).clients) := by
  have hond : cy.order.Nodup := hperm.nodup_iff.2 hnd
  have hclients : (broadcastCycle cy.fails msg cy.order b).clients
      = b.clients.filter (fun c => !cy.fails c) := by
    rw [clients_broadcastCycle]
    apply List.filter_congr
    intro c hc
    simp [hperm.mem_iff.2 hc]
  have hclosed : (broadcastCycle cy.fails msg cy.order b).closed
      = b.closed ++ cy.order.filter cy.fails := by
    rw [closed_broadcastCycle _ _ _ _ hond]
    congr 1
    apply List.filter_congr
    intro c hc
    simp [hperm.mem_iff.1 hc]
  refine ⟨hclients, ?_, hclosed, ?_, ?_⟩
  · intro c
    rw [hclients]
    simp [List.mem_filter]
  · intro c hc hf
    refine ⟨?_, ?_⟩
    · rw [hclients]
      exact List.mem_filter.2 ⟨hc, by simp [hf]⟩
    · rw [hclosed, List.count_append]
      have : (cy.order.filter cy.fails).count c = 0 := by
        apply List.count_eq_zero.2
        intro hmem
        have := (List.mem_filter.1 hmem).2
        rw [hf] at this
        cases this
      omega
  · intro c hc hmem
    rw [hclients] at hmem
    exact hc (List.mem_filter.1 hmem).1

theorem cycle_removes_failed_only_witness :
    (broadcastCycle (fun c => c == 2) "p" [3, 2, 1] { clients := [1, 2, 3] }).clients
      = [1, 3] ∧
    (broadcastCycle (fun c => c == 2) "p" [3, 2, 1] { clients := [1, 2, 3] }).closed = [2] := by
  have h := cycle_removes_failed_only { clients := [1, 2, 3] } "p"
    { order := [3, 2, 1], fails := fun c => c == 2 } (by decide) (by decide)
  exact ⟨by simpa using h.1, by simpa using h.2.2.1⟩

/-! ## A write that never returns -/

theorem blockingCycle_returning (outcome : Conn → WriteOutcome) (msg : String) :
    ∀ (order : List Conn) (b : Broadcaster), (∀ c ∈ order, outcome c ≠ .never) →
      blockingCycle outcome msg order b
        = (broadcastCycle (failedWrites outcome) msg order b, false) := by
  intro order
  induction order with
  | nil => intro b _; rfl
  | cons x rest ih =>
    intro b hall
    have hx : outcome x ≠ .never := hall x (List.mem_cons_self _ _)
    have hrest : ∀ c ∈ rest, outcome c ≠ .never :=
      fun c hc => hall c (List.mem_cons_of_mem _ hc)
    unfold blockingCycle broadcastCycle
    by_cases hmem : x ∈ b.clients
    · cases ho : outcome x with
      | never => exact absurd ho hx
      | failed => simp [hmem, ho, failedWrites, ih _ hrest]
      | ok => simp [hmem, ho, failedWrites, ih _ hrest]
    · simp [hmem, ih _ hrest]

theorem blockingCycle_append (outcome : Conn → WriteOutcome) (msg : String) :
    ∀ (pre rest : List Conn) (b : Broadcaster), (∀ c ∈ pre, outcome c ≠ .never) →
      blockingCycle outcome msg (pre ++ rest) b
        = blockingCycle outcome msg rest (broadcastCycle (failedWrites outcome) msg pre b) := by
  intro pre
  induction pre with
  | nil => intro rest b _; rfl
  | cons x pre ih =>
    intro rest b hall
    have hx : outcome x ≠ .never := hall x (List.mem_cons_self _ _)
    have hpre : ∀ c ∈ pre, outcome c ≠ .never :=
      fun c hc => hall c (List.mem_cons_of_mem _ hc)
    have hcons : (x :: pre) ++ rest = x :: (pre ++ rest) := rfl
    rw [hcons]
    simp only [blockingCycle, broadcastCycle]
    by_cases hmem : x ∈ b.clients
    · cases ho : outcome x with
      | never => exact absurd ho hx
      | failed => simp [hmem, ho, failedWrites, ih _ _ hpre]
      | ok => simp [hmem, ho, failedWrites, ih _ _ hpre]
    · simp [hmem, ih _ _ hpre]

/-- C21, as amended. `BroadcastLoop` sets no write deadline and does not
isolate a write: it calls `WriteMessage` on the sinks one after the other, in
the one goroutine and under the mutex.  As long as every write returns, the
cycle is the one described by `broadcastCycle`.  When the write to a
registered sink `k` never returns, the cycle stays inside that call: the sinks
enumerated after `k` are not written, and no later payload is taken from the
queue. -/
theorem stalled_write_stalls_broadcast (b : Broadcaster) (msg : String)
    (outcome : Conn → WriteOutcome) (pre post : List Conn) (k : Conn)
    (hnd : (pre ++ k :: post).Nodup) (hk : k ∈ b.clients) (hnever : outcome k = .never)
    (hpre : ∀ c ∈ pre, outcome c ≠ .never) :
    blockingCycle outcome msg (pre ++ k :: post) b
      = (broadcastCycle (failedWrites outcome) msg pre b, true) ∧
    (∀ c ∈ post, attempts c (blockingCycle outcome msg (pre ++ k :: post) b).1
      = attempts c b) ∧
    (∀ (msgs : List String) (cycles : List BlockingCycle),
      blockingLoop (msg :: msgs) ({ order := pre ++ k :: post, outcome := outcome } :: cycles) b
        = (broadcastCycle (failedWrites outcome) msg pre b, true)) ∧
    (∀ order : List Conn, (∀ c ∈ order, outcome c ≠ .never) →
      blockingCycle outcome msg order b
        = (broadcastCycle (failedWrites outcome) msg order b, false)) := by
  have hkpre : k ∉ pre := by
    intro h
    have := List.nodup_append.1 hnd
    exact this.2.2 h (List.mem_cons_self _ _)
  have hprend : pre.Nodup := (List.nodup_append.1 hnd).1
  have hkmem : k ∈ (broadcastCycle (failedWrites outcome) msg pre b).clients := by
    rw [clients_broadcastCycle]
    exact List.mem_filter.2 ⟨hk, by simp [hkpre]⟩
  have hcycle : blockingCycle outcome msg (pre ++ k :: post) b
      = (broadcastCycle (failedWrites outcome) msg pre b, true) := by
    rw [blockingCycle_append outcome msg pre (k :: post) b hpre]
    unfold blockingCycle
    simp [hkmem, hnever]
  refine ⟨hcycle, ?_, ?_, fun order h => blockingCycle_returning outcome msg order b h⟩
  · intro c hc
    have hcpre : c ∉ pre := by
      intro h
      exact (List.nodup_append.1 hnd).2.2 h (List.mem_cons_of_mem _ hc)
    rw [hcycle, attempts_broadcastCycle _ _ _ _ _ hprend]
    simp [hcpre]
  · intro msgs cycles
    unfold blockingLoop
    simp [hcycle]

theorem stalled_write_stalls_broadcast_witness :
    attempts 2 (blockingCycle (fun c => if c = 1 then .never else .ok) "p" [3, 1, 2]
      { clients := [1, 2, 3] }).1 = [] ∧
    attempts 3 (blockingCycle (fun c => if c = 1 then .never else .ok) "p" [3, 1, 2]
      { clients := [1, 2, 3] }).1 = ["p"] := by
  have h := stalled_write_stalls_broadcast { clients := [1, 2, 3] } "p"
    (fun c => if c = 1 then .never else .ok) [3] [2] 1 (by decide) (by decide) (by decide)
    (by decide)
  exact ⟨by simpa [attempts] using h.2.1 2 (by decide), by decide⟩

/-- C21, as stated, fails: with two registered sinks, when the write to the
first one enumerated never returns, the second is not written the payload and
the next payload is not served either. -/
theorem hanging_sink_starves_others :
    (blockingLoop ["p", "q"]
        [{ order := [1, 2], outcome := fun c => if c = 1 then .never else .ok },
         { order := [1, 2], outcome := fun _ => .ok }]
        { clients := [1, 2] }).2 = true ∧
    attempts 2 (blockingLoop ["p", "q"]
        [{ order := [1, 2], outcome := fun c => if c = 1 then .never else .ok },
         { order := [1, 2], outcome := fun _ => .ok }]
        { clients := [1, 2] }).1 = [] ∧
    cycleActions (fun _ => false) "p" [1, 2] [1, 2]
      = [.lock, .write 1 "p" true, .write 2 "p" true, .unlock] := by
  decide

/-! ## Every access to the map is under the mutex -/

theorem mapAccessOutsideLock_cycleBody (fails : Conn → Bool) (msg : String) :
    ∀ (order clients : List Conn) (tail : List Action),
      mapAccessOutsideLock true (cycleBody fails msg order clients ++ tail)
        = mapAccessOutsideLock true tail := by
  intro order
  induction order with
  | nil => intro clients tail; rfl
  | cons x rest ih =>
    intro clients tail
    unfold cycleBody
    split_ifs <;> simp [mapAccessOutsideLock, Action.isMapAccess, ih]

theorem lockDiscipline_cycleBody (fails : Conn → Bool) (msg : String) :
    ∀ (order clients : List Conn) (tail : List Action),
      lockDiscipline true (cycleBody fails msg order clients ++ tail)
        = lockDiscipline true tail := by
  intro order
  induction order with
  | nil => intro clients tail; rfl
  | cons x rest ih =>
    intro clients tail
    unfold cycleBody
    split_ifs <;> simp [lockDiscipline, ih]

theorem cycleBody_no_lock (fails : Conn → Bool) (msg : String) :
    ∀ (order clients : List Conn), ∀ a ∈ cycleBody fails msg order clients,
      a ≠ .lock ∧ a ≠ .unlock := by
  intro order
  induction order with
  | nil => intro clients a ha; cases ha
  | cons x rest ih =>
    intro clients a ha
    unfold cycleBody at ha
    split_ifs at ha
    · simp only [List.mem_cons] at ha
      rcases ha with h | h | h | h
      · subst h; exact ⟨by simp, by simp⟩
      · subst h; exact ⟨by simp, by simp⟩
      · subst h; exact ⟨by simp, by simp⟩
      · exact ih _ a h
    · simp only [List.mem_cons] at ha
      rcases ha with h | h
      · subst h; exact ⟨by simp, by simp⟩
      · exact ih _ a h
    · exact ih _ a ha

theorem lock_reads (c : Conn) :
    ∀ (inbound : List String) (tail : List Action),
      mapAccessOutsideLock false (inbound.map (fun m => Action.read c (some m)) ++ tail)
        = mapAccessOutsideLock false tail ∧
      lockDiscipline false (inbound.map (fun m => Action.read c (some m)) ++ tail)
        = lockDiscipline false tail := by
  intro inbound
  induction inbound with
  | nil => intro tail; exact ⟨rfl, rfl⟩
  | cons m ms ih =>
    intro tail
    simp [mapAccessOutsideLock, lockDiscipline, Action.isMapAccess, ih]

/-- When every write returns, every access to the client set is made with the
mutex held and every `Lock` is followed by its `Unlock`.  In
`HandleWebSocket` the insertion and the deletion each lie between a `Lock` and
its `Unlock`; in a cycle of `BroadcastLoop` the whole enumeration, with its
deletions, lies between one `Lock` and one `Unlock`.  Each function takes the
mutex only when it does not hold it, releases it only when it holds it, and
does not hold it at the end, on every path (failed or successful upgrade, any
number of inbound messages, any outcome of the writes). -/
theorem map_access_under_mutex (fails : Conn → Bool) (msg : String) (order clients : List Conn)
    (call : WebSocketCall) :
    mapAccessOutsideLock false (HandleWebSocket call) = [] ∧
    lockDiscipline false (HandleWebSocket call) = some false ∧
    mapAccessOutsideLock false (cycleActions fails msg order clients) = [] ∧
    lockDiscipline false (cycleActions fails msg order clients) = some false ∧
    cycleActions fails msg order clients
      = .lock :: (cycleBody fails msg order clients ++ [.unlock]) ∧
    (∀ a ∈ cycleBody fails msg order clients, a ≠ .lock ∧ a ≠ .unlock) ∧
    (∀ conn, call.upgrade = some conn →
      HandleWebSocket call
        = [.lock, .insert conn, .unlock] ++ readLoop conn call.inbound
            ++ [.lock, .delete conn, .unlock, .close conn]) := by
  refine ⟨?_, ?_, ?_, ?_, rfl, cycleBody_no_lock fails msg order clients, ?_⟩
  · unfold HandleWebSocket
    cases call.upgrade with
    | none => rfl
    | some conn =>
      simp [registration, readLoop, removal, mapAccessOutsideLock, Action.isMapAccess,
        (lock_reads conn _ _).1]
  · unfold HandleWebSocket
    cases call.upgrade with
    | none => rfl
    | some conn =>
      simp [registration, readLoop, removal, lockDiscipline, (lock_reads conn _ _).2]
  · simp [cycleActions, mapAccessOutsideLock, mapAccessOutsideLock_cycleBody]
  · simp [cycleActions, lockDiscipline, lockDiscipline_cycleBody]
  · intro conn hconn
    simp [HandleWebSocket, hconn, registration, removal]

/-! ## Fields that a frame does not set -/

theorem setString_get (t : TickerData) (f g : TickerField) (s : String) (h : f ≠ g) :
    (t.setString g s).get f = t.get f := by
  cases g <;> cases f <;> first | rfl | exact absurd rfl h

theorem setInt_get (t : TickerData) (f g : TickerField) (n : Int) (h : f ≠ g) :
    (t.setInt g n).get f = t.get f := by
  cases g <;> cases f <;> first | rfl | exact absurd rfl h

theorem decodeField_get (t t1 : TickerData) (f g : TickerField) (v : JSON) (h : f ≠ g)
    (hd : decodeField t g v = .ok t1) : t1.get f = t.get f := by
  cases v with
  | null => simp [decodeField] at hd; subst hd; rfl
  | bool b => simp [decodeField] at hd
  | array xs => simp [decodeField] at hd
  | object ms => simp [decodeField] at hd
  | string s =>
    unfold decodeField at hd
    split_ifs at hd
    cases hd
    exact setString_get t f g s h
  | number lit =>
    unfold decodeField at hd
    split_ifs at hd
    cases hp : parseInt64 lit with
    | none => simp [hp] at hd
    | some n =>
      simp only [hp] at hd
      cases hd
      exact setInt_get t f g n h

theorem decodeMembers_get (f : TickerField) :
    ∀ (members : List (String × JSON)) (t t1 : TickerData), omits members f = true →
      decodeMembers members t = .ok t1 → t1.get f = t.get f := by
  intro members
  induction members with
  | nil =>
    intro t t1 _ h
    simp [decodeMembers] at h
    subst h
    rfl
  | cons m rest ih =>
    intro t t1 hom h
    obtain ⟨key, v⟩ := m
    have hkey : findField key ≠ some f := by
      have := (List.all_eq_true.1 hom) (key, v) (List.mem_cons_self _ _)
      simpa using this
    have hrest : omits rest f = true :=
      List.all_eq_true.2 (fun x hx => (List.all_eq_true.1 hom) x (List.mem_cons_of_mem _ hx))
    cases hf : findField key with
    | none =>
      simp only [decodeMembers, hf] at h
      exact ih t t1 hrest h
    | some g =>
      have hne : f ≠ g := by
        intro hfg
        rw [hf, hfg] at hkey
        exact hkey rfl
      cases hd : decodeField t g v with
      | error e => simp [decodeMembers, hf, hd] at h
      | ok t2 =>
        simp only [decodeMembers, hf, hd] at h
        rw [ih t2 t1 hrest h]
        exact decodeField_get t t2 f g v hne hd

theorem decodeMembers_unnamed_ignored :
    ∀ (members : List (String × JSON)) (t : TickerData),
      decodeMembers (members.filter (fun m => (findField m.1).isSome)) t
        = decodeMembers members t := by
  intro members
  induction members with
  | nil => intro t; rfl
  | cons m rest ih =>
    intro t
    obtain ⟨key, v⟩ := m
    cases hf : findField key with
    | none => simp [List.filter, hf, decodeMembers, ih]
    | some g => simp only [List.filter, hf, Option.isSome_some, decodeMembers, ih]

/-- C28, as amended. A JSON object frame that decodes without error into a
record whose event type is "24hrTicker" is forwarded whatever else it holds:
`streamPrices` sends one payload.  Every field that the frame does not set (no
key of the object matches its tag, exactly or under case folding) has its zero
value in the record, so an omitted symbol, price, change or volume is the
empty string in the payload and an omitted timestamp is 0.  Members whose key
matches no tag are skipped: the record is the one decoded from the other
members. -/
theorem ticker_frame_zero_values (frame : String) (members : List (String × JSON))
    (t : TickerData) (hobj : parseJSON frame = some (.object members))
    (hdec : unmarshalTicker frame = .ok t) (htype : t.EventType = "24hrTicker") :
    (streamPrices (streaming [.message frame])).queue = [marshalMap (simplified t)] ∧
    (∀ f, omits members f = true → t.get f = zeroValue f) ∧
    (omits members .Symbol = true → t.Symbol = "") ∧
    (omits members .LastPrice = true → t.LastPrice = "") ∧
    (omits members .PriceChangePercent = true → t.PriceChangePercent = "") ∧
    (omits members .Volume = true → t.Volume = "") ∧
    (omits members .EventTime = true → t.EventTime = 0) ∧
    unmarshalTicker frame
      = decodeMembers (members.filter (fun m => (findField m.1).isSome)) {} := by
  have hmem : decodeMembers members {} = .ok t := by
    simpa [unmarshalTicker, hobj] using hdec
  have hget : ∀ f, omits members f = true → t.get f = zeroValue f :=
    fun f hf => decodeMembers_get f members {} t hf hmem
  refine ⟨?_, hget, ?_, ?_, ?_, ?_, ?_, ?_⟩
  · rw [queue_single_message, hdec]
    simp [htype]
  · intro h
    simpa [TickerData.get, zeroValue] using hget .Symbol h
  · intro h
    simpa [TickerData.get, zeroValue] using hget .LastPrice h
  · intro h
    simpa [TickerData.get, zeroValue] using hget .PriceChangePercent h
  · intro h
    simpa [TickerData.get, zeroValue] using hget .Volume h
  · intro h
    simpa [TickerData.get, zeroValue] using hget .EventTime h
  · rw [decodeMembers_unnamed_ignored]
    simp [unmarshalTicker, hobj]

theorem ticker_frame_zero_values_witness :
    (streamPrices (streaming [.message bareTickerFrame])).queue
      = ["\x7b\"change\":\"\",\"price\":\"\",\"symbol\":\"\",\"timestamp\":0,\"volume\":\"\"\x7d"] := by
  have h := (ticker_frame_zero_values bareTickerFrame
    [("e", .string "24hrTicker"), ("x", .array [.number ['1'], .number ['2']])]
    { EventType := "24hrTicker" } rfl rfl rfl).1
  rw [h]
  decide

/-- C28, as stated, fails: a JSON object frame whose "e" is "24hrTicker" and
which omits "s", "c", "P", "v" and "E" is dropped when another member has the
wrong type for its field, and a frame that omits "s" but has the key "S" gets
that member as its symbol. -/
theorem ticker_frame_dropped_or_folded :
    (parseJSON mistypedTickerFrame).map JSON.keys = some ["e", "p"] ∧
    unmarshalTicker mistypedTickerFrame = .error (.typeMismatch "p") ∧
    (streamPrices (streaming [.message mistypedTickerFrame])).queue = [] ∧
    (streamPrices (streaming [.message "\x7b\"e\":\"24hrTicker\",\"S\":\"X\"\x7d"])).queue
      = ["\x7b\"change\":\"\",\"price\":\"\",\"symbol\":\"X\",\"timestamp\":0,\"volume\":\"\"\x7d"] :=
  ⟨by decide, rfl, by decide, by decide⟩

/-! ## Package `auth`: tokens -/

theorem NewNumericDate_le (t : Nanos) : NewNumericDate t ≤ t :=
  have h : ∀ x : Int, x - x % 1000000000 ≤ x := fun x => by omega
  h t

theorem lt_NewNumericDate (t : Nanos) : t - Second < NewNumericDate t :=
  have h : ∀ x : Int, x - 1000000000 < x - x % 1000000000 := fun x => by omega
  h t

theorem lt_NewNumericDate_of_add_le (a b : Nanos) (hle : a + Second ≤ b) :
    a < NewNumericDate b :=
  have h : ∀ x y : Int, x + 1000000000 ≤ y → x < y - y % 1000000000 :=
    fun x y hxy => by omega
  h a b hle

theorem NewNumericDate_lt_of_neg (t d : Nanos) (hneg : d < 0) :
    NewNumericDate (t + d) < t :=
  have h : ∀ x y : Int, y < 0 → (x + y) - (x + y) % 1000000000 < x :=
    fun x y hy => by omega
  h t d hneg

theorem NewNumericDate_mono (a b : Nanos) (hle : a ≤ b) :
    NewNumericDate a ≤ NewNumericDate b :=
  have h : ∀ x y : Int, x ≤ y → x - x % 1000000000 ≤ y - y % 1000000000 :=
    fun x y hxy => by omega
  h a b hle

/-- Validation of a token that was signed with the same key, when the decoder
inverts the serialization on it: only the expiry decides. -/
theorem validateToken_signed (env : AuthEnv) (key : String) (claims : Claims) (now : Nanos)
    (hrt : env.parse (SignedString env key claims) = some (signedToken env key claims)) :
    validateToken env now (SignedString env key claims) key =
      match claims.ExpiresAt with
      | none => .ok claims
      | some exp =>
        if now < exp then .ok claims
        else .error (.other "token has invalid claims: token is expired") := by
  unfold validateToken
  rw [hrt]
  have h1 : registeredMethods.contains (signedToken env key claims).alg = true := by
    simp only [signedToken]; decide
  have h2 : hmacMethods.contains (signedToken env key claims).alg = true := by
    simp only [signedToken]; decide
  simp [h1, h2, signedToken, registeredMethods, hmacMethods]

/-- Validation of the token generated for `userID` with duration `d` at
instant `t1`. -/
theorem validateToken_newClaims (env : AuthEnv) (key : String) (userID : UUID)
    (d t1 t2 now : Nanos)
    (hrt : env.parse (SignedString env key (newClaims userID d t1 t2)) =
      some (signedToken env key (newClaims userID d t1 t2))) :
    validateToken env now (SignedString env key (newClaims userID d t1 t2)) key =
      if now < NewNumericDate (t1 + d) then .ok (newClaims userID d t1 t2)
      else .error (.other "token has invalid claims: token is expired") := by
  rw [validateToken_signed env key _ now hrt]
  rfl

/-- C23, as amended. With a duration configured for each kind of token, and
a decoder that inverts the serialization on the generated token, generation
for `userID` at instant `t1` succeeds; the expiry of the token is `t1 + d`
truncated to the whole second, less than a second below `t1 + d`; validation
at an instant `tv` before that expiry (so at every instant at least a second
before `t1 + d`) succeeds and returns claims whose `UserID` is `userID` and
whose expiry is that truncated instant, and validation from that expiry on
fails. The same for refresh tokens with their secret and duration. -/
theorem token_round_trip (env : AuthEnv) (userID : UUID) (d r t1 t2 tv : Nanos)
    (hd : env.accessDuration = .ok d) (hr : env.refreshDuration = .ok r)
    (hrtA : env.parse (SignedString env env.accessSecret (newClaims userID d t1 t2)) =
      some (signedToken env env.accessSecret (newClaims userID d t1 t2)))
    (hrtR : env.parse (SignedString env env.refreshSecret (newClaims userID r t1 t2)) =
      some (signedToken env env.refreshSecret (newClaims userID r t1 t2))) :
    (∃ token, GenerateAccessToken env t1 t2 userID = .ok token ∧
      (tv < NewNumericDate (t1 + d) →
        ∃ claims, ValidateAccessToken env tv token = .ok claims ∧
          claims.UserID = userID ∧ claims.ExpiresAt = some (NewNumericDate (t1 + d))) ∧
      (tv + Second ≤ t1 + d →
        ∃ claims, ValidateAccessToken env tv token = .ok claims ∧
          claims.UserID = userID ∧ claims.ExpiresAt = some (NewNumericDate (t1 + d))) ∧
      (NewNumericDate (t1 + d) ≤ tv →
        ValidateAccessToken env tv token =
          .error (.other "token has invalid claims: token is expired"))) ∧
    (∃ token, GenerateRefreshToken env t1 t2 userID = .ok token ∧
      (tv < NewNumericDate (t1 + r) →
        ∃ claims, ValidateRefreshToken env tv token = .ok claims ∧
          claims.UserID = userID ∧ claims.ExpiresAt = some (NewNumericDate (t1 + r))) ∧
      (tv + Second ≤ t1 + r →
        ∃ claims, ValidateRefreshToken env tv token = .ok claims ∧
          claims.UserID = userID ∧ claims.ExpiresAt = some (NewNumericDate (t1 + r))) ∧
      (NewNumericDate (t1 + r) ≤ tv →
        ValidateRefreshToken env tv token =
          .error (.other "token has invalid claims: token is expired"))) ∧
    t1 + d - Second < NewNumericDate (t1 + d) ∧ NewNumericDate (t1 + d) ≤ t1 + d ∧
    t1 + r - Second < NewNumericDate (t1 + r) ∧ NewNumericDate (t1 + r) ≤ t1 + r := by
  have key : ∀ (secret : String) (x : Nanos),
      env.parse (SignedString env secret (newClaims userID x t1 t2)) =
        some (signedToken env secret (newClaims userID x t1 t2)) →
      (tv < NewNumericDate (t1 + x) →
        ∃ claims, validateToken env tv (SignedString env secret (newClaims userID x t1 t2))
            secret = .ok claims ∧
          claims.UserID = userID ∧ claims.ExpiresAt = some (NewNumericDate (t1 + x))) ∧
      (tv + Second ≤ t1 + x →
        ∃ claims, validateToken env tv (SignedString env secret (newClaims userID x t1 t2))
            secret = .ok claims ∧
          claims.UserID = userID ∧ claims.ExpiresAt = some (NewNumericDate (t1 + x))) ∧
      (NewNumericDate (t1 + x) ≤ tv →
        validateToken env tv (SignedString env secret (newClaims userID x t1 t2)) secret =
          .error (.other "token has invalid claims: token is expired")) := by
    intro secret x hrt
    have hv := validateToken_newClaims env secret userID x t1 t2 tv hrt
    have hok : tv < NewNumericDate (t1 + x) →
        ∃ claims, validateToken env tv (SignedString env secret (newClaims userID x t1 t2))
            secret = .ok claims ∧
          claims.UserID = userID ∧ claims.ExpiresAt = some (NewNumericDate (t1 + x)) := by
      intro hlt
      refine ⟨newClaims userID x t1 t2, ?_, rfl, rfl⟩
      rw [hv, if_pos hlt]
    refine ⟨hok, ?_, ?_⟩
    · intro hle
      exact hok (lt_NewNumericDate_of_add_le _ _ hle)
    · intro hle
      rw [hv, if_neg (not_lt.mpr hle)]
  refine ⟨⟨SignedString env env.accessSecret (newClaims userID d t1 t2), ?_,
      key env.accessSecret d hrtA⟩,
    ⟨SignedString env env.refreshSecret (newClaims userID r t1 t2), ?_,
      key env.refreshSecret r hrtR⟩,
    lt_NewNumericDate _, NewNumericDate_le _, lt_NewNumericDate _, NewNumericDate_le _⟩
  · simp only [GenerateAccessToken, hd]
  · simp only [GenerateRefreshToken, hr]

/-- Witness of `token_round_trip`: the durations of the tests, five minutes
and seventy-two hours, a token generated half a second past a whole second and
validated at once. -/
theorem token_round_trip_witness :
    ∃ token, GenerateAccessToken
        (exampleEnvAt (300 * Second) 1700000000500000000)
        1700000000500000000 1700000000500000000 "u1" = .ok token ∧
      ∃ claims, ValidateAccessToken
          (exampleEnvAt (300 * Second) 1700000000500000000)
          1700000000500000000 token = .ok claims ∧
        claims.UserID = "u1" ∧ claims.ExpiresAt = some 1700000300000000000 :=
  have h := (token_round_trip
    (exampleEnvAt (300 * Second) 1700000000500000000)
    "u1" (300 * Second) (72 * 3600 * Second) 1700000000500000000 1700000000500000000
    1700000000500000000 rfl rfl rfl rfl).1
  h.imp fun _ ht => ⟨ht.1, ht.2.1 (by decide)⟩

/-- C23, as stated, fails. With the secret set and the positive duration of
one nanosecond, the token generated half a second past a whole second expires
at that whole second, and validating it at the instant of its generation is an
error; with the duration of five minutes validation succeeds, and the expiry
returned is not the generation time plus five minutes but half a second
less. -/
theorem token_expiry_truncated :
    (0 : Nanos) < 1 ∧
    GenerateAccessToken (exampleEnvAt 1 1700000000500000000)
      1700000000500000000 1700000000500000000 "u1" = .ok "access.token" ∧
    ValidateAccessToken (exampleEnvAt 1 1700000000500000000)
      1700000000500000000 "access.token" =
        .error (.other "token has invalid claims: token is expired") ∧
    GenerateAccessToken
      (exampleEnvAt (300 * Second) 1700000000500000000)
      1700000000500000000 1700000000500000000 "u1" = .ok "access.token" ∧
    (∃ claims, ValidateAccessToken
        (exampleEnvAt (300 * Second) 1700000000500000000)
        1700000000500000000 "access.token" = .ok claims ∧
      claims.UserID = "u1" ∧
      claims.ExpiresAt = some (1700000000500000000 + 300 * Second - 500000000) ∧
      claims.ExpiresAt ≠ some (1700000000500000000 + 300 * Second)) :=
  ⟨by decide, rfl, rfl, rfl,
    ⟨newClaims "u1" (300 * Second) 1700000000500000000 1700000000500000000, rfl,
      rfl, by decide, by decide⟩⟩

/-- C24. When the configured access-token duration `d` is negative,
`GenerateAccessToken` still succeeds, the expiry of its token precedes the
instant of generation (and is not after the issue time), and
`ValidateAccessToken` applied to the token at any instant from its generation
on returns an error and no claims. -/
theorem expired_token_rejected (env : AuthEnv) (userID : UUID) (d t1 t2 tv : Nanos)
    (hd : env.accessDuration = .ok d) (hneg : d < 0)
    (hrt : env.parse (SignedString env env.accessSecret (newClaims userID d t1 t2)) =
      some (signedToken env env.accessSecret (newClaims userID d t1 t2)))
    (hclock : t1 ≤ t2) (hlater : t1 ≤ tv) :
    ∃ token, GenerateAccessToken env t1 t2 userID = .ok token ∧
      ValidateAccessToken env tv token =
        .error (.other "token has invalid claims: token is expired") ∧
      (∀ claims, ValidateAccessToken env tv token ≠ .ok claims) ∧
      NewNumericDate (t1 + d) < t1 ∧ NewNumericDate (t1 + d) ≤ NewNumericDate t2 := by
  have hexp : NewNumericDate (t1 + d) < t1 := NewNumericDate_lt_of_neg t1 d hneg
  have hv : ValidateAccessToken env tv
      (SignedString env env.accessSecret (newClaims userID d t1 t2)) =
        .error (.other "token has invalid claims: token is expired") := by
    unfold ValidateAccessToken
    rw [validateToken_newClaims env env.accessSecret userID d t1 t2 tv hrt,
      if_neg (not_lt.mpr (le_trans (le_of_lt hexp) hlater))]
  refine ⟨SignedString env env.accessSecret (newClaims userID d t1 t2), ?_, hv, ?_, hexp, ?_⟩
  · simp only [GenerateAccessToken, hd]
  · intro claims hok
    rw [hv] at hok
    cases hok
  · have h : ∀ x y z : Int, y < 0 → x ≤ z → x + y ≤ z := fun x y z hy hxz => by omega
    exact NewNumericDate_mono _ _ (h t1 d t2 hneg hclock)

/-- Witness of `expired_token_rejected`: the duration of the test, minus one
minute. -/
theorem expired_token_rejected_witness :
    ∃ token, GenerateAccessToken
        (exampleEnvAt (-60 * Second) 1700000000500000000)
        1700000000500000000 1700000000500000000 "u1" = .ok token ∧
      ValidateAccessToken
        (exampleEnvAt (-60 * Second) 1700000000500000000)
        1700000000500000000 token =
          .error (.other "token has invalid claims: token is expired") :=
  (expired_token_rejected
    (exampleEnvAt (-60 * Second) 1700000000500000000)
    "u1" (-60 * Second) 1700000000500000000 1700000000500000000 1700000000500000000
    rfl (by decide) rfl (by decide) (by decide)).imp fun _ ht => ⟨ht.1, ht.2.1⟩

/-! ## Package `auth`: the middleware -/

theorem stripWord_append (w rest : List Char) : stripWord w (w ++ rest) = some rest := by
  induction w with
  | nil => cases rest <;> rfl
  | cons c w ih => simp [stripWord, ih]

theorem stripWord_some (w s rest : List Char) (h : stripWord w s = some rest) :
    s = w ++ rest := by
  induction w generalizing s with
  | nil =>
    cases s <;> simp [stripWord] at h <;> simp [h]
  | cons c w ih =>
    cases s with
    | nil => simp [stripWord] at h
    | cons x s =>
      simp only [stripWord] at h
      by_cases hcx : (c == x) = true
      · rw [if_pos hcx] at h
        have hx : c = x := by simpa using hcx
        rw [ih s h, hx]
        rfl
      · rw [if_neg hcx] at h
        cases h

/-- The context that `AuthMiddleware` leaves when the token validates. -/
theorem AuthMiddleware_ok (env : AuthEnv) (now : Nanos) (req : AuthRequest) (claims : Claims)
    (hne : tokenString req ≠ "")
    (hok : ValidateAccessToken env now (tokenString req) = .ok claims) :
    AuthMiddleware env now req =
      { aborted := false, status := none, body := none, userID := some claims.UserID,
        nextCalled := true } := by
  simp [AuthMiddleware, hne, hok]

/-- The context that `AuthMiddleware` leaves when there is no token or the
token does not validate. -/
theorem AuthMiddleware_abort (env : AuthEnv) (now : Nanos) (req : AuthRequest)
    (hbad : tokenString req = "" ∨ ∃ err, ValidateAccessToken env now (tokenString req) =
      .error err) :
    (AuthMiddleware env now req).aborted = true ∧
      (AuthMiddleware env now req).status = some 401 ∧
      (AuthMiddleware env now req).userID = none ∧
      (AuthMiddleware env now req).nextCalled = false := by
  by_cases hempty : tokenString req = ""
  · simp [AuthMiddleware, hempty, AbortWithStatusJSON, StatusUnauthorized]
  · rcases hbad with h | ⟨err, herr⟩
    · exact absurd h hempty
    · simp [AuthMiddleware, hempty, herr, AbortWithStatusJSON, StatusUnauthorized]

/-- C25. For every request: the token is the cookie `access_token` when the
request has one, else what follows `Bearer ` in the header `Authorization`,
else empty; when the token is not empty and `ValidateAccessToken` accepts it,
the request is not aborted, the rest of the chain runs and `user_id` is the
`UserID` of the token; otherwise (no token, an empty token, or a validation
error) the request is aborted with status 401, `user_id` is not set and the
rest of the chain does not run. So the request goes through exactly when it
carries a token that `ValidateAccessToken` accepts. -/
theorem middleware_admits_valid_tokens (env : AuthEnv) (now : Nanos) (req : AuthRequest) :
    (∀ claims, tokenString req ≠ "" →
      ValidateAccessToken env now (tokenString req) = .ok claims →
      (AuthMiddleware env now req).aborted = false ∧
        (AuthMiddleware env now req).userID = some claims.UserID ∧
        (AuthMiddleware env now req).nextCalled = true ∧
        (AuthMiddleware env now req).status = none) ∧
    ((tokenString req = "" ∨
        ∃ err, ValidateAccessToken env now (tokenString req) = .error err) →
      (AuthMiddleware env now req).aborted = true ∧
        (AuthMiddleware env now req).status = some 401 ∧
        (AuthMiddleware env now req).userID = none ∧
        (AuthMiddleware env now req).nextCalled = false) ∧
    ((AuthMiddleware env now req).aborted = false ↔
      tokenString req ≠ "" ∧
        ∃ claims, ValidateAccessToken env now (tokenString req) = .ok claims) ∧
    (∀ cookie, req.accessCookie = some cookie → tokenString req = cookie) ∧
    (∀ rest : String, req.accessCookie = none →
      req.authorization = "Bearer " ++ rest → tokenString req = rest) ∧
    (req.accessCookie = none →
      (∀ rest : String, req.authorization ≠ "Bearer " ++ rest) → tokenString req = "") := by
  refine ⟨?_, AuthMiddleware_abort env now req, ?_, ?_, ?_, ?_⟩
  · intro claims hne hok
    rw [AuthMiddleware_ok env now req claims hne hok]
    exact ⟨rfl, rfl, rfl, rfl⟩
  · constructor
    · intro hpass
      by_cases hempty : tokenString req = ""
      · have h := (AuthMiddleware_abort env now req (Or.inl hempty)).1
        rw [hpass] at h
        cases h
      · refine ⟨hempty, ?_⟩
        cases hv : ValidateAccessToken env now (tokenString req) with
        | ok claims => exact ⟨claims, rfl⟩
        | error err =>
          have h := (AuthMiddleware_abort env now req (Or.inr ⟨err, hv⟩)).1
          rw [hpass] at h
          cases h
    · rintro ⟨hne, claims, hok⟩
      rw [AuthMiddleware_ok env now req claims hne hok]
  · intro cookie hc
    simp [tokenString, hc]
  · intro rest hc hauth
    have hs : stripWord "Bearer ".data req.authorization.data = some rest.data := by
      rw [hauth]
      exact stripWord_append _ _
    simp [tokenString, hc, hs]
  · intro hc hno
    cases hs : stripWord "Bearer ".data req.authorization.data with
    | none => simp [tokenString, hc, hs]
    | some rest =>
      exfalso
      apply hno (String.mk rest)
      have h := stripWord_some _ _ _ hs
      apply String.ext
      rw [h]
      rfl

/-- Witness of `middleware_admits_valid_tokens`: a request with the token in
the cookie goes through with `user_id` set, and a request with no token is
aborted with status 401. -/
theorem middleware_admits_valid_tokens_witness :
    ((AuthMiddleware (exampleEnvAt (300 * Second) 1700000000500000000) 1700000000500000000
        { accessCookie := some "access.token", authorization := "" }).aborted = false ∧
      (AuthMiddleware (exampleEnvAt (300 * Second) 1700000000500000000) 1700000000500000000
        { accessCookie := some "access.token", authorization := "" }).userID = some "u1") ∧
    ((AuthMiddleware (exampleEnvAt (300 * Second) 1700000000500000000) 1700000000500000000
        { accessCookie := none, authorization := "" }).aborted = true ∧
      (AuthMiddleware (exampleEnvAt (300 * Second) 1700000000500000000) 1700000000500000000
        { accessCookie := none, authorization := "" }).status = some 401) := by
  constructor
  · have h := (middleware_admits_valid_tokens
      (exampleEnvAt (300 * Second) 1700000000500000000) 1700000000500000000
      { accessCookie := some "access.token", authorization := "" }).1
      (newClaims "u1" (300 * Second) 1700000000500000000 1700000000500000000)
      (by decide) rfl
    exact ⟨h.1, h.2.1⟩
  · have h := (middleware_admits_valid_tokens
      (exampleEnvAt (300 * Second) 1700000000500000000) 1700000000500000000
      { accessCookie := none, authorization := "" }).2.1 (Or.inl (by decide))
    exact ⟨h.1, h.2.1⟩

/-! ## Package `handler`: registration -/

/-- C26. For every well-formed register request: when `GetUserByEmail`
resolves its email to an existing user, `Register` responds with status 409,
its only repository call is that lookup (so neither `CreateUser` nor
`StoreRefreshToken` is called) and it sets no cookie; when there is no
existing user and creation, the generation of both tokens and the storage of
the refresh token succeed, it responds 201 with the message
`Registration successful`, its last repository call stores the refresh token
for the id of the created user, and it sets the two cookies. -/
theorem register_conflict_or_created (env : AuthEnv) (repos : Repositories)
    (clock : RegisterClock) (req : registerRequest) :
    (∀ existing, (repos.GetUserByEmail req.Email).1 = some existing →
      (Register env repos clock (.ok req)).status = 409 ∧
        (Register env repos clock (.ok req)).body = errorBody "User already exists" ∧
        (Register env repos clock (.ok req)).calls = [.GetUserByEmail req.Email] ∧
        (∀ email password,
          RepoCall.CreateUser email password ∉ (Register env repos clock (.ok req)).calls) ∧
        (∀ userID token expiresAt, RepoCall.StoreRefreshToken userID token expiresAt ∉
          (Register env repos clock (.ok req)).calls) ∧
        (Register env repos clock (.ok req)).cookies = []) ∧
    (∀ user accessToken refreshToken,
      (repos.GetUserByEmail req.Email).1 = none →
      repos.CreateUser req.Email req.Password = .ok user →
      GenerateAccessToken env clock.access1 clock.access2 user.ID = .ok accessToken →
      GenerateRefreshToken env clock.refresh1 clock.refresh2 user.ID = .ok refreshToken →
      repos.StoreRefreshToken user.ID refreshToken (clock.store + 7 * 24 * 3600 * Second) =
        none →
      (Register env repos clock (.ok req)).status = 201 ∧
        (Register env repos clock (.ok req)).body =
          "\x7b\"message\":\"Registration successful\"\x7d" ∧
        (Register env repos clock (.ok req)).calls =
          [.GetUserByEmail req.Email, .CreateUser req.Email req.Password,
           .StoreRefreshToken user.ID refreshToken (clock.store + 7 * 24 * 3600 * Second)] ∧
        (Register env repos clock (.ok req)).cookies =
          [SetCookie "access_token" accessToken 900 "/" "" true true,
           SetCookie "refresh_token" refreshToken 604800 "/" "" true true]) := by
  constructor
  · intro existing hex
    have hr : Register env repos clock (.ok req) =
        { calls := [.GetUserByEmail req.Email], cookies := [], status := StatusConflict,
          body := errorBody "User already exists" } := by
      simp only [Register, hex]
    rw [hr]
    refine ⟨rfl, rfl, rfl, ?_, ?_, rfl⟩
    · intro email password hmem
      simp at hmem
    · intro userID token expiresAt hmem
      simp at hmem
  · intro user accessToken refreshToken hnone hcreate hacc href hstore
    have hr : Register env repos clock (.ok req) =
        { calls := [.GetUserByEmail req.Email, .CreateUser req.Email req.Password,
            .StoreRefreshToken user.ID refreshToken (clock.store + 7 * 24 * 3600 * Second)],
          cookies := [SetCookie "access_token" accessToken (15 * 60) "/" "" true true,
            SetCookie "refresh_token" refreshToken (7 * 24 * 3600) "/" "" true true],
          status := StatusCreated,
          body := messageBody "Registration successful" } := by
      simp only [Register, hnone, hcreate, hacc, href, hstore]
      rfl
    rw [hr]
    exact ⟨rfl, rfl, rfl, rfl⟩

/-- Witness of `register_conflict_or_created`: the request of the tests, once
with its user already stored and once with no user stored. -/
theorem register_conflict_or_created_witness :
    ((Register (exampleEnvAt (300 * Second) 5) (exampleRepos [exampleUser]) (exampleClock 5)
        (.ok { Email := "a@b.c", Password := "pw" })).status = 409 ∧
      (Register (exampleEnvAt (300 * Second) 5) (exampleRepos [exampleUser]) (exampleClock 5)
        (.ok { Email := "a@b.c", Password := "pw" })).calls = [.GetUserByEmail "a@b.c"]) ∧
    ((Register (exampleEnvAt (300 * Second) 5) (exampleRepos []) (exampleClock 5)
        (.ok { Email := "a@b.c", Password := "pw" })).status = 201 ∧
      (Register (exampleEnvAt (300 * Second) 5) (exampleRepos []) (exampleClock 5)
        (.ok { Email := "a@b.c", Password := "pw" })).calls =
          [.GetUserByEmail "a@b.c", .CreateUser "a@b.c" "pw",
           .StoreRefreshToken "u1" "refresh.token" 604800000000005]) := by
  constructor
  · have h := (register_conflict_or_created (exampleEnvAt (300 * Second) 5)
      (exampleRepos [exampleUser]) (exampleClock 5)
      { Email := "a@b.c", Password := "pw" }).1 exampleUser rfl
    exact ⟨h.1, h.2.2.1⟩
  · have h := (register_conflict_or_created (exampleEnvAt (300 * Second) 5)
      (exampleRepos []) (exampleClock 5)
      { Email := "a@b.c", Password := "pw" }).2
      { ID := "u1", Email := "a@b.c", PasswordHash := "pw", CreatedAt := 0, UpdatedAt := 0 }
      "access.token" "refresh.token" rfl rfl (by rfl) (by rfl) rfl
    exact ⟨h.1, h.2.2.1⟩

/-! ## Cycles in which every write returns -/

theorem failedWrites_of_ne (outcome : Conn → WriteOutcome) (c : Conn)
    (h : outcome c ≠ .failed) : failedWrites outcome c = false := by
  simp [failedWrites, h]

theorem failedWrites_failed (outcome : Conn → WriteOutcome) (c : Conn)
    (h : outcome c = .failed) : failedWrites outcome c = true := by
  simp [failedWrites, h]

/-- A sink that is not in the client set is not written by a cycle and is not
in the client set after it, whatever the writes of the cycle do. -/
theorem blockingCycle_not_mem (outcome : Conn → WriteOutcome) (msg : String) (k : Conn) :
    ∀ (order : List Conn) (b : Broadcaster), k ∉ b.clients →
      k ∉ (blockingCycle outcome msg order b).1.clients ∧
      attempts k (blockingCycle outcome msg order b).1 = attempts k b := by
  intro order
  induction order with
  | nil => intro b hk; exact ⟨hk, rfl⟩
  | cons x rest ih =>
    intro b hk
    unfold blockingCycle
    by_cases hmem : x ∈ b.clients
    · have hne : x ≠ k := fun h => hk (h ▸ hmem)
      cases ho : outcome x with
      | never => simp [hmem, hk]
      | failed =>
        simp only [hmem, if_true]
        have h := ih { clients := mapDelete x b.clients
                       writes := b.writes ++ [{ conn := x, data := msg, ok := false }]
                       closed := b.closed ++ [x] }
          (fun hin => hk ((mem_mapDelete k x b.clients).1 hin).1)
        refine ⟨h.1, ?_⟩
        rw [h.2]
        simp [attempts, hne]
      | ok =>
        simp only [hmem, if_true]
        have h := ih { b with writes := b.writes ++ [{ conn := x, data := msg, ok := true }] } hk
        refine ⟨h.1, ?_⟩
        rw [h.2]
        simp [attempts, hne]
    · simp only [hmem, if_false]
      exact ih b hk

/-- C5, as amended. For every registry of N sinks and every payload, one
cycle of `BroadcastLoop` in which every write returns, with an error or
without, is not left inside a write and calls `WriteMessage` with the payload
exactly once on each of the N sinks and on nothing else (N calls in all), so
every sink whose write does not fail receives exactly one copy. -/
theorem returning_cycle_fanout (b : Broadcaster) (msg : String) (cy : BlockingCycle)
    (hnd : b.clients.Nodup) (hperm : cy.order.Perm b.clients)
    (hret : ∀ c ∈ b.clients, cy.outcome c ≠ .never) :
    blockingCycle cy.outcome msg cy.order b
      = (broadcastCycle (failedWrites cy.outcome) msg cy.order b, false) ∧
    (∀ c, c ∈ b.clients →
        attempts c (blockingCycle cy.outcome msg cy.order b).1 = attempts c b ++ [msg]) ∧
    (∀ c, c ∉ b.clients →
        attempts c (blockingCycle cy.outcome msg cy.order b).1 = attempts c b) ∧
    (∀ c, c ∈ b.clients → cy.outcome c ≠ .failed →
        received c (blockingCycle cy.outcome msg cy.order b).1 = received c b ++ [msg]) ∧
    (blockingCycle cy.outcome msg cy.order b).1.writes.length
        = b.writes.length + b.clients.length := by
  have hcy := blockingCycle_returning cy.outcome msg cy.order b
    (fun c hc => hret c (hperm.mem_iff.1 hc))
  have h := broadcastCycle_fanout b msg cy.toCycle hnd hperm
  rw [hcy]
  refine ⟨rfl, h.1, h.2.1, ?_, h.2.2.2⟩
  intro c hc hok
  exact h.2.2.1 c hc (failedWrites_of_ne cy.outcome c hok)

/-- Witness of `returning_cycle_fanout`: two sinks, the write to the first
returns an error. -/
theorem returning_cycle_fanout_witness :
    attempts 1 (blockingCycle (fun c => if c = 1 then .failed else .ok) "p" [2, 1]
      { clients := [1, 2] }).1 = ["p"] ∧
    received 2 (blockingCycle (fun c => if c = 1 then .failed else .ok) "p" [2, 1]
      { clients := [1, 2] }).1 = ["p"] ∧
    (blockingCycle (fun c => if c = 1 then .failed else .ok) "p" [2, 1]
      { clients := [1, 2] }).1.writes.length = 2 := by
  have h := returning_cycle_fanout { clients := [1, 2] } "p"
    { order := [2, 1], outcome := fun c => if c = 1 then .failed else .ok }
    (by decide) (List.Perm.swap 1 2 []) (by decide)
  exact ⟨by simpa [attempts] using h.2.1 1 (by decide),
    by simpa [received] using h.2.2.2.1 2 (by decide) (by decide),
    by simpa using h.2.2.2.2⟩

/-- C5, as stated, fails: with three registered sinks, when the write to the
second one enumerated never returns, the cycle makes one write instead of
three, and the third sink, whose write would succeed, is not written the
payload at all. -/
theorem stalled_cycle_skips_sinks :
    blockingCycle (fun c => if c = 3 then .never else .ok) "p" [2, 3, 1] { clients := [1, 2, 3] }
      = ({ clients := [1, 2, 3], writes := [{ conn := 2, data := "p", ok := true }] }, true) ∧
    attempts 1 (blockingCycle (fun c => if c = 3 then .never else .ok) "p" [2, 3, 1]
      { clients := [1, 2, 3] }).1 = [] ∧
    received 1 (blockingCycle (fun c => if c = 3 then .never else .ok) "p" [2, 3, 1]
      { clients := [1, 2, 3] }).1 = [] := by
  decide

/-- C6, as amended. For every broadcast of a payload in which the write to
sink `k` fails and every write returns, `BroadcastLoop` still writes the
payload to every other registered sink in the same cycle (and the sink
receives it when its own write does not fail); `k` is not in the client set
after
the cycle, stays out of it under every later step other than a registration
of `k` itself, and the next cycle does not write to `k`. -/
theorem returning_cycle_fault_isolation (b : Broadcaster) (msg : String) (cy : BlockingCycle)
    (k : Conn) (hnd : b.clients.Nodup) (hperm : cy.order.Perm b.clients)
    (hk : k ∈ b.clients) (hfail : cy.outcome k = .failed)
    (hret : ∀ c ∈ b.clients, cy.outcome c ≠ .never) :
    blockingCycle cy.outcome msg cy.order b
      = (broadcastCycle (failedWrites cy.outcome) msg cy.order b, false) ∧
    (∀ c, c ∈ b.clients → c ≠ k →
        attempts c (blockingCycle cy.outcome msg cy.order b).1 = attempts c b ++ [msg]) ∧
    (∀ c, c ∈ b.clients → cy.outcome c ≠ .failed →
        received c (blockingCycle cy.outcome msg cy.order b).1 = received c b ++ [msg]) ∧
    k ∉ (blockingCycle cy.outcome msg cy.order b).1.clients ∧
    (∀ evs : List HubEvent, (∀ ev ∈ evs, ev.leavesOut k = true) →
        k ∉ ((blockingCycle cy.outcome msg cy.order b).1.run evs).clients) ∧
    (∀ (next : String) (cy2 : BlockingCycle),
        attempts k (blockingCycle cy2.outcome next cy2.order
            (blockingCycle cy.outcome msg cy.order b).1).1
          = attempts k (blockingCycle cy.outcome msg cy.order b).1) := by
  have hcy := blockingCycle_returning cy.outcome msg cy.order b
    (fun c hc => hret c (hperm.mem_iff.1 hc))
  have h := broadcastCycle_fault_isolation b msg cy.toCycle k hnd hperm hk
    (failedWrites_failed cy.outcome k hfail)
  rw [hcy]
  refine ⟨rfl, h.1, ?_, h.2.2.1, h.2.2.2.1, ?_⟩
  · intro c hc hok
    exact h.2.1 c hc (failedWrites_of_ne cy.outcome c hok)
  · intro next cy2
    exact (blockingCycle_not_mem cy2.outcome next k cy2.order _ h.2.2.1).2

/-- Witness of `returning_cycle_fault_isolation`: two sinks, the write to
the first returns an error. -/
theorem returning_cycle_fault_isolation_witness :
    received 2 (blockingCycle (fun c => if c = 1 then .failed else .ok) "p" [1, 2]
      { clients := [1, 2] }).1 = ["p"] ∧
    1 ∉ (blockingCycle (fun c => if c = 1 then .failed else .ok) "p" [1, 2]
      { clients := [1, 2] }).1.clients := by
  have h := returning_cycle_fault_isolation { clients := [1, 2] } "p"
    { order := [1, 2], outcome := fun c => if c = 1 then .failed else .ok } 1
    (by decide) (List.Perm.refl _) (by decide) (by decide) (by decide)
  exact ⟨by simpa [received] using h.2.2.1 2 (by decide) (by decide), h.2.2.2.1⟩

/-- C6, as stated, fails: with three registered sinks, when the write to the
first fails and the write to the second never returns, the failed sink is
removed but the third sink is not written the payload in that cycle. -/
theorem stalled_cycle_after_failure :
    (blockingCycle (fun c => if c = 1 then .failed else if c = 2 then .never else .ok) "p"
      [1, 2, 3] { clients := [1, 2, 3] }).2 = true ∧
    (blockingCycle (fun c => if c = 1 then .failed else if c = 2 then .never else .ok) "p"
      [1, 2, 3] { clients := [1, 2, 3] }).1.writes = [{ conn := 1, data := "p", ok := false }] ∧
    (blockingCycle (fun c => if c = 1 then .failed else if c = 2 then .never else .ok) "p"
      [1, 2, 3] { clients := [1, 2, 3] }).1.clients = [2, 3] ∧
    attempts 3 (blockingCycle (fun c => if c = 1 then .failed else if c = 2 then .never else .ok)
      "p" [1, 2, 3] { clients := [1, 2, 3] }).1 = [] := by
  decide

/-! ## The loop when every write returns -/

theorem returns_outcome (cy : BlockingCycle) (h : cy.returns = true) :
    ∀ c ∈ cy.order, cy.outcome c ≠ .never := by
  intro c hc hn
  have hall := List.all_eq_true.1 h c hc
  simp [hn] at hall

/-- A run in which every write returns is the run that `Broadcaster.run`
describes, and the loop is not left inside a write. -/
theorem blockingRun_returning : ∀ (evs : List BlockingEvent) (b : Broadcaster),
    (∀ ev ∈ evs, ev.returns = true) →
      b.blockingRun evs = (b.run (evs.map BlockingEvent.toHub), false) := by
  intro evs
  induction evs with
  | nil => intro b _; rfl
  | cons ev evs ih =>
    intro b hall
    have hev : ev.returns = true := hall ev (List.mem_cons_self _ _)
    have hrest : ∀ e ∈ evs, e.returns = true := fun e he => hall e (List.mem_cons_of_mem _ he)
    cases ev with
    | broadcast msg cy =>
      have hcy := blockingCycle_returning cy.outcome msg cy.order b (returns_outcome cy hev)
      simp only [Broadcaster.blockingRun, hcy, List.map_cons, BlockingEvent.toHub,
        Broadcaster.run, Broadcaster.step, BlockingCycle.toCycle]
      exact ih _ hrest
    | register c =>
      simp only [Broadcaster.blockingRun, List.map_cons, BlockingEvent.toHub, Broadcaster.run,
        Broadcaster.step]
      exact ih _ hrest
    | unregister c =>
      simp only [Broadcaster.blockingRun, List.map_cons, BlockingEvent.toHub, Broadcaster.run,
        Broadcaster.step]
      exact ih _ hrest

/-- The loop `BroadcastLoop` is the run of its iterations. -/
theorem blockingLoop_eq_blockingRun : ∀ (msgs : List String) (cycles : List BlockingCycle)
    (b : Broadcaster), blockingLoop msgs cycles b = b.blockingRun (blockingBroadcasts msgs cycles)
  | [], _, b => by simp [blockingLoop, blockingBroadcasts, Broadcaster.blockingRun]
  | _ :: _, [], b => by simp [blockingLoop, blockingBroadcasts, Broadcaster.blockingRun]
  | msg :: msgs, cy :: cys, b => by
    simp only [blockingLoop, blockingBroadcasts, Broadcaster.blockingRun]
    rw [blockingLoop_eq_blockingRun msgs cys]

theorem BroadcastLoop_eq_run : ∀ (msgs : List String) (cycles : List BlockingCycle)
    (b : Broadcaster),
    BroadcastLoop msgs (cycles.map BlockingCycle.toCycle) b
      = b.run ((blockingBroadcasts msgs cycles).map BlockingEvent.toHub)
  | [], _, b => by simp [BroadcastLoop, blockingBroadcasts, Broadcaster.run]
  | _ :: _, [], b => by simp [BroadcastLoop, blockingBroadcasts, Broadcaster.run]
  | msg :: msgs, cy :: cys, b => by
    simp only [List.map_cons, BroadcastLoop, blockingBroadcasts, BlockingEvent.toHub,
      Broadcaster.run, Broadcaster.step]
    exact BroadcastLoop_eq_run msgs cys _

theorem payloads_blockingBroadcasts : ∀ (msgs : List String) (cycles : List BlockingCycle),
    msgs.length ≤ cycles.length →
      payloads ((blockingBroadcasts msgs cycles).map BlockingEvent.toHub) = msgs
  | [], _, _ => by simp [blockingBroadcasts, payloads]
  | _ :: _, [], h => by simp at h
  | msg :: msgs, cy :: cys, h => by
    simp only [blockingBroadcasts, List.map_cons, BlockingEvent.toHub, payloads]
    rw [payloads_blockingBroadcasts msgs cys (by simpa using h)]

/-- C7, as amended. For every sequence of payloads accepted from the queue in
whose cycles every write returns, and every sink that is registered at the
start, is never removed and never fails a write for the whole sequence
(whatever registrations and removals of other sinks by `HandleWebSocket` come
in between), `BroadcastLoop` is not left inside a write and the messages it
writes to that sink are exactly the accepted payloads, in the order accepted:
nothing dropped, merged or duplicated; the sink is still registered at the
end.  When no other step comes in between, this is the loop `BroadcastLoop`
on the messages of the queue. -/
theorem returning_loop_preserves_order (c : Conn) (evs : List BlockingEvent) (b : Broadcaster)
    (hnd : b.clients.Nodup) (hc : c ∈ b.clients)
    (hvalid : ValidRun b (evs.map BlockingEvent.toHub))
    (hret : ∀ ev ∈ evs, ev.returns = true)
    (hkeep : ∀ ev ∈ evs, ev.toHub.keeps c = true) :
    b.blockingRun evs = (b.run (evs.map BlockingEvent.toHub), false) ∧
    received c (b.blockingRun evs).1
      = received c b ++ payloads (evs.map BlockingEvent.toHub) ∧
    c ∈ (b.blockingRun evs).1.clients ∧
    (∀ (msgs : List String) (cycles : List BlockingCycle),
      evs = blockingBroadcasts msgs cycles → msgs.length ≤ cycles.length →
      blockingLoop msgs cycles b
        = (BroadcastLoop msgs (cycles.map BlockingCycle.toCycle) b, false) ∧
      received c (BroadcastLoop msgs (cycles.map BlockingCycle.toCycle) b)
        = received c b ++ msgs ∧
      c ∈ (BroadcastLoop msgs (cycles.map BlockingCycle.toCycle) b).clients) := by
  have hrun := blockingRun_returning evs b hret
  have hkeep2 : ∀ ev ∈ evs.map BlockingEvent.toHub, ev.keeps c = true := by
    intro ev hev
    rcases List.mem_map.1 hev with ⟨e, he, rfl⟩
    exact hkeep e he
  have h := run_preserves_order c (evs.map BlockingEvent.toHub) b hnd hc hvalid hkeep2
  refine ⟨hrun, ?_, ?_, ?_⟩
  · rw [hrun]; exact h.1
  · rw [hrun]; exact h.2
  · intro msgs cycles hevs hlen
    subst hevs
    rw [blockingLoop_eq_blockingRun, hrun, BroadcastLoop_eq_run]
    refine ⟨rfl, ?_, h.2⟩
    rw [h.1, payloads_blockingBroadcasts msgs cycles hlen]

/-- Witness of `returning_loop_preserves_order`: three payloads, a second
sink whose write fails in the first cycle. -/
theorem returning_loop_preserves_order_witness :
    received 1 (BroadcastLoop ["a", "b", "c"]
      ([{ order := [2, 1], outcome := fun c => if c = 2 then .failed else .ok },
        { order := [1], outcome := fun _ => .ok },
        { order := [1], outcome := fun _ => .ok }].map BlockingCycle.toCycle)
      { clients := [1, 2] }) = ["a", "b", "c"] := by
  have h := (returning_loop_preserves_order 1
    (blockingBroadcasts ["a", "b", "c"]
      [{ order := [2, 1], outcome := fun c => if c = 2 then .failed else .ok },
       { order := [1], outcome := fun _ => .ok },
       { order := [1], outcome := fun _ => .ok }])
    { clients := [1, 2] } (by decide) (by decide)
    (by
      refine ⟨List.Perm.swap 1 2 [], ?_, ?_, ?_⟩
      · exact (by decide : [1].Perm [1])
      · exact (by decide : [1].Perm [1])
      · trivial)
    (by
      intro ev hev
      simp only [blockingBroadcasts, List.mem_cons, List.mem_singleton, List.not_mem_nil,
        or_false] at hev
      rcases hev with h | h | h <;> subst h <;> decide)
    (by
      intro ev hev
      simp only [blockingBroadcasts, List.mem_cons, List.mem_singleton, List.not_mem_nil,
        or_false] at hev
      rcases hev with h | h | h <;> subst h <;> decide)).2.2.2 _ _ rfl (by decide)
  simpa [received] using h.2.1

/-- C7, as stated, fails: sink 1 stays registered and no write to it fails,
but the write to sink 2, enumerated first, never returns; of the payload
accepted from the queue sink 1 receives nothing, and `BroadcastLoop` stays
inside that write. -/
theorem stalled_loop_drops_payload :
    (blockingLoop ["p"] [{ order := [2, 1], outcome := fun c => if c = 2 then .never else .ok }]
      { clients := [1, 2] }).2 = true ∧
    received 1 (blockingLoop ["p"]
      [{ order := [2, 1], outcome := fun c => if c = 2 then .never else .ok }]
      { clients := [1, 2] }).1 = [] ∧
    1 ∈ (blockingLoop ["p"]
      [{ order := [2, 1], outcome := fun c => if c = 2 then .never else .ok }]
      { clients := [1, 2] }).1.clients ∧
    received 1 (BroadcastLoop ["p"] [{ order := [2, 1], fails := fun _ => false }]
      { clients := [1, 2] }) = ["p"] := by
  decide

/-! ## The mutex when a write may never return -/

/-- When every write returns, the steps of the inner loop are those of
`cycleBody`. -/
theorem blockingBody_returning (outcome : Conn → WriteOutcome) (msg : String) :
    ∀ (order clients : List Conn), (∀ c ∈ order, outcome c ≠ .never) →
      blockingBody outcome msg order clients
        = (cycleBody (failedWrites outcome) msg order clients, none) := by
  intro order
  induction order with
  | nil => intro clients _; rfl
  | cons x rest ih =>
    intro clients hall
    have hx : outcome x ≠ .never := hall x (List.mem_cons_self _ _)
    have hrest : ∀ c ∈ rest, outcome c ≠ .never :=
      fun c hc => hall c (List.mem_cons_of_mem _ hc)
    unfold blockingBody cycleBody
    by_cases hmem : x ∈ clients
    · cases ho : outcome x with
      | never => exact absurd ho hx
      | failed => simp [hmem, ho, failedWrites, ih _ hrest]
      | ok => simp [hmem, ho, failedWrites, ih _ hrest]
    · simp [hmem, ih _ hrest]

/-- The steps of the inner loop hold no access to the map outside the mutex
and neither take nor release it. -/
theorem blockingBody_held (outcome : Conn → WriteOutcome) (msg : String) :
    ∀ (order clients : List Conn) (tail : List Action),
      mapAccessOutsideLock true ((blockingBody outcome msg order clients).1 ++ tail)
        = mapAccessOutsideLock true tail ∧
      lockDiscipline true ((blockingBody outcome msg order clients).1 ++ tail)
        = lockDiscipline true tail := by
  intro order
  induction order with
  | nil => intro clients tail; exact ⟨rfl, rfl⟩
  | cons x rest ih =>
    intro clients tail
    unfold blockingBody
    by_cases hmem : x ∈ clients
    · cases ho : outcome x with
      | never => simp [hmem]
      | failed =>
        simp [hmem, mapAccessOutsideLock, lockDiscipline, Action.isMapAccess, ih]
      | ok =>
        simp [hmem, mapAccessOutsideLock, lockDiscipline, Action.isMapAccess, ih]
    · simp [hmem, ih]

theorem blockingBody_no_lock (outcome : Conn → WriteOutcome) (msg : String) :
    ∀ (order clients : List Conn), ∀ a ∈ (blockingBody outcome msg order clients).1,
      a ≠ .lock ∧ a ≠ .unlock := by
  intro order
  induction order with
  | nil => intro clients a ha; cases ha
  | cons x rest ih =>
    intro clients a ha
    unfold blockingBody at ha
    by_cases hmem : x ∈ clients
    · cases ho : outcome x with
      | never => simp [hmem, ho] at ha
      | failed =>
        simp only [hmem, ho, if_true, List.mem_cons] at ha
        rcases ha with h | h | h | h
        · subst h; exact ⟨by simp, by simp⟩
        · subst h; exact ⟨by simp, by simp⟩
        · subst h; exact ⟨by simp, by simp⟩
        · exact ih _ a h
      | ok =>
        simp only [hmem, ho, if_true, List.mem_cons] at ha
        rcases ha with h | h
        · subst h; exact ⟨by simp, by simp⟩
        · exact ih _ a h
    · simp only [hmem, if_false] at ha
      exact ih _ a ha

/-- The sink on whose write the inner loop is stuck is one that the
enumeration produces and whose write never returns. -/
theorem blockingBody_stuck (outcome : Conn → WriteOutcome) (msg : String) (k : Conn) :
    ∀ (order clients : List Conn), (blockingBody outcome msg order clients).2 = some k →
      outcome k = .never ∧ k ∈ order := by
  intro order
  induction order with
  | nil => intro clients h; simp [blockingBody] at h
  | cons x rest ih =>
    intro clients h
    unfold blockingBody at h
    by_cases hmem : x ∈ clients
    · cases ho : outcome x with
      | never =>
        simp only [hmem, ho, if_true, Option.some.injEq] at h
        subst h
        exact ⟨ho, List.mem_cons_self _ _⟩
      | failed =>
        simp only [hmem, ho, if_true] at h
        exact ⟨(ih _ h).1, List.mem_cons_of_mem _ (ih _ h).2⟩
      | ok =>
        simp only [hmem, ho, if_true] at h
        exact ⟨(ih _ h).1, List.mem_cons_of_mem _ (ih _ h).2⟩
    · simp only [hmem, if_false] at h
      exact ⟨(ih _ h).1, List.mem_cons_of_mem _ (ih _ h).2⟩

/-- The steps of the inner loop carry the broadcaster to the state that
`blockingCycle` gives, and the loop is stuck exactly when a sink is named. -/
theorem exec_blockingBody (outcome : Conn → WriteOutcome) (msg : String) :
    ∀ (order : List Conn) (b : Broadcaster),
      blockingCycle outcome msg order b
        = (b.exec (blockingBody outcome msg order b.clients).1,
           (blockingBody outcome msg order b.clients).2.isSome) := by
  intro order
  induction order with
  | nil => intro b; rfl
  | cons x rest ih =>
    intro b
    unfold blockingCycle blockingBody
    by_cases hmem : x ∈ b.clients
    · cases ho : outcome x with
      | never => simp [hmem, Broadcaster.exec]
      | failed =>
        simp only [hmem, if_true, Broadcaster.exec, Broadcaster.perform]
        exact ih _
      | ok =>
        simp only [hmem, if_true, Broadcaster.exec, Broadcaster.perform]
        exact ih _
    · simp only [hmem, if_false]
      exact ih b

/-- C22, as amended. Every access to the client set is made with the mutex
held: in `HandleWebSocket` the insertion and the deletion each lie between a
`Lock` and its `Unlock`, and in a cycle of `BroadcastLoop` the enumeration,
with its deletions, comes after the `Lock` of the cycle and before any
`Unlock`, whatever the writes do.  Each function takes the mutex only when it
does not hold it.  Every `Lock` of `HandleWebSocket` is followed by its
`Unlock` on every path, and the `Lock` of a cycle is followed by its `Unlock`
when every write of the cycle returns; when a write never returns, the cycle
makes no `Unlock` and the mutex stays held. -/
theorem map_access_serialized (outcome : Conn → WriteOutcome) (msg : String)
    (order clients : List Conn) (call : WebSocketCall) :
    mapAccessOutsideLock false (HandleWebSocket call) = [] ∧
    lockDiscipline false (HandleWebSocket call) = some false ∧
    mapAccessOutsideLock false (blockingActions outcome msg order clients).1 = [] ∧
    lockDiscipline false (blockingActions outcome msg order clients).1
      = some (blockingActions outcome msg order clients).2.isSome ∧
    ((∀ c ∈ order, outcome c ≠ .never) →
      blockingActions outcome msg order clients
        = (cycleActions (failedWrites outcome) msg order clients, none) ∧
      lockDiscipline false (blockingActions outcome msg order clients).1 = some false) ∧
    (∀ k, (blockingActions outcome msg order clients).2 = some k →
      outcome k = .never ∧ k ∈ order ∧
      Action.unlock ∉ (blockingActions outcome msg order clients).1 ∧
      lockDiscipline false (blockingActions outcome msg order clients).1 = some true) ∧
    (∀ b : Broadcaster,
      blockingCycle outcome msg order b
        = (b.exec (blockingActions outcome msg order b.clients).1,
           (blockingActions outcome msg order b.clients).2.isSome)) ∧
    (blockingActions outcome msg order clients).1
      = .lock :: ((blockingBody outcome msg order clients).1
          ++ if (blockingBody outcome msg order clients).2.isSome then [] else [.unlock]) ∧
    (∀ a ∈ (blockingBody outcome msg order clients).1, a ≠ .lock ∧ a ≠ .unlock) ∧
    (∀ conn, call.upgrade = some conn →
      HandleWebSocket call
        = [.lock, .insert conn, .unlock] ++ readLoop conn call.inbound
            ++ [.lock, .delete conn, .unlock, .close conn]) := by
  have hold := map_access_under_mutex (failedWrites outcome) msg order clients call
  have hacc : mapAccessOutsideLock false (blockingActions outcome msg order clients).1 = [] := by
    unfold blockingActions
    cases hs : (blockingBody outcome msg order clients).2 with
    | none =>
      simp only [mapAccessOutsideLock]
      rw [(blockingBody_held outcome msg order clients [.unlock]).1]
      rfl
    | some k =>
      simp only [mapAccessOutsideLock]
      have h := (blockingBody_held outcome msg order clients []).1
      rw [List.append_nil] at h
      rw [h]
      rfl
  have hdisc : lockDiscipline false (blockingActions outcome msg order clients).1
      = some (blockingActions outcome msg order clients).2.isSome := by
    unfold blockingActions
    cases hs : (blockingBody outcome msg order clients).2 with
    | none =>
      simp only [lockDiscipline, Bool.false_eq_true, if_false]
      rw [(blockingBody_held outcome msg order clients [.unlock]).2]
      rfl
    | some k =>
      simp only [lockDiscipline, Bool.false_eq_true, if_false]
      have h := (blockingBody_held outcome msg order clients []).2
      rw [List.append_nil] at h
      rw [h]
      rfl
  refine ⟨hold.1, hold.2.1, hacc, hdisc, ?_, ?_, ?_, ?_,
    blockingBody_no_lock outcome msg order clients, hold.2.2.2.2.2.2⟩
  · intro hret
    have hb := blockingBody_returning outcome msg order clients hret
    have he : blockingActions outcome msg order clients
        = (cycleActions (failedWrites outcome) msg order clients, none) := by
      simp [blockingActions, hb, cycleActions]
    refine ⟨he, ?_⟩
    rw [he]
    exact hold.2.2.2.1
  · intro k hk
    have hs : (blockingBody outcome msg order clients).2 = some k := by
      unfold blockingActions at hk
      cases hs : (blockingBody outcome msg order clients).2 with
      | none => simp [hs] at hk
      | some j => simpa [hs] using hk
    have hst := blockingBody_stuck outcome msg k order clients hs
    refine ⟨hst.1, hst.2, ?_, ?_⟩
    · simp only [blockingActions, hs, List.mem_cons, not_or]
      refine ⟨by simp, ?_⟩
      intro hmem
      exact (blockingBody_no_lock outcome msg order clients _ hmem).2 rfl
    · rw [hdisc, hk]
      rfl
  · intro b
    rw [exec_blockingBody]
    unfold blockingActions
    cases hs : (blockingBody outcome msg order b.clients).2 with
    | none =>
      simp only [Broadcaster.exec, Broadcaster.perform, Option.isSome_none]
      rw [exec_append]
      rfl
    | some k =>
      simp only [Broadcaster.exec, Broadcaster.perform, Option.isSome_some]
  · unfold blockingActions
    cases hs : (blockingBody outcome msg order clients).2 with
    | none => simp
    | some k => simp

/-- Witness of `map_access_serialized`: a cycle over two sinks whose writes
return, the first with an error, and one call of `HandleWebSocket`. -/
theorem map_access_serialized_witness :
    blockingActions (fun c => if c = 1 then .failed else .ok) "p" [1, 2] [1, 2]
      = ([.lock, .write 1 "p" false, .close 1, .delete 1, .write 2 "p" true, .unlock], none) ∧
    lockDiscipline false
      (blockingActions (fun c => if c = 1 then .failed else .ok) "p" [1, 2] [1, 2]).1
      = some false := by
  have h := (map_access_serialized (fun c => if c = 1 then .failed else .ok) "p" [1, 2] [1, 2]
    { upgrade := some 7, inbound := ["hello"] }).2.2.2.2.1 (by decide)
  exact ⟨by rw [h.1]; decide, h.2⟩

/-- C22, as stated, fails: on the path of `BroadcastLoop` where the write to
the one registered sink never returns, the `Lock` of the cycle is followed by
no `Unlock`; the mutex is held at the end of what the cycle does, and the
cycle is stuck. -/
theorem stalled_write_keeps_mutex :
    blockingActions (fun _ => .never) "p" [1] [1] = ([.lock], some 1) ∧
    lockDiscipline false (blockingActions (fun _ => .never) "p" [1] [1]).1 = some true ∧
    Action.unlock ∉ (blockingActions (fun _ => .never) "p" [1] [1]).1 ∧
    blockingCycle (fun _ => .never) "p" [1] { clients := [1] } = ({ clients := [1] }, true) := by
  decide

end Binance
